import Mathlib

/-!
Verification development for the IFC-to-grid fire-escape checker.

The Python source (`pathfinding.py`, `ifc_processing.py`, `app.py`) is embedded
shallowly:

* cell kinds are the strings used by the source (`'empty'`, `'floor'`, `'wall'`,
  `'door'`, `'stair'`, `'walla'`), modelled as an inductive type.  The string
  `'walla'` is the wall-buffer marker written by the grid manager
  (`grid_management.py`, which only exists as an import here); the specification
  calls this kind `wall_buffer`.
* Python floats are modelled as exact arithmetic in a linear ordered field
  (instantiated with `ℚ` in all concrete computations).  The few quantities the
  source computes with transcendental float operations (`tan 55°`, the sixteen
  `cos`/`sin` compass offsets, the stair-edge Euclidean weight) are passed in as
  explicit oracle parameters, so every theorem quantifies over every value those
  float computations could produce.
* `networkx.Graph` is modelled by `EGraph`: a node list plus an undirected
  edge/weight association list in which `add_edge` overwrites the weight of an
  existing edge, exactly as the networkx dictionary write does.
* `nx.astar_path` is external library code; it is modelled as an oracle
  `astar : Node → Node → Option (List Node)` so that statements hold for every
  path the library could return, and counterexamples instantiate the oracle with
  the unique paths of the concrete graph at hand.
* Python's unbounded recursion / `while` loops are modelled with explicit fuel,
  always instantiated large enough that the fuel never runs out on inputs of the
  stated size.
-/

attribute [local semireducible] Rat.add Rat.sub Rat.mul

/-- Cell kinds, exactly the strings the source stores into grids.  `walla` is
the wall-buffer marker (the specification's `wall_buffer`). -/
inductive CellKind where
  | empty
  | floor
  | wall
  | door
  | stair
  | walla
deriving DecidableEq, Repr

/-- One storey grid: `grid[x][y]`, `len(grid)` rows indexed by `x` and
`len(grid[0])` columns indexed by `y`, as in the source. -/
abbrev Grid : Type := List (List CellKind)

/-- The per-storey stack of grids (`self.buffered_grids` / `self.grids`). -/
abbrev GridStack : Type := List Grid

/-- Number of rows `len(grid)`. -/
def Grid.rows (g : Grid) : ℕ := g.length

/-- Number of columns `len(grid[0])`, the bound the source uses for `y`. -/
def Grid.cols (g : Grid) : ℕ := (g.headD []).length

/-- `grid[x][y]` as an `Option` (the source raises `IndexError` out of range;
grids served to the pathfinder are rectangular, validated upstream). -/
def Grid.at? (g : Grid) (x y : ℕ) : Option CellKind :=
  (g.get? x).bind (fun row => row.get? y)

/-- `grid[x][y]` at signed indices: negative indices are out of range here
(the pathfinder never indexes negatively). -/
def Grid.atZ? (g : Grid) (x y : ℤ) : Option CellKind :=
  if 0 ≤ x ∧ 0 ≤ y then g.at? x.toNat y.toNat else none

/-- `self.grids[floor][x][y]` over the stack, at signed indices. -/
def GridStack.cell? (grids : GridStack) (f x y : ℤ) : Option CellKind :=
  if 0 ≤ f then (grids.get? f.toNat).bind (fun g => g.atZ? x y) else none

/-- Graph nodes `(x, y, floor)`.  Integer coordinates: candidate points are
produced by Python `int()` casts and may in principle be negative. -/
abbrev Node : Type := ℤ × ℤ × ℤ

/-- The floor component of a node. -/
def Node.flr (n : Node) : ℤ := n.2.2

/-- Python `int()` on an exact rational: truncation toward zero. -/
def ratTrunc (q : ℚ) : ℤ := Int.tdiv q.num (q.den : ℤ)

/-- Floor of a rational, written so that it reduces inside the kernel. -/
def ratFloor (q : ℚ) : ℤ := q.num.fdiv q.den

/-- Python `round()` on an exact rational: round half to even. -/
def pyRound (q : ℚ) : ℤ :=
  let f : ℤ := ratFloor q
  let r : ℚ := q - f
  if r < mkRat 1 2 then f
  else if mkRat 1 2 < r then f + 1
  else if f % 2 = 0 then f else f + 1

/-- Model of Python's `%.2f` / `:.2f` float formatting on an exact rational
(round half to even at the second decimal, two decimal digits printed). -/
def format2 (q : ℚ) : String :=
  let neg := q < 0
  let n : ℤ := pyRound ((if q < 0 then -q else q) * 100)
  let ip : ℤ := n / 100
  let fr : ℕ := n.toNat % 100
  let s := toString ip ++ "." ++ (if fr < 10 then "0" else "") ++ toString fr
  if neg then "-" ++ s else s

/-- The two violation buckets returned by `check_escape_route_rules`
(`pathfinding.py`; this variant has no `general` bucket). -/
structure Violations where
  daytime : List String
  nighttime : List String
deriving DecidableEq, Repr

/-- `check_escape_route_rules(route, grid_size)` from `pathfinding.py`.
`route['distance_to_stair']` and `route['distance']` are the two mandatory
fields; `dead_end_length` and `stairway_distance` are optional keys (`none`
models a key that is absent).  `gridSize` is accepted and unused, as in the
source. -/
def checkEscapeRouteRules (distanceToStair distance : ℚ)
    (deadEndLength stairwayDistance : Option ℚ) (gridSize : ℚ) : Violations :=
  let _ := gridSize
  let mk := fun (evacMax exitMax : ℚ) (evacMaxS exitMaxS : String) =>
    (if evacMax < distanceToStair then
      ["Distance to evacuation route (" ++ format2 distanceToStair ++
        "m) exceeds maximum (" ++ evacMaxS ++ "m)"] else []) ++
    (if exitMax < distance then
      ["Distance to nearest exit (" ++ format2 distance ++
        "m) exceeds maximum (" ++ exitMaxS ++ "m)"] else [])
  let deadEnd := match deadEndLength with
    | some d => if 15 < d then
        ["Dead-end length (" ++ format2 d ++ "m) exceeds maximum (15m)"] else []
    | none => []
  let stairway := match stairwayDistance with
    | some s =>
      if s < 10 then
        ["Stairway distance (" ++ format2 s ++ "m) is less than minimum (10m)"]
      else if 60 < s then
        ["Stairway distance (" ++ format2 s ++ "m) exceeds maximum (60m)"]
      else []
    | none => []
  { daytime := mk 30 45 "30" "45" ++ deadEnd ++ stairway
    nighttime := mk 20 30 "20" "30" ++ deadEnd ++ stairway }

/-- A floor record as produced by `calculate_bounding_box_and_floors`
(`ifc_processing.py`); the `guid`/`name` metadata is irrelevant to the floor
heights and omitted. -/
structure FloorRec where
  elevation : ℚ
  height : ℚ
deriving DecidableEq, Repr

/-- The filtering loop of `calculate_bounding_box_and_floors`
(`ifc_processing.py` lines 239–244): pair each elevation with the next one
(`bbox['max_z']` for the last) and keep the floors whose height lies strictly
between 1.6 and 10.  The float literal 1.6 is the exact rational 8/5. -/
def floorCandidates (floorElevations : List ℚ) (maxZ : ℚ) : List FloorRec :=
  (floorElevations.zip (floorElevations.tail ++ [maxZ])).filterMap
    (fun p =>
      let height := p.2 - p.1
      if mkRat 8 5 < height ∧ height < 10 then some ⟨p.1, height⟩ else none)

/-- The floor list returned by `calculate_bounding_box_and_floors`: the
filtered candidates, or the single bounding-box fallback floor when the filter
kept nothing. -/
def deriveFloors (floorElevations : List ℚ) (minZ maxZ : ℚ) : List FloorRec :=
  let floors := floorCandidates floorElevations maxZ
  if floors = [] then [⟨minZ, maxZ - minZ⟩] else floors

/-- Undirected weighted graph, modelling `networkx.Graph` as used by the
source: a node list plus an edge association list.  `add_edge` overwrites the
weight when the edge (in either orientation) already exists, exactly like the
networkx attribute-dictionary write. -/
structure EGraph (α : Type) where
  nodes : List Node
  edges : List ((Node × Node) × α)
deriving DecidableEq

/-- Whether a stored edge key joins `u` and `v` (in either orientation). -/
def edgeMatches (p : Node × Node) (u v : Node) : Bool :=
  decide ((p.1 = u ∧ p.2 = v) ∨ (p.1 = v ∧ p.2 = u))

/-- `G.add_node(n)` (node attributes, unused by any verified property, are
dropped). -/
def EGraph.addNode {α : Type} (G : EGraph α) (n : Node) : EGraph α :=
  if n ∈ G.nodes then G else { G with nodes := G.nodes ++ [n] }

/-- `G.add_edge(u, v, weight=w)`: inserts missing endpoints, then writes the
weight, overwriting an existing edge in either orientation. -/
def EGraph.addEdge {α : Type} (G : EGraph α) (u v : Node) (w : α) : EGraph α :=
  let G1 := (G.addNode u).addNode v
  if G1.edges.any (fun e => edgeMatches e.1 u v) then
    { G1 with edges := G1.edges.map (fun e => if edgeMatches e.1 u v then (e.1, w) else e) }
  else
    { G1 with edges := G1.edges ++ [((u, v), w)] }

/-- `G[u][v]['weight']` as an `Option`. -/
def EGraph.weight? {α : Type} (G : EGraph α) (u v : Node) : Option α :=
  (G.edges.find? (fun e => edgeMatches e.1 u v)).map (fun e => e.2)

/-- Whether the graph has an edge between `u` and `v`. -/
def EGraph.hasEdge {α : Type} (G : EGraph α) (u v : Node) : Bool :=
  G.edges.any (fun e => edgeMatches e.1 u v)

/-- The neighbor offsets of `_create_graph`: 4-connectivity, extended with the
four diagonal offsets when `allow_diagonal` is set. -/
def neighborOffsets (allowDiagonal : Bool) : List (ℤ × ℤ) :=
  [(0, 1), (1, 0), (0, -1), (-1, 0)] ++
    (if allowDiagonal then [(1, 1), (1, -1), (-1, 1), (-1, -1)] else [])

/-- `_get_edge_weight(cell_type, neighbor, is_diagonal)` from `pathfinding.py`.
In the source the guard is `if neighbor and self != neighbor`; `self` is the
`Pathfinder` object and `neighbor` a tuple, so `self != neighbor` is always
true and the guard reduces to `neighbor` being non-`None`.  `sqrt2` is the
value of the float expression `2**0.5`. -/
def getEdgeWeight {α : Type} [LinearOrderedField α] (minimizeCost : Bool) (sqrt2 : α)
    (cellType : CellKind) (neighbor : Option Node) (isDiagonal : Bool) : α :=
  let weight : α :=
    if minimizeCost then
      if neighbor.isSome then
        match cellType with
        | CellKind.door => 4
        | CellKind.stair => 4
        | _ => 1
      else 1
    else 1
  weight * (if isDiagonal then sqrt2 else 1)

/-- Static configuration of a `Pathfinder` graph build.  The oracle fields
stand for the float computations of `_connect_stairs`: `offsets d` is the list
of the sixteen compass offsets `(round(d·cos θ), round(d·sin θ))`, `gridDist lo
hi` is `int(round((elevation(hi) − elevation(lo)) / (tan 55° · grid_size)))`,
and `stairW u v` is `_calculate_stair_weight(u, v, Δz)`. -/
structure PFConfig (α : Type) where
  minimizeCost : Bool
  allowDiagonal : Bool
  sqrt2 : α
  offsets : ℤ → List (ℤ × ℤ)
  gridDist : ℕ → ℕ → ℤ
  stairW : Node → Node → α

/-- The body of `_create_graph`'s cell loop for one cell `(x, y)` of one floor:
add the cell as a node when its kind is neither `wall` nor `walla`, then add an
edge to every in-bounds passable neighbor, weighted from the current cell's
kind. -/
def processCell {α : Type} [LinearOrderedField α] (cfg : PFConfig α) (grid : Grid)
    (floorIdx : ℕ) (G : EGraph α) (x y : ℕ) : EGraph α :=
  match grid.at? x y with
  | none => G
  | some k =>
    if k ≠ CellKind.wall ∧ k ≠ CellKind.walla then
      let node : Node := ((x : ℤ), (y : ℤ), (floorIdx : ℤ))
      let G := G.addNode node
      (neighborOffsets cfg.allowDiagonal).foldl (fun G d =>
        let nx : ℤ := (x : ℤ) + d.1
        let ny : ℤ := (y : ℤ) + d.2
        if 0 ≤ nx ∧ nx < (grid.rows : ℤ) ∧ 0 ≤ ny ∧ ny < (grid.cols : ℤ) then
          match grid.atZ? nx ny with
          | none => G
          | some nk =>
            if nk ≠ CellKind.wall ∧ nk ≠ CellKind.walla then
              let neighbor : Node := (nx, ny, (floorIdx : ℤ))
              G.addEdge node neighbor
                (getEdgeWeight cfg.minimizeCost cfg.sqrt2 k (some neighbor)
                  (decide (d.1 ≠ (0 : ℤ) ∧ d.2 ≠ (0 : ℤ))))
            else G
        else G) G
    else G

/-- Row-major list of all `(x, y)` cell positions of a grid, the iteration
order of `_create_graph`. -/
def cellPositions (grid : Grid) : List (ℕ × ℕ) :=
  (List.range grid.rows).bind (fun x => (List.range grid.cols).map (fun y => (x, y)))

/-- The per-floor node/edge construction loop of `_create_graph`. -/
def buildFloorNodes {α : Type} [LinearOrderedField α] (cfg : PFConfig α) (grid : Grid)
    (floorIdx : ℕ) (G : EGraph α) : EGraph α :=
  (cellPositions grid).foldl (fun G p => processCell cfg grid floorIdx G p.1 p.2) G

/-- `self.grids[f][x][y] == 'stair'` at natural indices. -/
def stairAt (grids : GridStack) (f x y : ℕ) : Bool :=
  decide ((grids.get? f).bind (fun g => g.at? x y) = some CellKind.stair)

/-- One step worth of new queue entries of `_flood_fill_3d`: the same-floor
4-neighbors that hold `stair` and are unvisited, then the directly
above/below cells that hold `stair` and are unvisited. -/
def floodNeighbors (grids : GridStack) (visited : List (ℕ × ℕ × ℕ))
    (c : ℕ × ℕ × ℕ) : List (ℕ × ℕ × ℕ) :=
  let x := c.1
  let y := c.2.1
  let f := c.2.2
  let rows : ℤ := ((grids.get? f).map Grid.rows).getD 0
  let cols : ℤ := ((grids.get? f).map Grid.cols).getD 0
  let planar := ([((0:ℤ), (1:ℤ)), (1, 0), (0, -1), (-1, 0)]).filterMap (fun d =>
    let nx : ℤ := (x : ℤ) + d.1
    let ny : ℤ := (y : ℤ) + d.2
    if 0 ≤ nx ∧ nx < rows ∧ 0 ≤ ny ∧ ny < cols ∧
        stairAt grids f nx.toNat ny.toNat = true ∧
        (nx.toNat, ny.toNat, f) ∉ visited then
      some (nx.toNat, ny.toNat, f)
    else none)
  let vertical := ([(f : ℤ) - 1, (f : ℤ) + 1]).filterMap (fun af =>
    if 0 ≤ af ∧ af < (grids.length : ℤ) ∧ stairAt grids af.toNat x y = true ∧
        (x, y, af.toNat) ∉ visited then
      some (x, y, af.toNat)
    else none)
  planar ++ vertical

/-- Fuel-driven worklist loop of `_flood_fill_3d` (a FIFO queue, popped at the
front, appended at the back). -/
def floodFill3dAux (grids : GridStack) :
    ℕ → List (ℕ × ℕ × ℕ) → List (ℕ × ℕ × ℕ) → List (ℕ × ℕ × ℕ)
  | 0, _, visited => visited
  | _ + 1, [], visited => visited
  | fuel + 1, c :: queue, visited =>
    if c ∈ visited then floodFill3dAux grids fuel queue visited
    else floodFill3dAux grids fuel (queue ++ floodNeighbors grids visited c)
      (visited ++ [c])

/-- Total cell count of the stack, used to size the flood-fill fuel. -/
def totalCells (grids : GridStack) : ℕ :=
  grids.foldl (fun a g => a + g.rows * g.cols) 0

/-- `_flood_fill_3d(start_x, start_y, start_floor)`. -/
def floodFill3d (grids : GridStack) (c : ℕ × ℕ × ℕ) : List (ℕ × ℕ × ℕ) :=
  floodFill3dAux grids (6 * totalCells grids + 6) [c] []

/-- Row-major list of all `(x, y, floor)` triples, the seed iteration order of
`_group_connected_stairs`. -/
def stackPositions (grids : GridStack) : List (ℕ × ℕ × ℕ) :=
  (List.range grids.length).bind (fun f =>
    match grids.get? f with
    | none => []
    | some g => (List.range g.rows).bind (fun x =>
        (List.range g.cols).map (fun y => (x, y, f))))

/-- `_group_connected_stairs`: flood-fill every unvisited `stair` cell into a
3D stair group. -/
def groupConnectedStairs (grids : GridStack) : List (List (ℕ × ℕ × ℕ)) :=
  ((stackPositions grids).foldl (fun st c =>
    if stairAt grids c.2.2 c.1 c.2.1 = true ∧ c ∉ st.1 then
      let group := floodFill3d grids c
      (st.1 ++ group, st.2 ++ [group])
    else st) (([], []) : List (ℕ × ℕ × ℕ) × List (List (ℕ × ℕ × ℕ)))).2

/-- Ascending insertion used to model Python's `sorted`. -/
def insertAsc (n : ℕ) : List ℕ → List ℕ
  | [] => [n]
  | m :: t => if n ≤ m then n :: m :: t else m :: insertAsc n t

/-- `sorted(set(l))`. -/
def sortedDistinct (l : List ℕ) : List ℕ :=
  l.foldl (fun acc n => if n ∈ acc then acc else insertAsc n acc) []

/-- `_check_path`: walk the straight line between the two stair cells by the
larger-axis parameterization and require every strictly interior sample to be
`stair` on the lower or on the upper floor.  The float samples
`int(start + i·step)` are modelled by exact rational truncation. -/
def checkPath (buffered : GridStack) (sx sy sf ex ey ef : ℕ) : Bool :=
  let dx : ℤ := (ex : ℤ) - (sx : ℤ)
  let dy : ℤ := (ey : ℤ) - (sy : ℤ)
  let steps : ℕ := max dx.natAbs dy.natAbs
  if steps = 0 then true
  else
    (List.range (steps - 1)).all (fun j =>
      let i : ℕ := j + 1
      let x : ℤ := ratTrunc ((sx : ℚ) + (i : ℚ) * ((dx : ℚ) * mkRat 1 steps))
      let y : ℤ := ratTrunc ((sy : ℚ) + (i : ℚ) * ((dy : ℚ) * mkRat 1 steps))
      decide (GridStack.cell? buffered (sf : ℤ) x y = some CellKind.stair ∨
        GridStack.cell? buffered (ef : ℤ) x y = some CellKind.stair))

/-- `_check_stair_connection`: succeed when one of the sixteen compass offsets
lands exactly on the target cell and the straight-line check passes. -/
def checkStairConnection (buffered : GridStack) (offs : List (ℤ × ℤ))
    (sx sy sf ex ey ef : ℕ) : Bool :=
  match offs.find? (fun d =>
      decide ((sx : ℤ) + d.1 = (ex : ℤ) ∧ (sy : ℤ) + d.2 = (ey : ℤ))) with
  | some _ => checkPath buffered sx sy sf ex ey ef
  | none => false

/-- `_connect_stairs_fallback`: connect every lower cell to every upper cell,
guarded by graph membership, with weight `_get_edge_weight('stair')` (no
neighbor argument, not diagonal). -/
def connectStairsFallback {α : Type} [LinearOrderedField α] (cfg : PFConfig α)
    (G : EGraph α) (lowers uppers : List (ℕ × ℕ × ℕ)) : EGraph α :=
  lowers.foldl (fun G p => uppers.foldl (fun G q =>
    let node1 : Node := ((p.1 : ℤ), (p.2.1 : ℤ), (p.2.2 : ℤ))
    let node2 : Node := ((q.1 : ℤ), (q.2.1 : ℤ), (q.2.2 : ℤ))
    if node1 ∈ G.nodes ∧ node2 ∈ G.nodes then
      G.addEdge node1 node2 (getEdgeWeight cfg.minimizeCost cfg.sqrt2 CellKind.stair none false)
    else G) G) G

/-- The body of `_connect_stairs` for one consecutive floor pair of one stair
group: try the angle check on every ordered cell pair, count connections, and
run the fallback when none was made. -/
def processStairPair {α : Type} [LinearOrderedField α] (cfg : PFConfig α)
    (buffered : GridStack) (lowerFloor upperFloor : ℕ)
    (lowers uppers : List (ℕ × ℕ × ℕ)) (G : EGraph α) : EGraph α :=
  let gd := cfg.gridDist lowerFloor upperFloor
  let offs := cfg.offsets gd
  let res := lowers.foldl (fun st p => uppers.foldl (fun st q =>
      if checkStairConnection buffered offs p.1 p.2.1 lowerFloor q.1 q.2.1 upperFloor then
        let startNode : Node := ((p.1 : ℤ), (p.2.1 : ℤ), (lowerFloor : ℤ))
        let endNode : Node := ((q.1 : ℤ), (q.2.1 : ℤ), (upperFloor : ℤ))
        if startNode ∈ st.1.nodes ∧ endNode ∈ st.1.nodes then
          (st.1.addEdge startNode endNode (cfg.stairW startNode endNode), st.2 + 1)
        else st
      else st) st) ((G, 0) : EGraph α × ℕ)
  if res.2 = 0 then connectStairsFallback cfg res.1 lowers uppers else res.1

/-- The body of `_connect_stairs` for one stair group: sort the floors present
in the group and process each consecutive pair. -/
def processStairGroup {α : Type} [LinearOrderedField α] (cfg : PFConfig α)
    (buffered : GridStack) (group : List (ℕ × ℕ × ℕ)) (G : EGraph α) : EGraph α :=
  let floors := sortedDistinct (group.map (fun c => c.2.2))
  (List.range (floors.length - 1)).foldl (fun G i =>
    let lowerFloor := floors.getD i 0
    let upperFloor := floors.getD (i + 1) 0
    let lowers := group.filter (fun c => decide (c.2.2 = lowerFloor))
    let uppers := group.filter (fun c => decide (c.2.2 = upperFloor))
    processStairPair cfg buffered lowerFloor upperFloor lowers uppers G) G

/-- `_connect_stairs(G)`. -/
def connectStairs {α : Type} [LinearOrderedField α] (cfg : PFConfig α)
    (buffered : GridStack) (G : EGraph α) : EGraph α :=
  (groupConnectedStairs buffered).foldl
    (fun G group => processStairGroup cfg buffered group G) G

/-- `_create_graph`: per-floor nodes and intra-floor edges in row-major order,
followed by the stair connection pass. -/
def createGraph {α : Type} [LinearOrderedField α] (cfg : PFConfig α)
    (buffered : GridStack) : EGraph α :=
  let G := (List.range buffered.length).foldl
    (fun G f =>
      match buffered.get? f with
      | none => G
      | some grid => buildFloorNodes cfg grid f G) (⟨[], []⟩ : EGraph α)
  connectStairs cfg buffered G

/-- A node stands on a passable cell of the stack: in range, with a kind that
is neither `wall` nor `walla` (the specification's `wall_buffer`). -/
def PassableNode (buffered : GridStack) (n : Node) : Prop :=
  ∃ k : CellKind, GridStack.cell? buffered n.2.2 n.1 n.2.1 = some k ∧
    k ≠ CellKind.wall ∧ k ≠ CellKind.walla

/-- `sum(self.graph[path[i]][path[i+1]]['weight'] for i in range(len(path)-1))`.
A missing edge (a `KeyError` in the source, never hit on paths returned by the
A* oracle) contributes `0`. -/
def pathWeight {α : Type} [LinearOrderedField α] (G : EGraph α) (p : List Node) : α :=
  (p.zip p.tail).foldl (fun acc uv => acc + ((G.weight? uv.1 uv.2).getD 0)) 0

/-- `next((i for i, node in enumerate(path) if self.grids[...] == 'stair'), -1)`:
index of the first node of the path standing on a `stair` cell. -/
def findStairIdx (grids : GridStack) (p : List Node) : Option ℕ :=
  p.findIdx? (fun n => decide (GridStack.cell? grids n.2.2 n.1 n.2.1 = some CellKind.stair))

/-- Loop state of the inner (per-exit) loop of `calculate_escape_route`:
`min_exit_distance` (`none` models `float('inf')`), `best_exit`, `best_path`,
and `current_distance_to_stair` with the source's `-1` sentinel. -/
structure ExitScan (α : Type) where
  minDist : Option α
  bestExit : Option Node
  bestPath : Option (List Node)
  curStair : α
deriving DecidableEq

/-- One iteration of the per-exit loop of `calculate_escape_route`: skip exits
that are not graph nodes or not reachable; fold the distance to the first
stair of the returned path into `current_distance_to_stair`; keep the strictly
closest exit. -/
def scanExit {α : Type} [LinearOrderedField α] (grids : GridStack) (G : EGraph α)
    (astar : Node → Node → Option (List Node)) (point : Node)
    (st : ExitScan α) (e : Node) : ExitScan α :=
  if e ∈ G.nodes then
    match astar point e with
    | none => st
    | some path =>
      let d := pathWeight G path
      let st :=
        match findStairIdx grids path with
        | none => st
        | some i =>
          let sd := pathWeight G (path.take (i + 1))
          { st with curStair := if st.curStair = -1 then sd else min st.curStair sd }
      if (match st.minDist with | none => true | some m => decide (d < m)) then
        { st with minDist := some d, bestExit := some e, bestPath := some path }
      else st
  else st

/-- `min_exit_distance > max_distance` where either side may be
`float('inf')` (modelled by `none`). -/
def gtInf {α : Type} [LinearOrderedField α] : Option α → Option α → Bool
  | none, none => false
  | none, some _ => true
  | some _, none => false
  | some a, some b => decide (b < a)

/-- Loop state of the outer (per-candidate) loop of `calculate_escape_route`. -/
structure CandScan (α : Type) where
  maxDist : Option α
  furthest : Option Node
  optExit : Option Node
  optPath : Option (List Node)
  dts : α
deriving DecidableEq

/-- One iteration of the per-candidate loop of `calculate_escape_route`. -/
def scanCandidate {α : Type} [LinearOrderedField α] (grids : GridStack) (G : EGraph α)
    (astar : Node → Node → Option (List Node)) (exits : List Node)
    (st : CandScan α) (point : Node) : CandScan α :=
  if point ∈ G.nodes then
    let inner := exits.foldl (scanExit grids G astar point)
      (⟨none, none, none, -1⟩ : ExitScan α)
    if gtInf inner.minDist st.maxDist then
      ⟨inner.minDist, some point, inner.bestExit, inner.bestPath, inner.curStair⟩
    else st
  else st

/-- The result dictionary of `calculate_escape_route`; `none` fields model the
`None` values of the null route. -/
structure RouteResult (α : Type) where
  furthestPoint : Option Node
  optimalExit : Option Node
  optimalPath : Option (List Node)
  distance : Option α
  distanceToStair : Option α
  spaceName : String
deriving DecidableEq

/-- `calculate_escape_route` after candidate selection: fold the candidates,
then build either the populated result (when a furthest point and an optimal
exit were recorded) or the null route with the space name preserved. -/
def calculateEscapeRouteCore {α : Type} [LinearOrderedField α] (grids : GridStack)
    (G : EGraph α) (astar : Node → Node → Option (List Node)) (cellSize : α)
    (spaceName : String) (candidatePoints exits : List Node) : RouteResult α :=
  let st := candidatePoints.foldl (scanCandidate grids G astar exits)
    (⟨some 0, none, none, none, -1⟩ : CandScan α)
  if st.furthest.isSome ∧ st.optExit.isSome then
    { furthestPoint := st.furthest
      optimalExit := st.optExit
      optimalPath := st.optPath
      distance := st.maxDist.map (fun v => v * cellSize)
      distanceToStair := some (if 0 < st.dts then st.dts * cellSize else -1)
      spaceName := spaceName }
  else ⟨none, none, none, none, none, spaceName⟩

/-- A space as consumed by `calculate_escape_route`: name, floor index and the
2D interior points used for candidate selection. -/
structure Space where
  name : String
  floor : ℤ
  points : List (ℚ × ℚ)

/-- `_select_candidate_points(space)`: centroid of the points, partition into
four quadrants, and from every non-empty quadrant the first point of maximal
squared distance to the centroid (`max` keeps the earliest maximizer), with
`int()` truncation to cell indices.  An empty point list divides by zero in
the source (`numpy` warns and yields `nan`); here the centroid defaults to
`0`. -/
def selectCandidatePoints (space : Space) : List Node :=
  let pts := space.points
  let n := pts.length
  let cx := (pts.foldl (fun a p => a + p.1) 0) * mkRat 1 n
  let cy := (pts.foldl (fun a p => a + p.2) 0) * mkRat 1 n
  let dist2 := fun (p : ℚ × ℚ) => (p.1 - cx) * (p.1 - cx) + (p.2 - cy) * (p.2 - cy)
  let quads := [pts.filter (fun p => decide (cx ≤ p.1 ∧ cy ≤ p.2)),
                pts.filter (fun p => decide (p.1 < cx ∧ cy ≤ p.2)),
                pts.filter (fun p => decide (p.1 < cx ∧ p.2 < cy)),
                pts.filter (fun p => decide (cx ≤ p.1 ∧ p.2 < cy))]
  quads.foldl (fun acc q =>
    match q with
    | [] => acc
    | h :: t =>
      let furthest := t.foldl (fun best p => if decide (dist2 best < dist2 p) then p else best) h
      acc ++ [(ratTrunc furthest.1, ratTrunc furthest.2, space.floor)]) []

/-- `calculate_escape_route(space, exits)` of the `Pathfinder` class. -/
def calculateEscapeRoute {α : Type} [LinearOrderedField α] (grids : GridStack)
    (G : EGraph α) (astar : Node → Node → Option (List Node)) (cellSize : α)
    (space : Space) (exits : List Node) : RouteResult α :=
  calculateEscapeRouteCore grids G astar cellSize space.name
    (selectCandidatePoints space) exits

/-- The dictionary returned by `_calculate_path_lengths`. -/
structure PathLengths (α : Type) where
  totalLength : α
  floorLengths : List (ℤ × α)
  stairwayDistance : α
deriving DecidableEq

/-- `floor_lengths[f"floor_{n}"] += v` on the association-list model of the
`defaultdict`. -/
def bumpAssoc {α : Type} [LinearOrderedField α] (l : List (ℤ × α)) (k : ℤ) (v : α) :
    List (ℤ × α) :=
  if l.any (fun e => decide (e.1 = k)) then
    l.map (fun e => if decide (e.1 = k) then (e.1, e.2 + v) else e)
  else l ++ [(k, v)]

/-- `_calculate_path_lengths(path)`: per-edge lengths in meters, per-floor
totals, and the distance walked before the first stair cell or floor change. -/
def calcPathLengths {α : Type} [LinearOrderedField α] (grids : GridStack)
    (G : EGraph α) (cellSize : α) (path : List Node) : PathLengths α :=
  let st := (path.zip path.tail).foldl
    (fun (st : α × List (ℤ × α) × α × Bool) uv =>
      let u := uv.1
      let v := uv.2
      let el := ((G.weight? u v).getD 0) * cellSize
      let st :=
        if u.2.2 = v.2.2 then
          (st.1, bumpAssoc st.2.1 u.2.2 el,
            (if st.2.2.2 then st.2.2.1 else st.2.2.1 + el), st.2.2.2)
        else (st.1, st.2.1, st.2.2.1, true)
      let st :=
        if GridStack.cell? grids u.2.2 u.1 u.2.1 = some CellKind.stair then
          (st.1, st.2.1, st.2.2.1, true)
        else st
      (st.1 + el, st.2.1, st.2.2.1, st.2.2.2))
    ((0 : α), ([] : List (ℤ × α)), (0 : α), false)
  ⟨st.1, st.2.1, st.2.2.1⟩

/-- `find_path(start, goals)` of the `Pathfinder` class.  `Except.error` models
the raised `ValueError`s; a successful call returns the chosen path and its
length dictionary, or `([], none)` (the source's `[], {}`) when no goal is
reachable. -/
def findPath {α : Type} [LinearOrderedField α] (grids : GridStack) (G : EGraph α)
    (astar : Node → Node → Option (List Node)) (cellSize : α)
    (start : Node) (goals : List Node) :
    Except String (List Node × Option (PathLengths α)) :=
  if start ∉ G.nodes then
    Except.error "Start node is not in the graph"
  else if goals.any (fun g => decide (g ∉ G.nodes)) then
    Except.error "The following goal nodes are not in the graph"
  else
    let best := goals.foldl (fun (acc : Option (List Node × α)) goal =>
      match astar start goal with
      | none => acc
      | some p =>
        let len := pathWeight G p
        match acc with
        | none => some (p, len)
        | some bl => if decide (len < bl.2) then some (p, len) else acc) none
    match best with
    | none => Except.ok ([], none)
    | some bl => Except.ok (bl.1, some (calcPathLengths grids G cellSize bl.1))

/-- All nodes a stored edge connects to `n`. -/
def neighborsOf {α : Type} (G : EGraph α) (n : Node) : List Node :=
  G.edges.filterMap (fun e =>
    if decide (e.1.1 = n) then some e.1.2
    else if decide (e.1.2 = n) then some e.1.1
    else none)

/-- Fuel-driven breadth-first closure used to define reachability. -/
def reachAux {α : Type} (G : EGraph α) :
    ℕ → List Node → List Node → List Node
  | 0, _, vis => vis
  | _ + 1, [], vis => vis
  | fuel + 1, c :: queue, vis =>
    if c ∈ vis then reachAux G fuel queue vis
    else reachAux G fuel (queue ++ neighborsOf G c) (vis ++ [c])

/-- The set of nodes reachable from `s` along stored edges. -/
def reachSet {α : Type} (G : EGraph α) (s : Node) : List Node :=
  reachAux G (2 * (G.edges.length + 1) * (G.nodes.length + 1) + 2) [s] []

/-- Graph reachability (the condition under which `nx.astar_path` finds some
path rather than raising `NetworkXNoPath`). -/
def Reachable {α : Type} (G : EGraph α) (s t : Node) : Prop := t ∈ reachSet G s

instance {α : Type} (G : EGraph α) (s t : Node) : Decidable (Reachable G s t) := by
  unfold Reachable; infer_instance

/-- The four straight directions used by door grouping and exit rays. -/
def dirs4 : List (ℤ × ℤ) := [(0, 1), (1, 0), (0, -1), (-1, 0)]

/-- Stack-based rendering of the recursive `dfs` of `_group_connected_doors`:
pop a cell; if it is unvisited, in bounds and a `door`, record it and push its
four neighbors (in the recursion's direction order) on top of the stack. -/
def dfsDoorsAux (g : Grid) :
    ℕ → List (ℤ × ℤ) → List (ℕ × ℕ) → List (ℕ × ℕ) →
    List (ℕ × ℕ) × List (ℕ × ℕ)
  | 0, _, visited, group => (visited, group)
  | _ + 1, [], visited, group => (visited, group)
  | fuel + 1, c :: stack, visited, group =>
    if 0 ≤ c.1 ∧ c.1 < (g.rows : ℤ) ∧ 0 ≤ c.2 ∧ c.2 < (g.cols : ℤ) ∧
        g.at? c.1.toNat c.2.toNat = some CellKind.door ∧
        (c.1.toNat, c.2.toNat) ∉ visited then
      dfsDoorsAux g fuel
        ((dirs4.map (fun d => (c.1 + d.1, c.2 + d.2))) ++ stack)
        (visited ++ [(c.1.toNat, c.2.toNat)])
        (group ++ [(c.1.toNat, c.2.toNat)])
    else dfsDoorsAux g fuel stack visited group

/-- `_group_connected_doors(floor)`: scan cells in row-major order, flood each
unvisited door cell into a group; the visited set is shared across groups. -/
def groupConnectedDoors (g : Grid) : List (List (ℕ × ℕ)) :=
  ((cellPositions g).foldl (fun st p =>
    if g.at? p.1 p.2 = some CellKind.door ∧ (p.1, p.2) ∉ st.1 then
      let r := dfsDoorsAux g (4 * g.rows * g.cols + 4)
        [((p.1 : ℤ), (p.2 : ℤ))] st.1 []
      (r.1, st.2 ++ [r.2])
    else st)
    (([], []) : List (ℕ × ℕ) × List (List (ℕ × ℕ)))).2

/-- The `while` ray walk of `_is_exit_group`: step in direction `(dx, dy)`
until leaving the grid (failure), hitting a `wall`/`door` cell (failure), or
standing on a boundary cell (success). -/
def rayLoopAux (g : Grid) (dx dy : ℤ) : ℕ → ℤ → ℤ → Bool
  | 0, _, _ => false
  | fuel + 1, nx, ny =>
    if 0 ≤ nx ∧ nx < (g.rows : ℤ) ∧ 0 ≤ ny ∧ ny < (g.cols : ℤ) then
      match g.atZ? nx ny with
      | some k =>
        if k = CellKind.wall ∨ k = CellKind.door then false
        else if nx = 0 ∨ nx = (g.rows : ℤ) - 1 ∨ ny = 0 ∨ ny = (g.cols : ℤ) - 1 then true
        else rayLoopAux g dx dy fuel (nx + dx) (ny + dy)
      | none => false
    else false

/-- `_is_exit_group(floor, door_group)`: some cell of the group has a straight
4-direction ray, starting at a non-`wall`/non-`door` neighbor, that reaches the
grid boundary through non-`wall`/non-`door` cells. -/
def isExitGroup (g : Grid) (group : List (ℕ × ℕ)) : Bool :=
  group.any (fun c => dirs4.any (fun d =>
    let nx : ℤ := (c.1 : ℤ) + d.1
    let ny : ℤ := (c.2 : ℤ) + d.2
    if 0 ≤ nx ∧ nx < (g.rows : ℤ) ∧ 0 ≤ ny ∧ ny < (g.cols : ℤ) then
      match g.atZ? nx ny with
      | some k =>
        if k = CellKind.wall ∨ k = CellKind.door then false
        else rayLoopAux g d.1 d.2 (g.rows + g.cols + 2) nx ny
      | none => false
    else false))

/-- `_calculate_average_position(door_group, floor_index)`: component-wise
Python-rounded mean of the group cells, tagged with the floor index. -/
def calcAveragePosition (group : List (ℕ × ℕ)) (floorIndex : ℕ) : Node :=
  let n := group.length
  let ax := (group.foldl (fun a c => a + (c.1 : ℚ)) 0) * mkRat 1 n
  let ay := (group.foldl (fun a c => a + (c.2 : ℚ)) 0) * mkRat 1 n
  (pyRound ax, pyRound ay, (floorIndex : ℤ))

/-- `detect_exits()`: on every floor, the average position of every door group
that passes the exit-ray test. -/
def detectExits (grids : GridStack) : List Node :=
  grids.enum.foldl (fun acc fg =>
    acc ++ ((groupConnectedDoors fg.2).filter (fun grp => isExitGroup fg.2 grp)).map
      (fun grp => calcAveragePosition grp fg.1)) []

/-- The process-wide state of `app.py`: the last stored graph (the source also
stores the `Pathfinder` beside it) and the `hasGridChanged` flag. -/
structure AppState (α : Type) where
  graphs : Option (EGraph α)
  hasGridChanged : Bool
deriving DecidableEq

/-- The payload of `/api/create-graph` that the graph build consumes. -/
structure CreateGraphRequest (α : Type) where
  originalGrids : GridStack
  bufferedGrids : GridStack
  cfg : PFConfig α

/-- The state update of `api_create_graph` (`app.py` lines 233–237) on the
successful path: the cache test `if hasGridChanged or not graphs:` is commented
out in the source, so the handler always rebuilds the graph from the request's
buffered grids, clears the flag, and stores the fresh graph. -/
def apiCreateGraph {α : Type} [LinearOrderedField α] (s : AppState α)
    (d : CreateGraphRequest α) : AppState α :=
  let _ := s
  { graphs := some (createGraph d.cfg d.bufferedGrids), hasGridChanged := false }

/-- The state update common to the grid-mutating endpoints (`edit_grid`,
`apply_wall_buffer`, `update_cell`, `batch_update_cells`): set the
`hasGridChanged` flag. -/
def apiEditGrid {α : Type} (s : AppState α) : AppState α :=
  { s with hasGridChanged := true }

/-- Specification-side helper: the exits that are graph nodes. -/
def inGraphExits {α : Type} (G : EGraph α) (exits : List Node) : List Node :=
  exits.filter (fun e => decide (e ∈ G.nodes))

/-- First-occurrence minimum of a list (`none` on the empty list). -/
def listMin? {β : Type} [LinearOrder β] : List β → Option β
  | [] => none
  | h :: t => some (t.foldl min h)

/-- First-occurrence maximum of a list (`none` on the empty list). -/
def listMax? {β : Type} [LinearOrder β] : List β → Option β
  | [] => none
  | h :: t => some (t.foldl max h)

/-- Specification-side helper: the cost of the A* path from `c` to `e`, when
one exists. -/
def astarCost {α : Type} [LinearOrderedField α] (G : EGraph α)
    (astar : Node → Node → Option (List Node)) (c e : Node) : Option α :=
  (astar c e).map (pathWeight G)

/-- Specification-side definition, following the specification's words: `best(c)
= min_e cost(c → e)` over the exits present in the graph. -/
def bestCost {α : Type} [LinearOrderedField α] (G : EGraph α)
    (astar : Node → Node → Option (List Node)) (exits : List Node) (c : Node) :
    Option α :=
  listMin? ((inGraphExits G exits).filterMap (fun e => astarCost G astar c e))

/-- Specification-side helper for the stair distance: for every in-graph exit
whose A* path from `c` traverses a stair cell, the sum of the edge weights up
to the first stair node of that path. -/
def stairCuts {α : Type} [LinearOrderedField α] (grids : GridStack) (G : EGraph α)
    (astar : Node → Node → Option (List Node)) (exits : List Node) (c : Node) :
    List α :=
  (inGraphExits G exits).filterMap (fun e => (astar c e).bind (fun p =>
    (findStairIdx grids p).map (fun i => pathWeight G (p.take (i + 1)))))

/-- Specification-side definition of the raw stair distance of candidate `c`:
the minimum over `stairCuts`, or the sentinel `-1` when no exit path from `c`
traverses a stair. -/
def stairRawMin {α : Type} [LinearOrderedField α] (grids : GridStack) (G : EGraph α)
    (astar : Node → Node → Option (List Node)) (exits : List Node) (c : Node) : α :=
  match listMin? (stairCuts grids G astar exits c) with
  | none => -1
  | some v => v


/-- Running minimum over `Option` (`none` is the initial `float('inf')`),
strict update as in the source's `if distance < min_exit_distance`. -/
def ominStep {α : Type} [LinearOrderedField α] (m : Option α) (d : α) : Option α :=
  match m with
  | none => some d
  | some v => if d < v then some d else some v

/-- Folded running minimum. -/
def ominFold {α : Type} [LinearOrderedField α] (m : Option α) (l : List α) : Option α :=
  l.foldl ominStep m

/-- The source's stair-distance accumulator step:
`sd if cur == -1 else min(cur, sd)`. -/
def stairStep {α : Type} [LinearOrderedField α] (cur sd : α) : α :=
  if cur = -1 then sd else min cur sd

/-- The successful exit-path costs scanned by the inner loop of
`calculate_escape_route` from `point`, in exit order. -/
def exitCosts {α : Type} [LinearOrderedField α] (G : EGraph α)
    (astar : Node → Node → Option (List Node)) (point : Node) (exits : List Node) :
    List α :=
  exits.filterMap (fun e =>
    if e ∈ G.nodes then (astar point e).map (pathWeight G) else none)

/-- The first-stair cut weights scanned by the inner loop of
`calculate_escape_route` from `point`, in exit order. -/
def exitCuts {α : Type} [LinearOrderedField α] (grids : GridStack) (G : EGraph α)
    (astar : Node → Node → Option (List Node)) (point : Node) (exits : List Node) :
    List α :=
  exits.filterMap (fun e =>
    if e ∈ G.nodes then
      (astar point e).bind (fun p =>
        (findStairIdx grids p).map (fun i => pathWeight G (p.take (i + 1))))
    else none)


/-- Invariant of the outer candidate loop of `calculate_escape_route`, tying
the loop state to the already-processed candidate prefix.  Exactly one of the
three guard conditions holds classically: some in-graph processed candidate
reaches no in-graph exit (the running maximum is then `inf` and the recorded
exit `None`); all reach one and some best cost is positive (the state records
a maximizing candidate with its realizing exit, path and stair fold); or all
best costs are `≤ 0` (the state is untouched). -/
def CandInv {α : Type} [LinearOrderedField α] (grids : GridStack) (G : EGraph α)
    (astar : Node → Node → Option (List Node)) (exits : List Node)
    (processed : List Node) (st : CandScan α) : Prop :=
  ((∃ c ∈ processed.filter (fun c => decide (c ∈ G.nodes)),
      bestCost G astar exits c = none) →
    st.maxDist = none ∧ st.optExit = none ∧ st.furthest.isSome = true) ∧
  ((∀ c ∈ processed.filter (fun c => decide (c ∈ G.nodes)),
      (bestCost G astar exits c).isSome = true) →
    (∃ v ∈ (processed.filter (fun c => decide (c ∈ G.nodes))).filterMap
        (bestCost G astar exits), 0 < v) →
    ∃ m c, st.maxDist = some m ∧
      m ∈ (processed.filter (fun c => decide (c ∈ G.nodes))).filterMap
        (bestCost G astar exits) ∧
      (∀ v ∈ (processed.filter (fun c => decide (c ∈ G.nodes))).filterMap
        (bestCost G astar exits), v ≤ m) ∧
      0 < m ∧ st.furthest = some c ∧
      c ∈ processed.filter (fun c => decide (c ∈ G.nodes)) ∧
      bestCost G astar exits c = some m ∧
      st.dts = (exitCuts grids G astar c exits).foldl stairStep (-1) ∧
      (∃ e p, st.optExit = some e ∧ st.optPath = some p ∧
        e ∈ inGraphExits G exits ∧ astar c e = some p ∧ pathWeight G p = m)) ∧
  ((∀ c ∈ processed.filter (fun c => decide (c ∈ G.nodes)),
      (bestCost G astar exits c).isSome = true) →
    (∀ c ∈ processed.filter (fun c => decide (c ∈ G.nodes)),
      ∀ v, bestCost G astar exits c = some v → v ≤ 0) →
    st = (⟨some 0, none, none, none, -1⟩ : CandScan α))


/-- The C1 invariant: every node of the graph stands on a passable cell, every
stored edge joins two nodes of the graph, and both endpoints of every stored
edge are passable. -/
def GraphOK {α : Type} (buffered : GridStack) (G : EGraph α) : Prop :=
  (∀ n ∈ G.nodes, PassableNode buffered n) ∧
  (∀ e ∈ G.edges, e.1.1 ∈ G.nodes ∧ e.1.2 ∈ G.nodes) ∧
  (∀ e ∈ G.edges, PassableNode buffered e.1.1 ∧ PassableNode buffered e.1.2)


/-- 4-adjacency of grid cells. -/
def adj4 (a b : ℕ × ℕ) : Prop :=
  (a.1 = b.1 ∧ (a.2 + 1 = b.2 ∨ b.2 + 1 = a.2)) ∨
  (a.2 = b.2 ∧ (a.1 + 1 = b.1 ∨ b.1 + 1 = a.1))

/-- Connectivity inside a cell set `S`: `ReachIn S a b` holds when `b` can be
reached from `a` by 4-adjacent steps through members of `S`. -/
inductive ReachIn (S : List (ℕ × ℕ)) : (ℕ × ℕ) → (ℕ × ℕ) → Prop where
  | refl (a : ℕ × ℕ) (ha : a ∈ S) : ReachIn S a a
  | step (a b c : ℕ × ℕ) (h : ReachIn S a b) (hc : c ∈ S) (hadj : adj4 b c) :
      ReachIn S a c

/-- Declarative exit ray, following the specification's words: from cell
`(x, y)` there is a straight ray in direction `d` whose cells 1 through `n`
are all in bounds and neither `wall` nor `door`, and whose `n`-th cell lies on
the outer boundary of the grid. -/
def RayFrom (g : Grid) (x y : ℕ) (d : ℤ × ℤ) : Prop :=
  ∃ n : ℕ, 1 ≤ n ∧
    (∀ i : ℕ, 1 ≤ i → i ≤ n →
      (0 ≤ (x : ℤ) + i * d.1 ∧ (x : ℤ) + i * d.1 < (g.rows : ℤ) ∧
       0 ≤ (y : ℤ) + i * d.2 ∧ (y : ℤ) + i * d.2 < (g.cols : ℤ)) ∧
      ∃ k, g.atZ? ((x : ℤ) + i * d.1) ((y : ℤ) + i * d.2) = some k ∧
        k ≠ CellKind.wall ∧ k ≠ CellKind.door) ∧
    ((x : ℤ) + n * d.1 = 0 ∨ (x : ℤ) + n * d.1 = (g.rows : ℤ) - 1 ∨
     (y : ℤ) + n * d.2 = 0 ∨ (y : ℤ) + n * d.2 = (g.cols : ℤ) - 1)

/-- The graph node standing on a stair-group cell `(x, y, floor)`. -/
def cellNode (c : ℕ × ℕ × ℕ) : Node := ((c.1 : ℤ), (c.2.1 : ℤ), (c.2.2 : ℤ))

/-- The specification's `base(kind)` table: `4.0` for `door` and `stair` under
cost minimization, `1.0` otherwise (spec-side definition, compared against
`getEdgeWeight` in the refinement theorems). -/
def baseWeight {α : Type} [LinearOrderedField α] (minimizeCost : Bool)
    (k : CellKind) : α :=
  if minimizeCost then
    match k with
    | CellKind.door => 4
    | CellKind.stair => 4
    | _ => 1
  else 1

/-- Row-major order on cell positions, the iteration order of `_create_graph`'s
cell scan. -/
def rmLt (u v : ℕ × ℕ) : Prop := u.1 < v.1 ∨ (u.1 = v.1 ∧ u.2 < v.2)

/-! ### Concrete instances used by counterexamples and witnesses -/

/-- A configuration with trivial stair oracles, for single-floor grids (whose
stair machinery is inert) and for builds where the stair geometry is
irrelevant. -/
def cfgPlain : PFConfig ℚ := ⟨true, false, 0, fun _ => [], fun _ _ => 0, fun _ _ => 0⟩

/-- One floor, one row: `floor, door, stair, door`. -/
def gridsLine : GridStack :=
  [[[CellKind.floor, CellKind.door, CellKind.stair, CellKind.door]]]

/-- The graph of `gridsLine`. -/
def gLine : EGraph ℚ := createGraph cfgPlain gridsLine

/-- The unique simple paths of the line graph `gLine` that
`calculate_escape_route` queries: `(0,0,0)` to either door. -/
def astarLine : Node → Node → Option (List Node) := fun s t =>
  if s = ((0, 0, 0) : Node) ∧ t = ((0, 3, 0) : Node) then
    some [(0, 0, 0), (0, 1, 0), (0, 2, 0), (0, 3, 0)]
  else if s = ((0, 0, 0) : Node) ∧ t = ((0, 1, 0) : Node) then
    some [(0, 0, 0), (0, 1, 0)]
  else none

/-- A space whose single interior point is the cell `(0, 0)` of floor 0. -/
def spaceLine : Space := ⟨"Room A", 0, [(0, 0)]⟩

/-- The two exits of the line scenario: the far door first. -/
def exitsLine : List Node := [(0, 3, 0), (0, 1, 0)]

/-- One floor, one row: `floor, door, wall, floor` — the last cell is cut off
from the door by the wall. -/
def gridsSplit : GridStack :=
  [[[CellKind.floor, CellKind.door, CellKind.wall, CellKind.floor]]]

/-- The graph of `gridsSplit`. -/
def gSplit : EGraph ℚ := createGraph cfgPlain gridsSplit

/-- The unique paths of `gSplit`: only `(0,0,0)` reaches the door; `(0,3,0)`
is disconnected. -/
def astarSplit : Node → Node → Option (List Node) := fun s t =>
  if s = ((0, 0, 0) : Node) ∧ t = ((0, 1, 0) : Node) then
    some [(0, 0, 0), (0, 1, 0)]
  else none

/-- A space holding the two `floor` cells of `gridsSplit`; candidate selection
yields `(0,3,0)` (first quadrant) before `(0,0,0)` (fourth quadrant). -/
def spaceSplit : Space := ⟨"Room B", 0, [(0, 0), (0, 3)]⟩

/-- The single exit of the split scenario. -/
def exitsSplit : List Node := [(0, 1, 0)]

/-- 5×5 floor with an L-shaped door group `(0,0),(1,0),(2,0),(2,1),(2,2)`. -/
def gridL : Grid :=
  [[CellKind.door, CellKind.floor, CellKind.floor, CellKind.floor, CellKind.floor],
   [CellKind.door, CellKind.floor, CellKind.floor, CellKind.floor, CellKind.floor],
   [CellKind.door, CellKind.door, CellKind.door, CellKind.floor, CellKind.floor],
   [CellKind.floor, CellKind.floor, CellKind.floor, CellKind.floor, CellKind.floor],
   [CellKind.floor, CellKind.floor, CellKind.floor, CellKind.floor, CellKind.floor]]

/-- Two 1×1 floors, both `stair`: one stair group spanning floors 0 and 1. -/
def gridsTower : GridStack := [[[CellKind.stair]], [[CellKind.stair]]]

/-- The sixteen compass offsets `(round(d·cos(2πk/16)), round(d·sin(2πk/16)))`
produced by the source's float computation at grid distance `d = 2` (floors 3 m
apart, `tan 55° ≈ 1.428`, cell size 1 m). -/
def offsets16at2 : List (ℤ × ℤ) :=
  [(2, 0), (2, 1), (1, 1), (1, 2), (0, 2), (-1, 2), (-1, 1), (-2, 1),
   (-2, 0), (-2, -1), (-1, -1), (-1, -2), (0, -2), (1, -2), (1, -1), (2, -1)]

/-- The configuration of the two-floor tower: expected stair distance 2 with
the corresponding sixteen rounded compass offsets. -/
def cfgTower : PFConfig ℚ :=
  ⟨true, false, 0, fun gd => if gd = 2 then offsets16at2 else [], fun _ _ => 2,
    fun _ _ => 7⟩

/-- The graph of the tower scenario. -/
def gTower : EGraph ℚ := createGraph cfgTower gridsTower

/-- Request building the 1×1 single-floor graph. -/
def reqSmall : CreateGraphRequest ℚ := ⟨[[[CellKind.floor]]], [[[CellKind.floor]]], cfgPlain⟩

/-- Request building the 1×2 single-floor graph. -/
def reqWide : CreateGraphRequest ℚ :=
  ⟨[[[CellKind.floor, CellKind.floor]]], [[[CellKind.floor, CellKind.floor]]], cfgPlain⟩

/-! ### Theorems -/

/-- C4, counterexample: for a route with `distance = 50` m and
`distance_to_stair = 25` m the checker does emit a daytime violation
(50 m exceeds the daytime nearest-exit maximum of 45 m), contradicting the
claim's "no daytime violations". -/
theorem checkRules_50_25_daytime_nonempty :
    (checkEscapeRouteRules 25 50 none none 1).daytime ≠ [] := by decide

/-- C4, amended: for a route with `distance = 50` m and `distance_to_stair =
25` m (and no optional fields), the checker emits exactly one daytime
violation — "Distance to nearest exit (50.00m) exceeds maximum (45m)" — and
exactly the two nighttime violations "Distance to evacuation route (25.00m)
exceeds maximum (20m)" and "Distance to nearest exit (50.00m) exceeds maximum
(30m)", for every cell size. -/
theorem checkRules_50_25_exact (gridSize : ℚ) :
    checkEscapeRouteRules 25 50 none none gridSize =
      ⟨["Distance to nearest exit (50.00m) exceeds maximum (45m)"],
       ["Distance to evacuation route (25.00m) exceeds maximum (20m)",
        "Distance to nearest exit (50.00m) exceeds maximum (30m)"]⟩ := by
  rfl

/-- C8, counterexample: elevations 0 and 1 under a bounding box of height 1.5
leave no candidate floor, so the fallback floor spanning the bounding box is
returned — and its height 1.5 lies outside `[1.6, 10]`. -/
theorem deriveFloors_fallback_outside_bounds :
    deriveFloors [0, 1] 0 (mkRat 3 2) = [⟨0, mkRat 3 2⟩] ∧
      mkRat 3 2 < mkRat 8 5 := by decide

/-- C8, amended: when at least one candidate floor survives the height filter,
every returned floor has height strictly between 1.6 and 10; when none
survives, a single fallback floor spanning `[min_z, max_z]` is returned whose
height is unconstrained. -/
theorem deriveFloors_heights (floorElevations : List ℚ) (minZ maxZ : ℚ)
    (hne : floorCandidates floorElevations maxZ ≠ [])
    (f : FloorRec) (hf : f ∈ deriveFloors floorElevations minZ maxZ) :
    mkRat 8 5 < f.height ∧ f.height < 10 := by
  unfold deriveFloors at hf
  simp only [if_neg hne] at hf
  unfold floorCandidates at hf
  rcases List.mem_filterMap.mp hf with ⟨p, _, hp⟩
  by_cases h : mkRat 8 5 < p.2 - p.1 ∧ p.2 - p.1 < 10
  · rw [if_pos h] at hp
    cases hp
    exact h
  · rw [if_neg h] at hp
    cases hp

/-- C8, witness for the amended theorem at elevations `[0, 2]`, `max_z = 9`. -/
theorem deriveFloors_heights_witness :
    floorCandidates [0, 2] 9 ≠ [] ∧
      (mkRat 8 5 < (FloorRec.mk 0 2).height ∧ (FloorRec.mk 0 2).height < 10) := by
  refine ⟨by decide, deriveFloors_heights [0, 2] 0 9 (by decide) ⟨0, 2⟩ (by decide)⟩

/-- C9, counterexample: with the grids-changed flag false and a cached graph
present, `api_create_graph` does not return the cached graph: it rebuilds from
the request (the cache test is commented out in the source), so the stored
graph is the freshly built one, which differs from the cached one. -/
theorem apiCreateGraph_ignores_cache :
    (apiCreateGraph ⟨some (createGraph cfgPlain reqSmall.bufferedGrids), false⟩ reqWide).graphs =
        some (createGraph cfgPlain reqWide.bufferedGrids) ∧
      createGraph cfgPlain reqWide.bufferedGrids ≠ createGraph cfgPlain reqSmall.bufferedGrids := by
  constructor
  · rfl
  · decide

/-- C9, amended: `api_create_graph` always rebuilds the graph from the
request's buffered grids and clears the grids-changed flag, ignoring both the
flag and any cached graph (its result does not depend on the previous state);
a grid edit sets the flag.  Consequently a stale graph is never served — at
the price that an unchanged grid stack is still re-processed on every call. -/
theorem apiCreateGraph_always_rebuilds {α : Type} [LinearOrderedField α]
    (s s' : AppState α) (d : CreateGraphRequest α) :
    apiCreateGraph s d = apiCreateGraph s' d ∧
      (apiCreateGraph s d).graphs = some (createGraph d.cfg d.bufferedGrids) ∧
      (apiCreateGraph s d).hasGridChanged = false ∧
      (apiEditGrid s).hasGridChanged = true := by
  exact ⟨rfl, rfl, rfl, rfl⟩

/-- A fold whose step fixes the accumulator on every list element returns its
initial value. -/
theorem foldl_fixed {β γ : Type} (f : β → γ → β) (l : List γ) (init : β)
    (h : ∀ acc, ∀ g ∈ l, f acc g = acc) : l.foldl f init = init := by
  induction l generalizing init with
  | nil => rfl
  | cons g t ih =>
    rw [List.foldl_cons, h init g (List.mem_cons_self g t)]
    exact ih init (fun acc g' hg' => h acc g' (List.mem_cons_of_mem g hg'))

/-- C10: `find_path` raises `ValueError` exactly when the start node or some
goal node is not a graph node; and when start and goals are all nodes but no
goal is reachable (so every A* call raises `NetworkXNoPath`), it returns the
empty path together with the empty length dictionary instead of raising. -/
theorem findPath_error_iff {α : Type} [LinearOrderedField α] (grids : GridStack)
    (G : EGraph α) (astar : Node → Node → Option (List Node)) (cellSize : α)
    (start : Node) (goals : List Node) :
    ((∃ msg, findPath grids G astar cellSize start goals = Except.error msg) ↔
      (start ∉ G.nodes ∨ ∃ g ∈ goals, g ∉ G.nodes)) ∧
    (start ∈ G.nodes → (∀ g ∈ goals, g ∈ G.nodes) →
      (∀ g ∈ goals, ((astar start g).isSome ↔ Reachable G start g)) →
      (∀ g ∈ goals, ¬ Reachable G start g) →
      findPath grids G astar cellSize start goals = Except.ok ([], none)) := by
  constructor
  · unfold findPath
    by_cases hs : start ∈ G.nodes
    · rw [if_neg (not_not_intro hs)]
      by_cases hg : goals.any (fun g => decide (g ∉ G.nodes)) = true
      · rw [if_pos hg]
        constructor
        · intro _
          rcases List.any_eq_true.mp hg with ⟨g, hgmem, hgdec⟩
          exact Or.inr ⟨g, hgmem, of_decide_eq_true hgdec⟩
        · intro _
          exact ⟨"The following goal nodes are not in the graph", rfl⟩
      · rw [if_neg hg]
        constructor
        · intro ⟨msg, hmsg⟩
          cases h : goals.foldl (fun acc goal =>
              match astar start goal with
              | none => acc
              | some p =>
                let len := pathWeight G p
                match acc with
                | none => some (p, len)
                | some bl => if decide (len < bl.2) then some (p, len) else acc)
              (none : Option (List Node × α)) with
          | none => rw [h] at hmsg; cases hmsg
          | some bl => rw [h] at hmsg; cases hmsg
        · intro hor
          exfalso
          rcases hor with h | ⟨g, hgmem, hgnot⟩
          · exact h hs
          · exact hg (List.any_eq_true.mpr ⟨g, hgmem, decide_eq_true hgnot⟩)
    · rw [if_pos hs]
      exact ⟨fun _ => Or.inl hs, fun _ => ⟨"Start node is not in the graph", rfl⟩⟩
  · intro hs hgoals hastar hunreach
    unfold findPath
    have hany : goals.any (fun g => decide (g ∉ G.nodes)) = false := by
      rw [List.any_eq_false]
      intro g hg
      simp [hgoals g hg]
    rw [if_neg (not_not_intro hs), if_neg (by rw [hany]; exact Bool.false_ne_true)]
    have hnone : ∀ g ∈ goals, astar start g = none := by
      intro g hg
      cases h : astar start g with
      | none => rfl
      | some p =>
        exact absurd ((hastar g hg).mp (by rw [h]; rfl)) (hunreach g hg)
    rw [foldl_fixed _ goals none (fun acc g hg => by rw [hnone g hg])]

/-- C10, witness: on the split grid, from the cut-off cell `(0,3,0)` with the
door as only goal, `find_path` returns the empty path and empty length
dictionary; with a start that is not a node it raises. -/
theorem findPath_error_iff_witness :
    findPath gridsSplit gSplit astarSplit 1 ((0, 3, 0) : Node) [((0, 1, 0) : Node)] =
        Except.ok ([], none) ∧
      (∃ msg, findPath gridsSplit gSplit astarSplit 1 ((9, 9, 9) : Node)
        [((0, 1, 0) : Node)] = Except.error msg) :=
  ⟨(findPath_error_iff gridsSplit gSplit astarSplit 1 (0, 3, 0) [(0, 1, 0)]).2
      (by decide) (by decide) (by decide) (by decide),
    (findPath_error_iff gridsSplit gSplit astarSplit 1 (9, 9, 9) [(0, 1, 0)]).1.mpr
      (Or.inl (by decide))⟩

theorem exitCosts_eq {α : Type} [LinearOrderedField α] (G : EGraph α)
    (astar : Node → Node → Option (List Node)) (point : Node) (exits : List Node) :
    exitCosts G astar point exits =
      (inGraphExits G exits).filterMap (astarCost G astar point) := by
  unfold exitCosts inGraphExits astarCost
  induction exits with
  | nil => rfl
  | cons e t ih =>
    by_cases he : e ∈ G.nodes
    · cases ha : astar point e with
      | none => simp [List.filterMap_cons, List.filter_cons, he, ha, ih]
      | some p => simp [List.filterMap_cons, List.filter_cons, he, ha, ih]
    · simp [List.filterMap_cons, List.filter_cons, he, ih]

theorem exitCuts_eq {α : Type} [LinearOrderedField α] (grids : GridStack) (G : EGraph α)
    (astar : Node → Node → Option (List Node)) (point : Node) (exits : List Node) :
    exitCuts grids G astar point exits = stairCuts grids G astar exits point := by
  unfold exitCuts stairCuts inGraphExits
  induction exits with
  | nil => rfl
  | cons e t ih =>
    by_cases he : e ∈ G.nodes
    · cases ha : astar point e with
      | none => simp [List.filterMap_cons, List.filter_cons, he, ha, ih]
      | some p => simp [List.filterMap_cons, List.filter_cons, he, ha, ih]
    · simp [List.filterMap_cons, List.filter_cons, he, ih]

theorem ominFold_some {α : Type} [LinearOrderedField α] (l : List α) :
    ∀ v : α, ominFold (some v) l = some (l.foldl min v) := by
  induction l with
  | nil => intro v; rfl
  | cons d t ih =>
    intro v
    show ominFold (ominStep (some v) d) t = some ((d :: t).foldl min v)
    rw [List.foldl_cons]
    have : ominStep (some v) d = some (min v d) := by
      show (if d < v then some d else some v) = some (min v d)
      by_cases h : d < v
      · rw [if_pos h, min_eq_right (le_of_lt h)]
      · rw [if_neg h, min_eq_left (le_of_not_lt h)]
    rw [this, ih]

theorem ominFold_none {α : Type} [LinearOrderedField α] (l : List α) :
    ominFold none l = listMin? l := by
  cases l with
  | nil => rfl
  | cons h t =>
    show ominFold (ominStep none h) t = listMin? (h :: t)
    show ominFold (some h) t = some (t.foldl min h)
    exact ominFold_some t h

theorem stairFold_nonneg {α : Type} [LinearOrderedField α] (l : List α) :
    ∀ c : α, 0 ≤ c → (∀ sd ∈ l, 0 ≤ sd) → l.foldl stairStep c = l.foldl min c := by
  induction l with
  | nil => intro c _ _; rfl
  | cons sd t ih =>
    intro c hc hl
    rw [List.foldl_cons, List.foldl_cons]
    have hne : c ≠ -1 := by
      intro h
      rw [h] at hc
      exact absurd hc (by norm_num)
    show t.foldl stairStep (stairStep c sd) = t.foldl min (min c sd)
    unfold stairStep
    rw [if_neg hne]
    exact ih (min c sd) (le_min hc (hl sd (List.mem_cons_self sd t)))
      (fun x hx => hl x (List.mem_cons_of_mem sd hx))

theorem stairFold_min {α : Type} [LinearOrderedField α] (l : List α)
    (h : ∀ sd ∈ l, 0 ≤ sd) :
    l.foldl stairStep (-1) =
      (match listMin? l with | none => (-1 : α) | some v => v) := by
  cases l with
  | nil => rfl
  | cons sd t =>
    rw [List.foldl_cons]
    have h1 : stairStep (-1 : α) sd = sd := by unfold stairStep; rw [if_pos rfl]
    rw [h1]
    show t.foldl stairStep sd = t.foldl min sd
    exact stairFold_nonneg t sd (h sd (List.mem_cons_self sd t))
      (fun x hx => h x (List.mem_cons_of_mem sd hx))

theorem foldl_max_le_self {α : Type} [LinearOrderedField α] (l : List α) :
    ∀ a : α, a ≤ l.foldl max a := by
  induction l with
  | nil => intro a; exact le_refl a
  | cons h t ih =>
    intro a
    rw [List.foldl_cons]
    exact le_trans (le_max_left a h) (ih (max a h))

theorem foldl_max_le_of_mem {α : Type} [LinearOrderedField α] (l : List α) :
    ∀ a : α, ∀ v ∈ l, v ≤ l.foldl max a := by
  induction l with
  | nil => intro a v hv; cases hv
  | cons h t ih =>
    intro a v hv
    rw [List.foldl_cons]
    rcases List.mem_cons.mp hv with rfl | hv
    · exact le_trans (le_max_right a v) (foldl_max_le_self t (max a v))
    · exact ih (max a h) v hv

theorem foldl_max_mem {α : Type} [LinearOrderedField α] (l : List α) :
    ∀ a : α, l.foldl max a = a ∨ l.foldl max a ∈ l := by
  induction l with
  | nil => intro a; exact Or.inl rfl
  | cons h t ih =>
    intro a
    rw [List.foldl_cons]
    rcases ih (max a h) with heq | hmem
    · rw [heq]
      rcases le_total a h with hle | hle
      · rw [max_eq_right hle]; exact Or.inr (List.mem_cons_self h t)
      · rw [max_eq_left hle]; exact Or.inl rfl
    · exact Or.inr (List.mem_cons_of_mem h hmem)

theorem foldl_max_le_bound {α : Type} [LinearOrderedField α] (l : List α) :
    ∀ a m : α, a ≤ m → (∀ v ∈ l, v ≤ m) → l.foldl max a ≤ m := by
  induction l with
  | nil => intro a m ha _; exact ha
  | cons h t ih =>
    intro a m ha hl
    rw [List.foldl_cons]
    exact ih (max a h) m (max_le ha (hl h (List.mem_cons_self h t)))
      (fun v hv => hl v (List.mem_cons_of_mem h hv))

theorem listMax?_spec {α : Type} [LinearOrderedField α] (l : List α) (m : α)
    (hmem : m ∈ l) (hb : ∀ v ∈ l, v ≤ m) : listMax? l = some m := by
  cases l with
  | nil => cases hmem
  | cons h t =>
    show some (t.foldl max h) = some m
    congr 1
    have h1 : t.foldl max h ≤ m :=
      foldl_max_le_bound t h m (hb h (List.mem_cons_self h t))
        (fun v hv => hb v (List.mem_cons_of_mem h hv))
    have h2 : m ≤ t.foldl max h := by
      rcases List.mem_cons.mp hmem with rfl | hmem
      · exact foldl_max_le_self t m
      · exact foldl_max_le_of_mem t h m hmem
    exact le_antisymm h1 h2

theorem scanExit_fold {α : Type} [LinearOrderedField α] (grids : GridStack)
    (G : EGraph α) (astar : Node → Node → Option (List Node)) (point : Node)
    (S : List Node) :
    ∀ (l : List Node) (st : ExitScan α), (∀ e ∈ l, e ∈ S) →
    (∀ v, st.minDist = some v → ∃ e p, st.bestExit = some e ∧ st.bestPath = some p ∧
        e ∈ S ∧ e ∈ G.nodes ∧ astar point e = some p ∧ pathWeight G p = v) →
    (st.minDist = none → st.bestExit = none ∧ st.bestPath = none) →
    ((l.foldl (scanExit grids G astar point) st).minDist =
        ominFold st.minDist (exitCosts G astar point l) ∧
      (l.foldl (scanExit grids G astar point) st).curStair =
        (exitCuts grids G astar point l).foldl stairStep st.curStair ∧
      (∀ v, (l.foldl (scanExit grids G astar point) st).minDist = some v →
        ∃ e p, (l.foldl (scanExit grids G astar point) st).bestExit = some e ∧
          (l.foldl (scanExit grids G astar point) st).bestPath = some p ∧
          e ∈ S ∧ e ∈ G.nodes ∧ astar point e = some p ∧ pathWeight G p = v) ∧
      ((l.foldl (scanExit grids G astar point) st).minDist = none →
        (l.foldl (scanExit grids G astar point) st).bestExit = none ∧
          (l.foldl (scanExit grids G astar point) st).bestPath = none)) := by
  intro l
  induction l with
  | nil =>
    intro st _ hreal hnone
    exact ⟨rfl, rfl, hreal, hnone⟩
  | cons e t ih =>
    intro st hS hreal hnone
    have hSt : ∀ x ∈ t, x ∈ S := fun x hx => hS x (List.mem_cons_of_mem e hx)
    have heS : e ∈ S := hS e (List.mem_cons_self e t)
    rw [List.foldl_cons]
    by_cases he : e ∈ G.nodes
    · cases ha : astar point e with
      | none =>
        have hstep : scanExit grids G astar point st e = st := by
          unfold scanExit
          rw [if_pos he, ha]
        have hc : exitCosts G astar point (e :: t) = exitCosts G astar point t := by
          unfold exitCosts
          rw [List.filterMap_cons, if_pos he, ha]
          rfl
        have hk : exitCuts grids G astar point (e :: t) = exitCuts grids G astar point t := by
          unfold exitCuts
          rw [List.filterMap_cons, if_pos he, ha]
          rfl
        rw [hstep, hc, hk]
        exact ih st hSt hreal hnone
      | some path =>
        have hc : exitCosts G astar point (e :: t) =
            pathWeight G path :: exitCosts G astar point t := by
          unfold exitCosts
          rw [List.filterMap_cons, if_pos he, ha]
          rfl
        rw [hc]
        cases hfs : findStairIdx grids path with
        | none =>
          have hk : exitCuts grids G astar point (e :: t) = exitCuts grids G astar point t := by
            unfold exitCuts
            rw [List.filterMap_cons, if_pos he, ha]
            simp [hfs]
          rw [hk]
          cases hm : st.minDist with
          | none =>
            have hstep : scanExit grids G astar point st e =
                { st with minDist := some (pathWeight G path), bestExit := some e,
                          bestPath := some path } := by
              unfold scanExit
              rw [if_pos he, ha]
              simp [hfs, hm]
            rw [hstep]
            have hcost : ominFold (none : Option α)
                (pathWeight G path :: exitCosts G astar point t) =
                ominFold (some (pathWeight G path)) (exitCosts G astar point t) := rfl
            rw [hcost]
            exact ih _ hSt
              (fun v hv => by
                refine ⟨e, path, rfl, rfl, heS, he, ha, ?_⟩
                cases hv
                rfl)
              (fun hcv => by cases hcv)
          | some m =>
            have homs : ∀ d : α, d < m → ominStep (some m) d = some d := fun d hd => by
              show (if d < m then some d else some m) = some d
              rw [if_pos hd]
            have homn : ∀ d : α, ¬d < m → ominStep (some m) d = some m := fun d hd => by
              show (if d < m then some d else some m) = some m
              rw [if_neg hd]
            by_cases hd : pathWeight G path < m
            · have hstep : scanExit grids G astar point st e =
                  { st with minDist := some (pathWeight G path), bestExit := some e,
                            bestPath := some path } := by
                unfold scanExit
                rw [if_pos he, ha]
                simp [hfs, hm, hd]
              rw [hstep]
              have hcost : ominFold (some m)
                  (pathWeight G path :: exitCosts G astar point t) =
                  ominFold (some (pathWeight G path)) (exitCosts G astar point t) := by
                show ominFold (ominStep (some m) (pathWeight G path)) _ = _
                rw [homs _ hd]
              rw [hcost]
              exact ih _ hSt
                (fun v hv => by
                  refine ⟨e, path, rfl, rfl, heS, he, ha, ?_⟩
                  cases hv
                  rfl)
                (fun hcv => by cases hcv)
            · have hstep : scanExit grids G astar point st e = st := by
                unfold scanExit
                rw [if_pos he, ha]
                simp [hfs, hm, hd]
              rw [hstep]
              have hcost : ominFold (some m)
                  (pathWeight G path :: exitCosts G astar point t) =
                  ominFold (some m) (exitCosts G astar point t) := by
                show ominFold (ominStep (some m) (pathWeight G path)) _ = _
                rw [homn _ hd]
              rw [hcost]
              rw [← hm]
              exact ih st hSt hreal hnone
        | some i =>
          have hk : exitCuts grids G astar point (e :: t) =
              pathWeight G (path.take (i + 1)) :: exitCuts grids G astar point t := by
            unfold exitCuts
            rw [List.filterMap_cons, if_pos he, ha]
            simp [hfs]
          rw [hk, List.foldl_cons]
          cases hm : st.minDist with
          | none =>
            have hstep : scanExit grids G astar point st e =
                { st with minDist := some (pathWeight G path), bestExit := some e,
                          bestPath := some path,
                          curStair := stairStep st.curStair (pathWeight G (path.take (i + 1))) } := by
              unfold scanExit
              rw [if_pos he, ha]
              simp [hfs, hm, stairStep]
            rw [hstep]
            have hcost : ominFold (none : Option α)
                (pathWeight G path :: exitCosts G astar point t) =
                ominFold (some (pathWeight G path)) (exitCosts G astar point t) := rfl
            rw [hcost]
            exact ih _ hSt
              (fun v hv => by
                refine ⟨e, path, rfl, rfl, heS, he, ha, ?_⟩
                cases hv
                rfl)
              (fun hcv => by cases hcv)
          | some m =>
            have homs : ∀ d : α, d < m → ominStep (some m) d = some d := fun d hd => by
              show (if d < m then some d else some m) = some d
              rw [if_pos hd]
            have homn : ∀ d : α, ¬d < m → ominStep (some m) d = some m := fun d hd => by
              show (if d < m then some d else some m) = some m
              rw [if_neg hd]
            by_cases hd : pathWeight G path < m
            · have hstep : scanExit grids G astar point st e =
                  { st with minDist := some (pathWeight G path), bestExit := some e,
                            bestPath := some path,
                            curStair := stairStep st.curStair (pathWeight G (path.take (i + 1))) } := by
                unfold scanExit
                rw [if_pos he, ha]
                simp [hfs, hm, hd, stairStep]
              rw [hstep]
              have hcost : ominFold (some m)
                  (pathWeight G path :: exitCosts G astar point t) =
                  ominFold (some (pathWeight G path)) (exitCosts G astar point t) := by
                show ominFold (ominStep (some m) (pathWeight G path)) _ = _
                rw [homs _ hd]
              rw [hcost]
              exact ih _ hSt
                (fun v hv => by
                  refine ⟨e, path, rfl, rfl, heS, he, ha, ?_⟩
                  cases hv
                  rfl)
                (fun hcv => by cases hcv)
            · have hstep : scanExit grids G astar point st e =
                  { st with curStair := stairStep st.curStair (pathWeight G (path.take (i + 1))) } := by
                unfold scanExit
                rw [if_pos he, ha]
                simp [hfs, hm, hd, stairStep]
              rw [hstep]
              have hcost : ominFold (some m)
                  (pathWeight G path :: exitCosts G astar point t) =
                  ominFold (some m) (exitCosts G astar point t) := by
                show ominFold (ominStep (some m) (pathWeight G path)) _ = _
                rw [homn _ hd]
              rw [hcost]
              rw [← hm]
              exact ih _ hSt (fun v hv => hreal v hv) (fun hcv => hnone hcv)
    · have hstep : scanExit grids G astar point st e = st := by
        unfold scanExit
        rw [if_neg he]
      have hc : exitCosts G astar point (e :: t) = exitCosts G astar point t := by
        unfold exitCosts
        rw [List.filterMap_cons, if_neg he]
      have hk : exitCuts grids G astar point (e :: t) = exitCuts grids G astar point t := by
        unfold exitCuts
        rw [List.filterMap_cons, if_neg he]
      rw [hstep, hc, hk]
      exact ih st hSt hreal hnone

theorem scanExit_init_spec {α : Type} [LinearOrderedField α] (grids : GridStack)
    (G : EGraph α) (astar : Node → Node → Option (List Node)) (point : Node)
    (exits : List Node) :
    ((exits.foldl (scanExit grids G astar point) (⟨none, none, none, -1⟩ : ExitScan α)).minDist =
        bestCost G astar exits point ∧
      (exits.foldl (scanExit grids G astar point) (⟨none, none, none, -1⟩ : ExitScan α)).curStair =
        (exitCuts grids G astar point exits).foldl stairStep (-1) ∧
      (∀ v, (exits.foldl (scanExit grids G astar point) (⟨none, none, none, -1⟩ : ExitScan α)).minDist = some v →
        ∃ e p, (exits.foldl (scanExit grids G astar point) (⟨none, none, none, -1⟩ : ExitScan α)).bestExit = some e ∧
          (exits.foldl (scanExit grids G astar point) (⟨none, none, none, -1⟩ : ExitScan α)).bestPath = some p ∧
          e ∈ inGraphExits G exits ∧ astar point e = some p ∧ pathWeight G p = v) ∧
      ((exits.foldl (scanExit grids G astar point) (⟨none, none, none, -1⟩ : ExitScan α)).minDist = none →
        (exits.foldl (scanExit grids G astar point) (⟨none, none, none, -1⟩ : ExitScan α)).bestExit = none ∧
          (exits.foldl (scanExit grids G astar point) (⟨none, none, none, -1⟩ : ExitScan α)).bestPath = none)) := by
  have h := scanExit_fold grids G astar point exits exits
    (⟨none, none, none, -1⟩ : ExitScan α) (fun e he => he)
    (fun v hv => by cases hv) (fun _ => ⟨rfl, rfl⟩)
  have hbest : ominFold (none : Option α) (exitCosts G astar point exits) =
      bestCost G astar exits point := by
    rw [ominFold_none, exitCosts_eq]
    rfl
  refine ⟨by rw [h.1, hbest], h.2.1, fun v hv => ?_, h.2.2.2⟩
  rcases h.2.2.1 v hv with ⟨e, p, h1, h2, h3, h4, h5, h6⟩
  exact ⟨e, p, h1, h2, List.mem_filter.mpr ⟨h3, decide_eq_true h4⟩, h5, h6⟩

theorem gtInf_some_some {α : Type} [LinearOrderedField α] (a b : α) :
    gtInf (some a) (some b) = decide (b < a) := rfl

theorem gtInf_none_some {α : Type} [LinearOrderedField α] (b : α) :
    gtInf (none : Option α) (some b) = true := rfl

theorem gtInf_some_none {α : Type} [LinearOrderedField α] (a : α) :
    gtInf (some a) (none : Option α) = false := rfl


theorem candInv_step {α : Type} [LinearOrderedField α] (grids : GridStack)
    (G : EGraph α) (astar : Node → Node → Option (List Node))
    (exits processed : List Node) (st : CandScan α) (point : Node)
    (h : CandInv grids G astar exits processed st) :
    CandInv grids G astar exits (processed ++ [point])
      (scanCandidate grids G astar exits st point) := by
  by_cases hpn : point ∈ G.nodes
  · have hpin : (processed ++ [point]).filter (fun c => decide (c ∈ G.nodes)) =
        processed.filter (fun c => decide (c ∈ G.nodes)) ++ [point] := by
      rw [List.filter_append]
      simp [hpn]
    obtain ⟨hmind, hcur, hrealz, hnonez⟩ := scanExit_init_spec grids G astar point exits
    have hsc : scanCandidate grids G astar exits st point =
        (if gtInf (exits.foldl (scanExit grids G astar point)
            (⟨none, none, none, -1⟩ : ExitScan α)).minDist st.maxDist then
          (⟨(exits.foldl (scanExit grids G astar point)
              (⟨none, none, none, -1⟩ : ExitScan α)).minDist, some point,
            (exits.foldl (scanExit grids G astar point)
              (⟨none, none, none, -1⟩ : ExitScan α)).bestExit,
            (exits.foldl (scanExit grids G astar point)
              (⟨none, none, none, -1⟩ : ExitScan α)).bestPath,
            (exits.foldl (scanExit grids G astar point)
              (⟨none, none, none, -1⟩ : ExitScan α)).curStair⟩ : CandScan α)
         else st) := by
      unfold scanCandidate
      rw [if_pos hpn]
    unfold CandInv at h ⊢
    rw [hpin]
    obtain ⟨hA, hB, hC⟩ := h
    cases hb : bestCost G astar exits point with
    | none =>
      rw [hb] at hmind
      refine ⟨fun _ => ?_, fun hall _ => ?_, fun hall _ => ?_⟩
      · cases hmx : st.maxDist with
        | none =>
          have hst : scanCandidate grids G astar exits st point = st := by
            rw [hsc, hmind, hmx]
            rfl
          rcases Classical.em (∃ c ∈ processed.filter (fun c => decide (c ∈ G.nodes)),
              bestCost G astar exits c = none) with hex | hnex
          · rcases hA hex with ⟨h1, h2, h3⟩
            rw [hst]
            exact ⟨h1, h2, h3⟩
          · exfalso
            have hall : ∀ c ∈ processed.filter (fun c => decide (c ∈ G.nodes)),
                (bestCost G astar exits c).isSome = true := by
              intro c hc
              cases hbc : bestCost G astar exits c with
              | none => exact absurd ⟨c, hc, hbc⟩ hnex
              | some _ => rfl
            rcases Classical.em (∃ v ∈ (processed.filter
                (fun c => decide (c ∈ G.nodes))).filterMap (bestCost G astar exits),
                0 < v) with hpos | hnpos
            · rcases hB hall hpos with ⟨m, c, hm1, _⟩
              rw [hmx] at hm1
              cases hm1
            · have hle : ∀ c ∈ processed.filter (fun c => decide (c ∈ G.nodes)),
                  ∀ v, bestCost G astar exits c = some v → v ≤ 0 := by
                intro c hc v hv
                by_contra hgt
                exact hnpos ⟨v, List.mem_filterMap.mpr ⟨c, hc, hv⟩, lt_of_not_le hgt⟩
              have := hC hall hle
              rw [this] at hmx
              cases hmx
        | some w =>
          have hst : scanCandidate grids G astar exits st point =
              (⟨none, some point,
                (exits.foldl (scanExit grids G astar point)
                  (⟨none, none, none, -1⟩ : ExitScan α)).bestExit,
                (exits.foldl (scanExit grids G astar point)
                  (⟨none, none, none, -1⟩ : ExitScan α)).bestPath,
                (exits.foldl (scanExit grids G astar point)
                  (⟨none, none, none, -1⟩ : ExitScan α)).curStair⟩ : CandScan α) := by
            rw [hsc, hmind, hmx]
            rfl
          rw [hst]
          rcases hnonez hmind with ⟨hbe, _⟩
          exact ⟨rfl, by rw [hbe], rfl⟩
      · exfalso
        have := hall point (by rw [List.mem_append]; exact Or.inr (List.mem_singleton.mpr rfl))
        rw [hb] at this
        cases this
      · exfalso
        have := hall point (by rw [List.mem_append]; exact Or.inr (List.mem_singleton.mpr rfl))
        rw [hb] at this
        cases this
    | some v =>
      rw [hb] at hmind
      have hvals' : ((processed.filter (fun c => decide (c ∈ G.nodes))) ++ [point]).filterMap
          (bestCost G astar exits) =
          (processed.filter (fun c => decide (c ∈ G.nodes))).filterMap
            (bestCost G astar exits) ++ [v] := by
        rw [List.filterMap_append]
        simp [hb]
      rw [hvals']
      have hallnew : (∀ c ∈ (processed.filter (fun c => decide (c ∈ G.nodes))) ++ [point],
            (bestCost G astar exits c).isSome = true) ↔
          (∀ c ∈ processed.filter (fun c => decide (c ∈ G.nodes)),
            (bestCost G astar exits c).isSome = true) := by
        constructor
        · intro hall c hc
          exact hall c (List.mem_append.mpr (Or.inl hc))
        · intro hall c hc
          rcases List.mem_append.mp hc with hc | hc
          · exact hall c hc
          · rw [List.mem_singleton.mp hc, hb]
            rfl
      refine ⟨fun hex => ?_, fun hall hpos => ?_, fun hall hle => ?_⟩
      · rcases hex with ⟨c, hc, hbc⟩
        rcases List.mem_append.mp hc with hc | hc
        · have hoA := hA ⟨c, hc, hbc⟩
          rcases hoA with ⟨hmx, hoe, hfs⟩
          have hst : scanCandidate grids G astar exits st point = st := by
            rw [hsc, hmind, hmx]
            rfl
          rw [hst]
          exact ⟨hmx, hoe, hfs⟩
        · rw [List.mem_singleton.mp hc] at hbc
          rw [hb] at hbc
          cases hbc
      · have hallOld : ∀ c ∈ processed.filter (fun c => decide (c ∈ G.nodes)),
            (bestCost G astar exits c).isSome = true := hallnew.mp hall
        rcases Classical.em (∃ w ∈ (processed.filter
            (fun c => decide (c ∈ G.nodes))).filterMap (bestCost G astar exits),
            0 < w) with hposOld | hnposOld
        · rcases hB hallOld hposOld with
            ⟨m, c, hmx, hmmem, hmbnd, hmpos, hfur, hcpin, hcbest, hdts, hreal⟩
          by_cases hlt : m < v
          · have hst : scanCandidate grids G astar exits st point =
                (⟨some v, some point,
                  (exits.foldl (scanExit grids G astar point)
                    (⟨none, none, none, -1⟩ : ExitScan α)).bestExit,
                  (exits.foldl (scanExit grids G astar point)
                    (⟨none, none, none, -1⟩ : ExitScan α)).bestPath,
                  (exits.foldl (scanExit grids G astar point)
                    (⟨none, none, none, -1⟩ : ExitScan α)).curStair⟩ : CandScan α) := by
              rw [hsc, hmind, hmx, gtInf_some_some, if_pos (decide_eq_true hlt)]
            rw [hst]
            rcases hrealz v hmind with ⟨e, p, he1, he2, he3, he4, he5⟩
            refine ⟨v, point, rfl, ?_, ?_, lt_trans hmpos hlt, rfl, ?_, hb, ?_, e, p, he1, he2, he3, he4, he5⟩
            · exact List.mem_append.mpr (Or.inr (List.mem_singleton.mpr rfl))
            · intro w hw
              rcases List.mem_append.mp hw with hw | hw
              · exact le_of_lt (lt_of_le_of_lt (hmbnd w hw) hlt)
              · rw [List.mem_singleton.mp hw]
            · exact List.mem_append.mpr (Or.inr (List.mem_singleton.mpr rfl))
            · exact hcur
          · have hst : scanCandidate grids G astar exits st point = st := by
              rw [hsc, hmind, hmx, gtInf_some_some,
                if_neg (by rw [decide_eq_false hlt]; exact Bool.false_ne_true)]
            rw [hst]
            refine ⟨m, c, hmx, List.mem_append.mpr (Or.inl hmmem), ?_, hmpos, hfur,
              List.mem_append.mpr (Or.inl hcpin), hcbest, hdts, hreal⟩
            intro w hw
            rcases List.mem_append.mp hw with hw | hw
            · exact hmbnd w hw
            · rw [List.mem_singleton.mp hw]
              exact le_of_not_lt hlt
        · have h0v : 0 < v := by
            rcases hpos with ⟨w, hw, hwpos⟩
            rcases List.mem_append.mp hw with hw | hw
            · exact absurd ⟨w, hw, hwpos⟩ hnposOld
            · rw [← List.mem_singleton.mp hw]
              exact hwpos
          have hleOld : ∀ c ∈ processed.filter (fun c => decide (c ∈ G.nodes)),
              ∀ w, bestCost G astar exits c = some w → w ≤ 0 := by
            intro c hc w hw
            by_contra hgt
            exact hnposOld ⟨w, List.mem_filterMap.mpr ⟨c, hc, hw⟩, lt_of_not_le hgt⟩
          have hinit := hC hallOld hleOld
          have hmx : st.maxDist = some 0 := by rw [hinit]
          have hst : scanCandidate grids G astar exits st point =
              (⟨some v, some point,
                (exits.foldl (scanExit grids G astar point)
                  (⟨none, none, none, -1⟩ : ExitScan α)).bestExit,
                (exits.foldl (scanExit grids G astar point)
                  (⟨none, none, none, -1⟩ : ExitScan α)).bestPath,
                (exits.foldl (scanExit grids G astar point)
                  (⟨none, none, none, -1⟩ : ExitScan α)).curStair⟩ : CandScan α) := by
            rw [hsc, hmind, hmx, gtInf_some_some, if_pos (decide_eq_true h0v)]
          rw [hst]
          rcases hrealz v hmind with ⟨e, p, he1, he2, he3, he4, he5⟩
          refine ⟨v, point, rfl, ?_, ?_, h0v, rfl, ?_, hb, hcur, e, p, he1, he2, he3, he4, he5⟩
          · exact List.mem_append.mpr (Or.inr (List.mem_singleton.mpr rfl))
          · intro w hw
            rcases List.mem_append.mp hw with hw | hw
            · exact le_trans (le_of_not_lt (fun hgt => hnposOld ⟨w, hw, hgt⟩)) (le_of_lt h0v)
            · rw [List.mem_singleton.mp hw]
          · exact List.mem_append.mpr (Or.inr (List.mem_singleton.mpr rfl))
      · have hallOld : ∀ c ∈ processed.filter (fun c => decide (c ∈ G.nodes)),
            (bestCost G astar exits c).isSome = true := hallnew.mp hall
        have hleOld : ∀ c ∈ processed.filter (fun c => decide (c ∈ G.nodes)),
            ∀ w, bestCost G astar exits c = some w → w ≤ 0 := by
          intro c hc w hw
          exact hle c (List.mem_append.mpr (Or.inl hc)) w hw
        have hvle : v ≤ 0 :=
          hle point (List.mem_append.mpr (Or.inr (List.mem_singleton.mpr rfl))) v hb
        have hinit := hC hallOld hleOld
        have hmx : st.maxDist = some 0 := by rw [hinit]
        have hst : scanCandidate grids G astar exits st point = st := by
          rw [hsc, hmind, hmx, gtInf_some_some,
            if_neg (by rw [decide_eq_false (not_lt_of_le hvle)]; exact Bool.false_ne_true)]
        rw [hst]
        exact hinit
  · have hstep : scanCandidate grids G astar exits st point = st := by
      unfold scanCandidate
      rw [if_neg hpn]
    have hpin : (processed ++ [point]).filter (fun c => decide (c ∈ G.nodes)) =
        processed.filter (fun c => decide (c ∈ G.nodes)) := by
      rw [List.filter_append]
      simp [hpn]
    rw [hstep]
    unfold CandInv at h ⊢
    rw [hpin]
    exact h

theorem listMax?_mem {α : Type} [LinearOrderedField α] (l : List α) (m : α)
    (h : listMax? l = some m) : m ∈ l := by
  cases l with
  | nil => cases h
  | cons x t =>
    have hm : t.foldl max x = m := by
      have : some (t.foldl max x) = some m := h
      cases this
      rfl
    rcases foldl_max_mem t x with heq | hmem
    · rw [← hm, heq]
      exact List.mem_cons_self x t
    · rw [← hm]
      exact List.mem_cons_of_mem x hmem

theorem listMax?_bound {α : Type} [LinearOrderedField α] (l : List α) (m : α)
    (h : listMax? l = some m) : ∀ v ∈ l, v ≤ m := by
  cases l with
  | nil => intro v hv; cases hv
  | cons x t =>
    have hm : t.foldl max x = m := by
      have : some (t.foldl max x) = some m := h
      cases this
      rfl
    intro v hv
    rcases List.mem_cons.mp hv with rfl | hv
    · rw [← hm]
      exact foldl_max_le_self t v
    · rw [← hm]
      exact foldl_max_le_of_mem t x v hv

theorem candInv_nil {α : Type} [LinearOrderedField α] (grids : GridStack)
    (G : EGraph α) (astar : Node → Node → Option (List Node)) (exits : List Node) :
    CandInv grids G astar exits [] (⟨some 0, none, none, none, -1⟩ : CandScan α) := by
  refine ⟨fun hex => ?_, fun _ hpos => ?_, fun _ _ => rfl⟩
  · rcases hex with ⟨c, hc, _⟩
    cases hc
  · rcases hpos with ⟨v, hv, _⟩
    cases hv

theorem candInv_fold {α : Type} [LinearOrderedField α] (grids : GridStack)
    (G : EGraph α) (astar : Node → Node → Option (List Node)) (exits : List Node) :
    ∀ (l processed : List Node) (st : CandScan α),
    CandInv grids G astar exits processed st →
    CandInv grids G astar exits (processed ++ l)
      (l.foldl (scanCandidate grids G astar exits) st) := by
  intro l
  induction l with
  | nil =>
    intro processed st h
    rw [List.append_nil]
    exact h
  | cons c t ih =>
    intro processed st h
    rw [List.foldl_cons]
    have h2 := ih (processed ++ [c]) _ (candInv_step grids G astar exits processed st c h)
    rw [List.append_assoc] at h2
    exact h2

/-- C2, amended: writing `cands` for the candidate points that are graph nodes
and `best c` for the minimum A* cost from `c` to the in-graph exits, the route
returned by `calculate_escape_route` preserves the space name; it is the null
route exactly when `cands` is empty, some member of `cands` reaches no in-graph
exit (its inner minimum stays `inf`, poisoning the running maximum), or every
best cost is `≤ 0` (as when every candidate sits on an exit); and whenever
every member of `cands` reaches an exit and the maximum `m` of the best costs
is positive, the returned distance is `m · cell_size`, realized by the
recorded furthest point, optimal exit and optimal path. -/
theorem calculateEscapeRoute_spec {α : Type} [LinearOrderedField α]
    (grids : GridStack) (G : EGraph α) (astar : Node → Node → Option (List Node))
    (cellSize : α) (space : Space) (exits : List Node) :
    (calculateEscapeRoute grids G astar cellSize space exits).spaceName = space.name ∧
    ((calculateEscapeRoute grids G astar cellSize space exits).optimalExit = none ↔
      ((selectCandidatePoints space).filter (fun c => decide (c ∈ G.nodes)) = [] ∨
       (∃ c ∈ (selectCandidatePoints space).filter (fun c => decide (c ∈ G.nodes)),
          bestCost G astar exits c = none) ∨
       (∀ c ∈ (selectCandidatePoints space).filter (fun c => decide (c ∈ G.nodes)),
          ∀ v, bestCost G astar exits c = some v → v ≤ 0))) ∧
    ((calculateEscapeRoute grids G astar cellSize space exits).optimalExit = none →
      calculateEscapeRoute grids G astar cellSize space exits =
        ⟨none, none, none, none, none, space.name⟩) ∧
    (∀ m, listMax? (((selectCandidatePoints space).filter
          (fun c => decide (c ∈ G.nodes))).filterMap (bestCost G astar exits)) = some m →
      0 < m →
      (∀ c ∈ (selectCandidatePoints space).filter (fun c => decide (c ∈ G.nodes)),
        (bestCost G astar exits c).isSome = true) →
      (calculateEscapeRoute grids G astar cellSize space exits).distance =
          some (m * cellSize) ∧
      (∃ c, (calculateEscapeRoute grids G astar cellSize space exits).furthestPoint = some c ∧
        c ∈ (selectCandidatePoints space).filter (fun c => decide (c ∈ G.nodes)) ∧
        bestCost G astar exits c = some m ∧
        (∃ e p, (calculateEscapeRoute grids G astar cellSize space exits).optimalExit = some e ∧
          (calculateEscapeRoute grids G astar cellSize space exits).optimalPath = some p ∧
          e ∈ inGraphExits G exits ∧ astar c e = some p ∧ pathWeight G p = m))) := by
  have Hinv := candInv_fold grids G astar exits (selectCandidatePoints space) []
    (⟨some 0, none, none, none, -1⟩ : CandScan α) (candInv_nil grids G astar exits)
  rw [List.nil_append] at Hinv
  rcases Classical.em (∃ c ∈ (selectCandidatePoints space).filter
      (fun c => decide (c ∈ G.nodes)), bestCost G astar exits c = none) with CA | CnA
  · rcases Hinv.1 CA with ⟨hmx, hoe, hfs⟩
    have hcond : ¬(((selectCandidatePoints space).foldl (scanCandidate grids G astar exits)
        (⟨some 0, none, none, none, -1⟩ : CandScan α)).furthest.isSome = true ∧
        ((selectCandidatePoints space).foldl (scanCandidate grids G astar exits)
        (⟨some 0, none, none, none, -1⟩ : CandScan α)).optExit.isSome = true) := by
      intro hcc
      rw [hoe] at hcc
      cases hcc.2
    have hR : calculateEscapeRoute grids G astar cellSize space exits =
        ⟨none, none, none, none, none, space.name⟩ := by
      simp only [calculateEscapeRoute, calculateEscapeRouteCore]
      rw [if_neg hcond]
    rw [hR]
    refine ⟨rfl, Iff.intro (fun _ => Or.inr (Or.inl CA)) (fun _ => rfl), fun _ => rfl,
      fun m _ _ hall => ?_⟩
    exfalso
    rcases CA with ⟨c, hc, hbc⟩
    have := hall c hc
    rw [hbc] at this
    cases this
  · have hall : ∀ c ∈ (selectCandidatePoints space).filter
        (fun c => decide (c ∈ G.nodes)), (bestCost G astar exits c).isSome = true := by
      intro c hc
      cases hbc : bestCost G astar exits c with
      | none => exact absurd ⟨c, hc, hbc⟩ CnA
      | some _ => rfl
    rcases Classical.em (∃ v ∈ ((selectCandidatePoints space).filter
        (fun c => decide (c ∈ G.nodes))).filterMap (bestCost G astar exits),
        0 < v) with CP | CnP
    · rcases Hinv.2.1 hall CP with
        ⟨m0, c0, hmx, hmem, hbnd, hmpos, hfur, hcpin, hcbest, hdts, e, p, he1, he2, he3, he4, he5⟩
      have hcond : (((selectCandidatePoints space).foldl (scanCandidate grids G astar exits)
          (⟨some 0, none, none, none, -1⟩ : CandScan α)).furthest.isSome = true ∧
          ((selectCandidatePoints space).foldl (scanCandidate grids G astar exits)
          (⟨some 0, none, none, none, -1⟩ : CandScan α)).optExit.isSome = true) := by
        rw [hfur, he1]
        exact ⟨rfl, rfl⟩
      have hR : calculateEscapeRoute grids G astar cellSize space exits =
          { furthestPoint := ((selectCandidatePoints space).foldl
              (scanCandidate grids G astar exits)
              (⟨some 0, none, none, none, -1⟩ : CandScan α)).furthest
            optimalExit := ((selectCandidatePoints space).foldl
              (scanCandidate grids G astar exits)
              (⟨some 0, none, none, none, -1⟩ : CandScan α)).optExit
            optimalPath := ((selectCandidatePoints space).foldl
              (scanCandidate grids G astar exits)
              (⟨some 0, none, none, none, -1⟩ : CandScan α)).optPath
            distance := (((selectCandidatePoints space).foldl
              (scanCandidate grids G astar exits)
              (⟨some 0, none, none, none, -1⟩ : CandScan α)).maxDist).map (fun v => v * cellSize)
            distanceToStair := some (if 0 < ((selectCandidatePoints space).foldl
                (scanCandidate grids G astar exits)
                (⟨some 0, none, none, none, -1⟩ : CandScan α)).dts then
              ((selectCandidatePoints space).foldl (scanCandidate grids G astar exits)
                (⟨some 0, none, none, none, -1⟩ : CandScan α)).dts * cellSize else -1)
            spaceName := space.name } := by
        simp only [calculateEscapeRoute, calculateEscapeRouteCore]
        rw [if_pos hcond]
      rw [hR]
      refine ⟨rfl, ?_, ?_, ?_⟩
      · simp only [he1]
        constructor
        · intro hc
          cases hc
        · intro hor
          exfalso
          rcases hor with hnil | hex | hle
          · rw [hnil] at hcpin
            cases hcpin
          · exact CnA hex
          · have := hle c0 hcpin m0 hcbest
            exact absurd hmpos (not_lt_of_le this)
      · intro hc
        simp only [he1] at hc
        cases hc
      · intro m hmax hmp hall2
        have hmle : m ≤ m0 := hbnd m (listMax?_mem _ m hmax)
        have hm0le : m0 ≤ m := listMax?_bound _ m hmax m0 hmem
        have hmm : m = m0 := le_antisymm hmle hm0le
        subst hmm
        refine ⟨by rw [hmx]; rfl, c0, hfur, hcpin, hcbest, e, p, he1, he2, he3, he4, he5⟩
    · have hle : ∀ c ∈ (selectCandidatePoints space).filter
          (fun c => decide (c ∈ G.nodes)), ∀ v, bestCost G astar exits c = some v → v ≤ 0 := by
        intro c hc v hv
        by_contra hgt
        exact CnP ⟨v, List.mem_filterMap.mpr ⟨c, hc, hv⟩, lt_of_not_le hgt⟩
      have hinit := Hinv.2.2 hall hle
      have hcond : ¬(((selectCandidatePoints space).foldl (scanCandidate grids G astar exits)
          (⟨some 0, none, none, none, -1⟩ : CandScan α)).furthest.isSome = true ∧
          ((selectCandidatePoints space).foldl (scanCandidate grids G astar exits)
          (⟨some 0, none, none, none, -1⟩ : CandScan α)).optExit.isSome = true) := by
        intro hcc
        rw [hinit] at hcc
        cases hcc.1
      have hR : calculateEscapeRoute grids G astar cellSize space exits =
          ⟨none, none, none, none, none, space.name⟩ := by
        simp only [calculateEscapeRoute, calculateEscapeRouteCore]
        rw [if_neg hcond]
      rw [hR]
      refine ⟨rfl, Iff.intro (fun _ => Or.inr (Or.inr hle)) (fun _ => rfl), fun _ => rfl,
        fun m hmax hmp _ => ?_⟩
      exfalso
      exact CnP ⟨m, listMax?_mem _ m hmax, hmp⟩

/-- C3, amended: in a non-null route, `distance_to_stair` is computed from the
chosen (furthest) candidate `c` as the minimum, over the A* paths from `c` to
every in-graph exit (not only along the chosen optimal path), of the sum of
edge weights up to the first stair node of each path; the result is multiplied
by `cell_size` only when strictly positive, and is `-1` when no exit path from
`c` traverses a stair or when the first stair sits at the very start.  The
hypothesis that the stair cuts are non-negative always holds in practice
(edge weights are positive); it rules out a cut colliding with the `-1`
sentinel. -/
theorem calculateEscapeRoute_stair_spec {α : Type} [LinearOrderedField α]
    (grids : GridStack) (G : EGraph α) (astar : Node → Node → Option (List Node))
    (cellSize : α) (space : Space) (exits : List Node) (c : Node)
    (hfur : (calculateEscapeRoute grids G astar cellSize space exits).furthestPoint = some c)
    (hex : (calculateEscapeRoute grids G astar cellSize space exits).optimalExit ≠ none)
    (hsd : ∀ sd ∈ stairCuts grids G astar exits c, 0 ≤ sd) :
    (calculateEscapeRoute grids G astar cellSize space exits).distanceToStair =
      some (if 0 < stairRawMin grids G astar exits c
        then stairRawMin grids G astar exits c * cellSize else -1) := by
  have Hinv := candInv_fold grids G astar exits (selectCandidatePoints space) []
    (⟨some 0, none, none, none, -1⟩ : CandScan α) (candInv_nil grids G astar exits)
  rw [List.nil_append] at Hinv
  rcases Classical.em (∃ c ∈ (selectCandidatePoints space).filter
      (fun c => decide (c ∈ G.nodes)), bestCost G astar exits c = none) with CA | CnA
  · rcases Hinv.1 CA with ⟨hmx, hoe, hfs⟩
    exfalso
    apply hex
    simp only [calculateEscapeRoute, calculateEscapeRouteCore]
    rw [if_neg (fun hcc => by rw [hoe] at hcc; cases hcc.2)]
  · have hall : ∀ c ∈ (selectCandidatePoints space).filter
        (fun c => decide (c ∈ G.nodes)), (bestCost G astar exits c).isSome = true := by
      intro c hc
      cases hbc : bestCost G astar exits c with
      | none => exact absurd ⟨c, hc, hbc⟩ CnA
      | some _ => rfl
    rcases Classical.em (∃ v ∈ ((selectCandidatePoints space).filter
        (fun c => decide (c ∈ G.nodes))).filterMap (bestCost G astar exits),
        0 < v) with CP | CnP
    · rcases Hinv.2.1 hall CP with
        ⟨m0, c0, hmx, hmem, hbnd, hmpos, hfur0, hcpin, hcbest, hdts, e, p,
          he1, he2, he3, he4, he5⟩
      have hcond : (((selectCandidatePoints space).foldl (scanCandidate grids G astar exits)
          (⟨some 0, none, none, none, -1⟩ : CandScan α)).furthest.isSome = true ∧
          ((selectCandidatePoints space).foldl (scanCandidate grids G astar exits)
          (⟨some 0, none, none, none, -1⟩ : CandScan α)).optExit.isSome = true) := by
        rw [hfur0, he1]
        exact ⟨rfl, rfl⟩
      have hR : calculateEscapeRoute grids G astar cellSize space exits =
          { furthestPoint := ((selectCandidatePoints space).foldl
              (scanCandidate grids G astar exits)
              (⟨some 0, none, none, none, -1⟩ : CandScan α)).furthest
            optimalExit := ((selectCandidatePoints space).foldl
              (scanCandidate grids G astar exits)
              (⟨some 0, none, none, none, -1⟩ : CandScan α)).optExit
            optimalPath := ((selectCandidatePoints space).foldl
              (scanCandidate grids G astar exits)
              (⟨some 0, none, none, none, -1⟩ : CandScan α)).optPath
            distance := (((selectCandidatePoints space).foldl
              (scanCandidate grids G astar exits)
              (⟨some 0, none, none, none, -1⟩ : CandScan α)).maxDist).map (fun v => v * cellSize)
            distanceToStair := some (if 0 < ((selectCandidatePoints space).foldl
                (scanCandidate grids G astar exits)
                (⟨some 0, none, none, none, -1⟩ : CandScan α)).dts then
              ((selectCandidatePoints space).foldl (scanCandidate grids G astar exits)
                (⟨some 0, none, none, none, -1⟩ : CandScan α)).dts * cellSize else -1)
            spaceName := space.name } := by
        simp only [calculateEscapeRoute, calculateEscapeRouteCore]
        rw [if_pos hcond]
      rw [hR] at hfur ⊢
      have hc0 : c0 = c := by
        have : some c0 = some c := by rw [← hfur0]; exact hfur
        cases this
        rfl
      subst hc0
      have hdts' : ((selectCandidatePoints space).foldl (scanCandidate grids G astar exits)
          (⟨some 0, none, none, none, -1⟩ : CandScan α)).dts =
          stairRawMin grids G astar exits c0 := by
        rw [hdts, exitCuts_eq, stairFold_min _ hsd]
        rfl
      rw [hdts']
    · have hle : ∀ c ∈ (selectCandidatePoints space).filter
          (fun c => decide (c ∈ G.nodes)), ∀ v, bestCost G astar exits c = some v → v ≤ 0 := by
        intro c hc v hv
        by_contra hgt
        exact CnP ⟨v, List.mem_filterMap.mpr ⟨c, hc, hv⟩, lt_of_not_le hgt⟩
      have hinit := Hinv.2.2 hall hle
      exfalso
      apply hex
      simp only [calculateEscapeRoute, calculateEscapeRouteCore]
      rw [if_neg (fun hcc => by rw [hinit] at hcc; cases hcc.1)]

/-- C2, counterexample: on the split grid the candidate `(0,0,0)` is connected
to the in-graph exit `(0,1,0)`, yet `calculate_escape_route` returns the null
route, because the other candidate `(0,3,0)` (processed first) reaches no exit
and poisons the running maximum with `inf` while resetting the best exit to
`None`.  This refutes "null exactly when no candidate/exit pair is connected". -/
theorem calculateEscapeRoute_null_despite_connection :
    (calculateEscapeRoute gridsSplit gSplit astarSplit 1 spaceSplit exitsSplit).optimalExit =
        none ∧
      (calculateEscapeRoute gridsSplit gSplit astarSplit 1 spaceSplit exitsSplit).distance =
        none ∧
      ((0, 0, 0) : Node) ∈ selectCandidatePoints spaceSplit ∧
      ((0, 0, 0) : Node) ∈ gSplit.nodes ∧ ((0, 1, 0) : Node) ∈ gSplit.nodes ∧
      ((0, 1, 0) : Node) ∈ exitsSplit ∧
      astarSplit (0, 0, 0) (0, 1, 0) = some [(0, 0, 0), (0, 1, 0)] ∧
      Reachable gSplit (0, 0, 0) (0, 1, 0) := by decide

/-- C2, witness for the amended theorem on the line grid: the single candidate
`(0,0,0)` reaches both doors, its best cost is 4, and the returned distance is
`4 · cell_size`. -/
theorem calculateEscapeRoute_spec_witness :
    (calculateEscapeRoute gridsLine gLine astarLine 1 spaceLine exitsLine).distance =
        some (4 * 1) ∧
      (calculateEscapeRoute gridsLine gLine astarLine 1 spaceLine exitsLine).spaceName =
        spaceLine.name :=
  ⟨((calculateEscapeRoute_spec gridsLine gLine astarLine 1 spaceLine exitsLine).2.2.2
      4 (by decide) (by decide) (by decide)).1,
    (calculateEscapeRoute_spec gridsLine gLine astarLine 1 spaceLine exitsLine).1⟩

/-- C3, counterexample: on the line grid the chosen optimal path
`[(0,0,0), (0,1,0)]` traverses no stair cell, yet `distance_to_stair` is 8
(taken from the discarded longer path to the far door), not −1.  This refutes
"distance_to_stair is −1 exactly when the chosen path traverses no stair" and
"prefix sum along the chosen optimal path". -/
theorem distanceToStair_not_from_chosen_path :
    (calculateEscapeRoute gridsLine gLine astarLine 1 spaceLine exitsLine).distanceToStair =
        some 8 ∧
      (calculateEscapeRoute gridsLine gLine astarLine 1 spaceLine exitsLine).optimalPath =
        some [(0, 0, 0), (0, 1, 0)] ∧
      findStairIdx gridsLine [(0, 0, 0), (0, 1, 0)] = none ∧
      (8 : ℚ) ≠ -1 := by decide

/-- C3, witness for the amended theorem on the line grid, at the chosen
candidate `(0,0,0)`. -/
theorem calculateEscapeRoute_stair_spec_witness :
    (calculateEscapeRoute gridsLine gLine astarLine 1 spaceLine exitsLine).distanceToStair =
      some (if 0 < stairRawMin gridsLine gLine astarLine exitsLine ((0, 0, 0) : Node)
        then stairRawMin gridsLine gLine astarLine exitsLine ((0, 0, 0) : Node) * 1
        else -1) :=
  calculateEscapeRoute_stair_spec gridsLine gLine astarLine 1 spaceLine exitsLine
    (0, 0, 0) (by decide) (by decide) (by decide)

theorem mem_addNode {α : Type} (G : EGraph α) (n m : Node) :
    m ∈ (G.addNode n).nodes ↔ m ∈ G.nodes ∨ m = n := by
  unfold EGraph.addNode
  by_cases h : n ∈ G.nodes
  · rw [if_pos h]
    constructor
    · exact Or.inl
    · intro hm
      rcases hm with hm | rfl
      · exact hm
      · exact h
  · rw [if_neg h]
    show m ∈ G.nodes ++ [n] ↔ _
    rw [List.mem_append, List.mem_singleton]

theorem addNode_edges {α : Type} (G : EGraph α) (n : Node) :
    (G.addNode n).edges = G.edges := by
  unfold EGraph.addNode
  by_cases h : n ∈ G.nodes
  · rw [if_pos h]
  · rw [if_neg h]

theorem mem_addEdge_nodes {α : Type} [DecidableEq α] (G : EGraph α) (u v m : Node) (w : α) :
    m ∈ (G.addEdge u v w).nodes ↔ m ∈ G.nodes ∨ m = u ∨ m = v := by
  unfold EGraph.addEdge
  by_cases h : ((G.addNode u).addNode v).edges.any (fun e => edgeMatches e.1 u v)
  · rw [if_pos h]
    show m ∈ ((G.addNode u).addNode v).nodes ↔ _
    rw [mem_addNode, mem_addNode]
    tauto
  · rw [if_neg h]
    show m ∈ ((G.addNode u).addNode v).nodes ↔ _
    rw [mem_addNode, mem_addNode]
    tauto

theorem addEdge_edges_keys {α : Type} [DecidableEq α] (G : EGraph α) (u v : Node) (w : α) :
    ∀ e ∈ (G.addEdge u v w).edges, (∃ e0 ∈ G.edges, e.1 = e0.1) ∨ e.1 = (u, v) := by
  unfold EGraph.addEdge
  intro e he
  by_cases h : ((G.addNode u).addNode v).edges.any (fun e => edgeMatches e.1 u v)
  · rw [if_pos h] at he
    have he' : e ∈ ((G.addNode u).addNode v).edges.map
        (fun e => if edgeMatches e.1 u v then (e.1, w) else e) := he
    rcases List.mem_map.mp he' with ⟨e0, he0, heq⟩
    rw [addNode_edges, addNode_edges] at he0
    by_cases hm : edgeMatches e0.1 u v
    · rw [if_pos hm] at heq
      exact Or.inl ⟨e0, he0, by rw [← heq]⟩
    · rw [if_neg hm] at heq
      exact Or.inl ⟨e0, he0, by rw [← heq]⟩
  · rw [if_neg h] at he
    have he' : e ∈ ((G.addNode u).addNode v).edges ++ [((u, v), w)] := he
    rcases List.mem_append.mp he' with he0 | he0
    · rw [addNode_edges, addNode_edges] at he0
      exact Or.inl ⟨e, he0, rfl⟩
    · rw [List.mem_singleton.mp he0]
      exact Or.inr rfl

theorem graphOK_addNode {α : Type} (buffered : GridStack) (G : EGraph α) (n : Node)
    (h : GraphOK buffered G) (hn : PassableNode buffered n) :
    GraphOK buffered (G.addNode n) := by
  obtain ⟨h1, h2, h3⟩ := h
  refine ⟨fun m hm => ?_, fun e he => ?_, fun e he => ?_⟩
  · rcases (mem_addNode G n m).mp hm with hm | rfl
    · exact h1 m hm
    · exact hn
  · rw [addNode_edges] at he
    exact ⟨(mem_addNode G n _).mpr (Or.inl (h2 e he).1),
      (mem_addNode G n _).mpr (Or.inl (h2 e he).2)⟩
  · rw [addNode_edges] at he
    exact h3 e he

theorem graphOK_addEdge {α : Type} [DecidableEq α] (buffered : GridStack) (G : EGraph α)
    (u v : Node) (w : α) (h : GraphOK buffered G)
    (hu : PassableNode buffered u) (hv : PassableNode buffered v) :
    GraphOK buffered (G.addEdge u v w) := by
  obtain ⟨h1, h2, h3⟩ := h
  refine ⟨fun m hm => ?_, fun e he => ?_, fun e he => ?_⟩
  · rcases (mem_addEdge_nodes G u v m w).mp hm with hm | rfl | rfl
    · exact h1 m hm
    · exact hu
    · exact hv
  · rcases addEdge_edges_keys G u v w e he with ⟨e0, he0, hk⟩ | hk
    · rw [hk]
      exact ⟨(mem_addEdge_nodes G u v _ w).mpr (Or.inl (h2 e0 he0).1),
        (mem_addEdge_nodes G u v _ w).mpr (Or.inl (h2 e0 he0).2)⟩
    · rw [hk]
      exact ⟨(mem_addEdge_nodes G u v u w).mpr (Or.inr (Or.inl rfl)),
        (mem_addEdge_nodes G u v v w).mpr (Or.inr (Or.inr rfl))⟩
  · rcases addEdge_edges_keys G u v w e he with ⟨e0, he0, hk⟩ | hk
    · rw [hk]
      exact h3 e0 he0
    · rw [hk]
      exact ⟨hu, hv⟩

theorem graphOK_addEdge_mem {α : Type} [DecidableEq α] (buffered : GridStack)
    (G : EGraph α) (u v : Node) (w : α) (h : GraphOK buffered G)
    (hu : u ∈ G.nodes) (hv : v ∈ G.nodes) :
    GraphOK buffered (G.addEdge u v w) :=
  graphOK_addEdge buffered G u v w h (h.1 u hu) (h.1 v hv)

theorem passableNode_of_cell (buffered : GridStack) (grid : Grid) (f : ℕ)
    (xz yz : ℤ) (k : CellKind) (hg : buffered.get? f = some grid)
    (ha : grid.atZ? xz yz = some k) (h1 : k ≠ CellKind.wall)
    (h2 : k ≠ CellKind.walla) : PassableNode buffered (xz, yz, (f : ℤ)) := by
  refine ⟨k, ?_, h1, h2⟩
  show GridStack.cell? buffered (f : ℤ) xz yz = some k
  unfold GridStack.cell?
  rw [if_pos (Int.natCast_nonneg f), Int.toNat_natCast, hg]
  exact ha

theorem atZ_natCast (grid : Grid) (x y : ℕ) :
    grid.atZ? (x : ℤ) (y : ℤ) = grid.at? x y := by
  unfold Grid.atZ?
  rw [if_pos ⟨Int.natCast_nonneg x, Int.natCast_nonneg y⟩, Int.toNat_natCast,
    Int.toNat_natCast]

theorem graphOK_processCell {α : Type} [LinearOrderedField α] (cfg : PFConfig α)
    (buffered : GridStack) (grid : Grid) (f x y : ℕ) (G : EGraph α)
    (hg : buffered.get? f = some grid) (h : GraphOK buffered G) :
    GraphOK buffered (processCell cfg grid f G x y) := by
  unfold processCell
  cases ha : grid.at? x y with
  | none => exact h
  | some k =>
    show GraphOK buffered (if k ≠ CellKind.wall ∧ k ≠ CellKind.walla then _ else G)
    by_cases hk : k ≠ CellKind.wall ∧ k ≠ CellKind.walla
    · rw [if_pos hk]
      have hnode : PassableNode buffered ((x : ℤ), (y : ℤ), (f : ℤ)) :=
        passableNode_of_cell buffered grid f x y k hg
          (by rw [atZ_natCast]; exact ha) hk.1 hk.2
      refine List.foldlRecOn _ _ _ (graphOK_addNode buffered G _ h hnode) ?_
      intro G' hG' d _
      by_cases hb : 0 ≤ (x : ℤ) + d.1 ∧ (x : ℤ) + d.1 < (grid.rows : ℤ) ∧
          0 ≤ (y : ℤ) + d.2 ∧ (y : ℤ) + d.2 < (grid.cols : ℤ)
      · rw [if_pos hb]
        cases han : grid.atZ? ((x : ℤ) + d.1) ((y : ℤ) + d.2) with
        | none => exact hG'
        | some nk =>
          show GraphOK buffered (if nk ≠ CellKind.wall ∧ nk ≠ CellKind.walla then _ else G')
          by_cases hnk : nk ≠ CellKind.wall ∧ nk ≠ CellKind.walla
          · rw [if_pos hnk]
            exact graphOK_addEdge buffered G' _ _ _ hG' hnode
              (passableNode_of_cell buffered grid f _ _ nk hg han hnk.1 hnk.2)
          · rw [if_neg hnk]
            exact hG'
      · rw [if_neg hb]
        exact hG'
    · rw [if_neg hk]
      exact h

theorem graphOK_buildFloorNodes {α : Type} [LinearOrderedField α] (cfg : PFConfig α)
    (buffered : GridStack) (grid : Grid) (f : ℕ) (G : EGraph α)
    (hg : buffered.get? f = some grid) (h : GraphOK buffered G) :
    GraphOK buffered (buildFloorNodes cfg grid f G) := by
  unfold buildFloorNodes
  exact List.foldlRecOn _ _ _ h
    (fun G' hG' p _ => graphOK_processCell cfg buffered grid f p.1 p.2 G' hg hG')

theorem graphOK_fallback {α : Type} [LinearOrderedField α] (cfg : PFConfig α)
    (buffered : GridStack) (G : EGraph α) (lowers uppers : List (ℕ × ℕ × ℕ))
    (h : GraphOK buffered G) :
    GraphOK buffered (connectStairsFallback cfg G lowers uppers) := by
  unfold connectStairsFallback
  refine List.foldlRecOn _ _ _ h ?_
  intro G1 hG1 p _
  refine List.foldlRecOn _ _ _ hG1 ?_
  intro G2 hG2 q _
  by_cases hm : ((p.1 : ℤ), (p.2.1 : ℤ), (p.2.2 : ℤ)) ∈ G2.nodes ∧
      ((q.1 : ℤ), (q.2.1 : ℤ), (q.2.2 : ℤ)) ∈ G2.nodes
  · rw [if_pos hm]
    exact graphOK_addEdge_mem buffered G2 _ _ _ hG2 hm.1 hm.2
  · rw [if_neg hm]
    exact hG2

theorem graphOK_processStairPair {α : Type} [LinearOrderedField α] (cfg : PFConfig α)
    (buffered : GridStack) (lowerFloor upperFloor : ℕ)
    (lowers uppers : List (ℕ × ℕ × ℕ)) (G : EGraph α) (h : GraphOK buffered G) :
    GraphOK buffered (processStairPair cfg buffered lowerFloor upperFloor lowers uppers G) := by
  unfold processStairPair
  have hres : ∀ st : EGraph α × ℕ, GraphOK buffered st.1 →
      GraphOK buffered (lowers.foldl (fun st p => uppers.foldl (fun st q =>
        if checkStairConnection buffered (cfg.offsets (cfg.gridDist lowerFloor upperFloor))
            p.1 p.2.1 lowerFloor q.1 q.2.1 upperFloor then
          if ((p.1 : ℤ), (p.2.1 : ℤ), (lowerFloor : ℤ)) ∈ st.1.nodes ∧
              ((q.1 : ℤ), (q.2.1 : ℤ), (upperFloor : ℤ)) ∈ st.1.nodes then
            (st.1.addEdge ((p.1 : ℤ), (p.2.1 : ℤ), (lowerFloor : ℤ))
              ((q.1 : ℤ), (q.2.1 : ℤ), (upperFloor : ℤ))
              (cfg.stairW ((p.1 : ℤ), (p.2.1 : ℤ), (lowerFloor : ℤ))
                ((q.1 : ℤ), (q.2.1 : ℤ), (upperFloor : ℤ))), st.2 + 1)
          else st
        else st) st) st).1 := by
    intro st hst
    refine List.foldlRecOn (motive := fun st => GraphOK buffered st.1) lowers _ st hst ?_
    intro st1 hst1 p _
    refine List.foldlRecOn (motive := fun st => GraphOK buffered st.1) uppers _ st1 hst1 ?_
    intro st2 hst2 q _
    by_cases hc : checkStairConnection buffered
        (cfg.offsets (cfg.gridDist lowerFloor upperFloor))
        p.1 p.2.1 lowerFloor q.1 q.2.1 upperFloor
    · rw [if_pos hc]
      by_cases hm : ((p.1 : ℤ), (p.2.1 : ℤ), (lowerFloor : ℤ)) ∈ st2.1.nodes ∧
          ((q.1 : ℤ), (q.2.1 : ℤ), (upperFloor : ℤ)) ∈ st2.1.nodes
      · rw [if_pos hm]
        exact graphOK_addEdge_mem buffered st2.1 _ _ _ hst2 hm.1 hm.2
      · rw [if_neg hm]
        exact hst2
    · rw [if_neg hc]
      exact hst2
  by_cases hz : (lowers.foldl (fun st p => uppers.foldl (fun st q =>
      if checkStairConnection buffered (cfg.offsets (cfg.gridDist lowerFloor upperFloor))
          p.1 p.2.1 lowerFloor q.1 q.2.1 upperFloor then
        if ((p.1 : ℤ), (p.2.1 : ℤ), (lowerFloor : ℤ)) ∈ st.1.nodes ∧
            ((q.1 : ℤ), (q.2.1 : ℤ), (upperFloor : ℤ)) ∈ st.1.nodes then
          (st.1.addEdge ((p.1 : ℤ), (p.2.1 : ℤ), (lowerFloor : ℤ))
            ((q.1 : ℤ), (q.2.1 : ℤ), (upperFloor : ℤ))
            (cfg.stairW ((p.1 : ℤ), (p.2.1 : ℤ), (lowerFloor : ℤ))
              ((q.1 : ℤ), (q.2.1 : ℤ), (upperFloor : ℤ))), st.2 + 1)
        else st
      else st) st) ((G, 0) : EGraph α × ℕ)).2 = 0
  · rw [if_pos hz]
    exact graphOK_fallback cfg buffered _ lowers uppers (hres (G, 0) h)
  · rw [if_neg hz]
    exact hres (G, 0) h

theorem graphOK_connectStairs {α : Type} [LinearOrderedField α] (cfg : PFConfig α)
    (buffered : GridStack) (G : EGraph α) (h : GraphOK buffered G) :
    GraphOK buffered (connectStairs cfg buffered G) := by
  unfold connectStairs
  refine List.foldlRecOn _ _ _ h ?_
  intro G1 hG1 group _
  unfold processStairGroup
  refine List.foldlRecOn _ _ _ hG1 ?_
  intro G2 hG2 i _
  exact graphOK_processStairPair cfg buffered _ _ _ _ G2 hG2

/-- C1: every node of the graph built by `create_graph` stands on a cell of
the buffered stack whose kind is neither `wall` nor `walla` (the
specification's `wall_buffer`), and every edge of the graph joins two such
nodes: both endpoints are graph nodes and both stand on passable cells.  In
particular no wall-buffer cell is ever a graph node. -/
theorem createGraph_passable {α : Type} [LinearOrderedField α] (cfg : PFConfig α)
    (buffered : GridStack) :
    (∀ n ∈ (createGraph cfg buffered).nodes, PassableNode buffered n) ∧
    (∀ e ∈ (createGraph cfg buffered).edges,
      e.1.1 ∈ (createGraph cfg buffered).nodes ∧
      e.1.2 ∈ (createGraph cfg buffered).nodes) ∧
    (∀ e ∈ (createGraph cfg buffered).edges,
      PassableNode buffered e.1.1 ∧ PassableNode buffered e.1.2) := by
  have h0 : GraphOK buffered (⟨[], []⟩ : EGraph α) :=
    ⟨fun n hn => absurd hn (List.not_mem_nil n),
     fun e he => absurd he (List.not_mem_nil e),
     fun e he => absurd he (List.not_mem_nil e)⟩
  have hcreate : GraphOK buffered (createGraph cfg buffered) := by
    unfold createGraph
    refine graphOK_connectStairs cfg buffered _ ?_
    refine List.foldlRecOn _ _ _ h0 ?_
    intro G1 hG1 f _
    cases hg : buffered.get? f with
    | none => exact hG1
    | some grid => exact graphOK_buildFloorNodes cfg buffered grid f G1 hg hG1

  exact hcreate

/-- C1, witness: on the line grid, the door cell `(0,1,0)` is a graph node and
the theorem yields its passability; the first stored edge has passable
endpoints. -/
theorem createGraph_passable_witness :
    PassableNode gridsLine ((0, 1, 0) : Node) ∧
      PassableNode gridsLine ((0, 0, 0) : Node) :=
  ⟨(createGraph_passable cfgPlain gridsLine).1 (0, 1, 0) (by decide),
    (createGraph_passable cfgPlain gridsLine).1 (0, 0, 0) (by decide)⟩

theorem rayLoopAux_sound (g : Grid) (dx dy : ℤ) :
    ∀ (fuel : ℕ) (nx ny : ℤ), rayLoopAux g dx dy fuel nx ny = true →
    ∃ j : ℕ,
      (∀ t : ℕ, t ≤ j →
        (0 ≤ nx + t * dx ∧ nx + t * dx < (g.rows : ℤ) ∧
         0 ≤ ny + t * dy ∧ ny + t * dy < (g.cols : ℤ)) ∧
        ∃ k, g.atZ? (nx + t * dx) (ny + t * dy) = some k ∧
          k ≠ CellKind.wall ∧ k ≠ CellKind.door) ∧
      (nx + j * dx = 0 ∨ nx + j * dx = (g.rows : ℤ) - 1 ∨
       ny + j * dy = 0 ∨ ny + j * dy = (g.cols : ℤ) - 1) := by
  intro fuel
  induction fuel with
  | zero => intro nx ny h; cases h
  | succ fuel ih =>
    intro nx ny h
    unfold rayLoopAux at h
    by_cases hb : 0 ≤ nx ∧ nx < (g.rows : ℤ) ∧ 0 ≤ ny ∧ ny < (g.cols : ℤ)
    · rw [if_pos hb] at h
      cases hk : g.atZ? nx ny with
      | none => rw [hk] at h; cases h
      | some k =>
        rw [hk] at h
        have h2 : (if k = CellKind.wall ∨ k = CellKind.door then false
            else if nx = 0 ∨ nx = (g.rows : ℤ) - 1 ∨ ny = 0 ∨ ny = (g.cols : ℤ) - 1 then
              true
            else rayLoopAux g dx dy fuel (nx + dx) (ny + dy)) = true := h
        by_cases hw : k = CellKind.wall ∨ k = CellKind.door
        · rw [if_pos hw] at h2; cases h2
        · rw [if_neg hw] at h2
          have hk1 : k ≠ CellKind.wall := fun hc => hw (Or.inl hc)
          have hk2 : k ≠ CellKind.door := fun hc => hw (Or.inr hc)
          by_cases hbd : nx = 0 ∨ nx = (g.rows : ℤ) - 1 ∨ ny = 0 ∨ ny = (g.cols : ℤ) - 1
          · refine ⟨0, fun t ht => ?_, by simpa using hbd⟩
            have ht0 : t = 0 := Nat.le_zero.mp ht
            subst ht0
            simp only [Nat.cast_zero, zero_mul, add_zero]
            exact ⟨hb, k, hk, hk1, hk2⟩
          · rw [if_neg hbd] at h2
            have h := h2
            rcases ih (nx + dx) (ny + dy) h with ⟨j, hcells, hbound⟩
            have harithx : ∀ t : ℕ, nx + ((t + 1 : ℕ) : ℤ) * dx = (nx + dx) + (t : ℤ) * dx := by
              intro t
              push_cast
              ring
            have harithy : ∀ t : ℕ, ny + ((t + 1 : ℕ) : ℤ) * dy = (ny + dy) + (t : ℤ) * dy := by
              intro t
              push_cast
              ring
            refine ⟨j + 1, fun t ht => ?_, ?_⟩
            · cases t with
              | zero =>
                simp only [Nat.cast_zero, zero_mul, add_zero]
                exact ⟨hb, k, hk, hk1, hk2⟩
              | succ t' =>
                have hctp := hcells t' (Nat.le_of_succ_le_succ ht)
                rw [harithx t', harithy t']
                exact hctp
            · rw [harithx j, harithy j]
              exact hbound
    · rw [if_neg hb] at h
      cases h

theorem rayLoopAux_complete (g : Grid) (dx dy : ℤ) :
    ∀ (j : ℕ) (fuel : ℕ) (nx ny : ℤ), j < fuel →
    (∀ t : ℕ, t ≤ j →
      (0 ≤ nx + t * dx ∧ nx + t * dx < (g.rows : ℤ) ∧
       0 ≤ ny + t * dy ∧ ny + t * dy < (g.cols : ℤ)) ∧
      ∃ k, g.atZ? (nx + t * dx) (ny + t * dy) = some k ∧
        k ≠ CellKind.wall ∧ k ≠ CellKind.door) →
    (nx + j * dx = 0 ∨ nx + j * dx = (g.rows : ℤ) - 1 ∨
     ny + j * dy = 0 ∨ ny + j * dy = (g.cols : ℤ) - 1) →
    rayLoopAux g dx dy fuel nx ny = true := by
  intro j
  induction j with
  | zero =>
    intro fuel nx ny hf hcells hbound
    cases fuel with
    | zero => omega
    | succ fuel' =>
      obtain ⟨hb, k, hk, hk1, hk2⟩ := hcells 0 (le_refl 0)
      simp only [Nat.cast_zero, zero_mul, add_zero] at hb hk
      simp only [Nat.cast_zero, zero_mul, add_zero] at hbound
      unfold rayLoopAux
      rw [if_pos hb, hk]
      show (if k = CellKind.wall ∨ k = CellKind.door then false
        else if nx = 0 ∨ nx = (g.rows : ℤ) - 1 ∨ ny = 0 ∨ ny = (g.cols : ℤ) - 1 then true
        else rayLoopAux g dx dy fuel' (nx + dx) (ny + dy)) = true
      rw [if_neg (fun hc => hc.elim hk1 hk2), if_pos hbound]
  | succ j ih =>
    intro fuel nx ny hf hcells hbound
    cases fuel with
    | zero => omega
    | succ fuel' =>
      obtain ⟨hb, k, hk, hk1, hk2⟩ := hcells 0 (Nat.zero_le _)
      simp only [Nat.cast_zero, zero_mul, add_zero] at hb hk
      unfold rayLoopAux
      rw [if_pos hb, hk]
      show (if k = CellKind.wall ∨ k = CellKind.door then false
        else if nx = 0 ∨ nx = (g.rows : ℤ) - 1 ∨ ny = 0 ∨ ny = (g.cols : ℤ) - 1 then true
        else rayLoopAux g dx dy fuel' (nx + dx) (ny + dy)) = true
      rw [if_neg (fun hc => hc.elim hk1 hk2)]
      by_cases hbd : nx = 0 ∨ nx = (g.rows : ℤ) - 1 ∨ ny = 0 ∨ ny = (g.cols : ℤ) - 1
      · rw [if_pos hbd]
      · rw [if_neg hbd]
        have harithx : ∀ t : ℕ, nx + ((t + 1 : ℕ) : ℤ) * dx = (nx + dx) + (t : ℤ) * dx := by
          intro t
          push_cast
          ring
        have harithy : ∀ t : ℕ, ny + ((t + 1 : ℕ) : ℤ) * dy = (ny + dy) + (t : ℤ) * dy := by
          intro t
          push_cast
          ring
        apply ih fuel' (nx + dx) (ny + dy) (Nat.lt_of_succ_lt_succ hf)
        · intro t ht
          have := hcells (t + 1) (Nat.succ_le_succ ht)
          rw [harithx t, harithy t] at this
          exact this
        · have := hbound
          rw [harithx j, harithy j] at this
          exact this

theorem isExitGroup_iff (g : Grid) (group : List (ℕ × ℕ)) :
    isExitGroup g group = true ↔ ∃ c ∈ group, ∃ d ∈ dirs4, RayFrom g c.1 c.2 d := by
  unfold isExitGroup
  rw [List.any_eq_true]
  constructor
  · rintro ⟨c, hc, hbody⟩
    rw [List.any_eq_true] at hbody
    obtain ⟨d, hd, hb⟩ := hbody
    refine ⟨c, hc, d, hd, ?_⟩
    have hb2 : (if 0 ≤ (c.1 : ℤ) + d.1 ∧ (c.1 : ℤ) + d.1 < (g.rows : ℤ) ∧
        0 ≤ (c.2 : ℤ) + d.2 ∧ (c.2 : ℤ) + d.2 < (g.cols : ℤ) then
          match g.atZ? ((c.1 : ℤ) + d.1) ((c.2 : ℤ) + d.2) with
          | some k =>
            if k = CellKind.wall ∨ k = CellKind.door then false
            else rayLoopAux g d.1 d.2 (g.rows + g.cols + 2) ((c.1 : ℤ) + d.1)
              ((c.2 : ℤ) + d.2)
          | none => false
        else false) = true := hb
    by_cases hbnd : 0 ≤ (c.1 : ℤ) + d.1 ∧ (c.1 : ℤ) + d.1 < (g.rows : ℤ) ∧
        0 ≤ (c.2 : ℤ) + d.2 ∧ (c.2 : ℤ) + d.2 < (g.cols : ℤ)
    · rw [if_pos hbnd] at hb2
      cases hk : g.atZ? ((c.1 : ℤ) + d.1) ((c.2 : ℤ) + d.2) with
      | none => rw [hk] at hb2; cases hb2
      | some k =>
        rw [hk] at hb2
        have hb3 : (if k = CellKind.wall ∨ k = CellKind.door then false
            else rayLoopAux g d.1 d.2 (g.rows + g.cols + 2) ((c.1 : ℤ) + d.1)
              ((c.2 : ℤ) + d.2)) = true := hb2
        by_cases hw : k = CellKind.wall ∨ k = CellKind.door
        · rw [if_pos hw] at hb3; cases hb3
        · rw [if_neg hw] at hb3
          rcases rayLoopAux_sound g d.1 d.2 _ _ _ hb3 with ⟨j, hcells, hbound⟩
          have harithx : ∀ t : ℕ, ((c.1 : ℤ) + d.1) + (t : ℤ) * d.1 =
              (c.1 : ℤ) + ((t + 1 : ℕ) : ℤ) * d.1 := by
            intro t
            push_cast
            ring
          have harithy : ∀ t : ℕ, ((c.2 : ℤ) + d.2) + (t : ℤ) * d.2 =
              (c.2 : ℤ) + ((t + 1 : ℕ) : ℤ) * d.2 := by
            intro t
            push_cast
            ring
          refine ⟨j + 1, Nat.succ_le_succ (Nat.zero_le j), fun i hi1 hij => ?_, ?_⟩
          · obtain ⟨t, rfl⟩ : ∃ t, i = t + 1 :=
              ⟨i - 1, (Nat.succ_pred_eq_of_pos hi1).symm⟩
            have := hcells t (Nat.le_of_succ_le_succ hij)
            rw [harithx t, harithy t] at this
            exact ⟨this.1, this.2⟩
          · rw [harithx j, harithy j] at hbound
            exact hbound
    · rw [if_neg hbnd] at hb2
      cases hb2
  · rintro ⟨c, hc, d, hd, hray⟩
    refine ⟨c, hc, ?_⟩
    rw [List.any_eq_true]
    refine ⟨d, hd, ?_⟩
    obtain ⟨n, hn1, hcells, hbound⟩ := hray
    have h1 := hcells 1 (le_refl 1) hn1
    simp only [Nat.cast_one, one_mul] at h1
    obtain ⟨hb1, k1, hk1, hk1w, hk1d⟩ := h1
    show (if 0 ≤ (c.1 : ℤ) + d.1 ∧ (c.1 : ℤ) + d.1 < (g.rows : ℤ) ∧
        0 ≤ (c.2 : ℤ) + d.2 ∧ (c.2 : ℤ) + d.2 < (g.cols : ℤ) then
          match g.atZ? ((c.1 : ℤ) + d.1) ((c.2 : ℤ) + d.2) with
          | some k =>
            if k = CellKind.wall ∨ k = CellKind.door then false
            else rayLoopAux g d.1 d.2 (g.rows + g.cols + 2) ((c.1 : ℤ) + d.1)
              ((c.2 : ℤ) + d.2)
          | none => false
        else false) = true
    rw [if_pos hb1, hk1]
    show (if k1 = CellKind.wall ∨ k1 = CellKind.door then false
        else rayLoopAux g d.1 d.2 (g.rows + g.cols + 2) ((c.1 : ℤ) + d.1)
          ((c.2 : ℤ) + d.2)) = true
    rw [if_neg (fun hcon => hcon.elim hk1w hk1d)]
    have harithx : ∀ t : ℕ, ((c.1 : ℤ) + d.1) + (t : ℤ) * d.1 =
        (c.1 : ℤ) + ((t + 1 : ℕ) : ℤ) * d.1 := by
      intro t
      push_cast
      ring
    have harithy : ∀ t : ℕ, ((c.2 : ℤ) + d.2) + (t : ℤ) * d.2 =
        (c.2 : ℤ) + ((t + 1 : ℕ) : ℤ) * d.2 := by
      intro t
      push_cast
      ring
    have hbndn := (hcells n hn1 (le_refl n)).1
    have hfuel : n - 1 < g.rows + g.cols + 2 := by
      simp only [dirs4, List.mem_cons, List.mem_singleton, Prod.mk.injEq,
        List.not_mem_nil, or_false] at hd
      rcases hd with rfl | rfl | rfl | rfl <;>
        simp only [mul_zero, add_zero, mul_neg, mul_one] at hbndn hb1 <;>
        omega
    apply rayLoopAux_complete g d.1 d.2 (n - 1) _ _ _ hfuel
    · intro t ht
      have := hcells (t + 1) (Nat.succ_le_succ (Nat.zero_le t)) (by omega)
      rw [harithx t, harithy t]
      exact ⟨this.1, this.2⟩
    · have hn' : n - 1 + 1 = n := Nat.succ_pred_eq_of_pos hn1
      rw [harithx (n - 1), harithy (n - 1), hn']
      exact hbound

theorem reachIn_mono {S T : List (ℕ × ℕ)} (hst : ∀ x ∈ S, x ∈ T) {a b : ℕ × ℕ}
    (h : ReachIn S a b) : ReachIn T a b := by
  induction h with
  | refl ha => exact ReachIn.refl _ (hst _ ha)
  | step b c h hc hadj ih => exact ReachIn.step _ _ _ ih (hst c hc) hadj

theorem mem_cellPositions (g : Grid) (p : ℕ × ℕ) (hp : p ∈ cellPositions g) :
    p.1 < g.rows ∧ p.2 < g.cols := by
  unfold cellPositions at hp
  rw [List.mem_bind] at hp
  obtain ⟨x, hx, hmap⟩ := hp
  rw [List.mem_map] at hmap
  obtain ⟨y, hy, rfl⟩ := hmap
  exact ⟨List.mem_range.mp hx, List.mem_range.mp hy⟩

theorem dfsDoorsAux_doors (g : Grid) :
    ∀ fuel stack visited group,
    (∀ c ∈ group, g.at? c.1 c.2 = some CellKind.door) →
    ∀ c ∈ (dfsDoorsAux g fuel stack visited group).2,
      g.at? c.1 c.2 = some CellKind.door := by
  intro fuel
  induction fuel with
  | zero => intro stack visited group hg; exact hg
  | succ fuel ih =>
    intro stack visited group hg
    cases stack with
    | nil => exact hg
    | cons c stack =>
      show ∀ x ∈ (if 0 ≤ c.1 ∧ c.1 < (g.rows : ℤ) ∧ 0 ≤ c.2 ∧ c.2 < (g.cols : ℤ) ∧
          g.at? c.1.toNat c.2.toNat = some CellKind.door ∧
          (c.1.toNat, c.2.toNat) ∉ visited then
            dfsDoorsAux g fuel ((dirs4.map (fun d => (c.1 + d.1, c.2 + d.2))) ++ stack)
              (visited ++ [(c.1.toNat, c.2.toNat)]) (group ++ [(c.1.toNat, c.2.toNat)])
          else dfsDoorsAux g fuel stack visited group).2,
        g.at? x.1 x.2 = some CellKind.door
      by_cases hguard : 0 ≤ c.1 ∧ c.1 < (g.rows : ℤ) ∧ 0 ≤ c.2 ∧ c.2 < (g.cols : ℤ) ∧
          g.at? c.1.toNat c.2.toNat = some CellKind.door ∧
          (c.1.toNat, c.2.toNat) ∉ visited
      · rw [if_pos hguard]
        refine ih _ _ _ (fun x hx => ?_)
        rcases List.mem_append.mp hx with hxg | hxz
        · exact hg x hxg
        · rw [List.mem_singleton] at hxz
          subst hxz
          exact hguard.2.2.2.2.1
      · rw [if_neg hguard]
        exact ih _ _ _ hg

theorem dfsDoorsAux_ext (g : Grid) :
    ∀ fuel stack visited group, ∃ ext,
      (dfsDoorsAux g fuel stack visited group).2 = group ++ ext := by
  intro fuel
  induction fuel with
  | zero => intro stack visited group; exact ⟨[], (List.append_nil group).symm⟩
  | succ fuel ih =>
    intro stack visited group
    cases stack with
    | nil => exact ⟨[], (List.append_nil group).symm⟩
    | cons c stack =>
      show ∃ ext, (if 0 ≤ c.1 ∧ c.1 < (g.rows : ℤ) ∧ 0 ≤ c.2 ∧ c.2 < (g.cols : ℤ) ∧
          g.at? c.1.toNat c.2.toNat = some CellKind.door ∧
          (c.1.toNat, c.2.toNat) ∉ visited then
            dfsDoorsAux g fuel ((dirs4.map (fun d => (c.1 + d.1, c.2 + d.2))) ++ stack)
              (visited ++ [(c.1.toNat, c.2.toNat)]) (group ++ [(c.1.toNat, c.2.toNat)])
          else dfsDoorsAux g fuel stack visited group).2 = group ++ ext
      by_cases hguard : 0 ≤ c.1 ∧ c.1 < (g.rows : ℤ) ∧ 0 ≤ c.2 ∧ c.2 < (g.cols : ℤ) ∧
          g.at? c.1.toNat c.2.toNat = some CellKind.door ∧
          (c.1.toNat, c.2.toNat) ∉ visited
      · rw [if_pos hguard]
        obtain ⟨ext, hext⟩ := ih ((dirs4.map (fun d => (c.1 + d.1, c.2 + d.2))) ++ stack)
          (visited ++ [(c.1.toNat, c.2.toNat)]) (group ++ [(c.1.toNat, c.2.toNat)])
        exact ⟨(c.1.toNat, c.2.toNat) :: ext, by rw [hext, List.append_assoc]; rfl⟩
      · rw [if_neg hguard]
        exact ih stack visited group

theorem dfsDoorsAux_cons (g : Grid) (fuel : ℕ) (c : ℤ × ℤ) (stack : List (ℤ × ℤ))
    (visited group : List (ℕ × ℕ)) :
    dfsDoorsAux g (fuel + 1) (c :: stack) visited group =
      (if 0 ≤ c.1 ∧ c.1 < (g.rows : ℤ) ∧ 0 ≤ c.2 ∧ c.2 < (g.cols : ℤ) ∧
          g.at? c.1.toNat c.2.toNat = some CellKind.door ∧
          (c.1.toNat, c.2.toNat) ∉ visited then
        dfsDoorsAux g fuel ((dirs4.map (fun d => (c.1 + d.1, c.2 + d.2))) ++ stack)
          (visited ++ [(c.1.toNat, c.2.toNat)]) (group ++ [(c.1.toNat, c.2.toNat)])
      else dfsDoorsAux g fuel stack visited group) := rfl

theorem dfsDoorsAux_conn (g : Grid) (seed : ℕ × ℕ) :
    ∀ fuel stack visited group,
    ((group = [] ∧ ∀ s ∈ stack, s = ((seed.1 : ℤ), (seed.2 : ℤ))) ∨
     (seed ∈ group ∧ (∀ c ∈ group, ReachIn group seed c) ∧
      (∀ c ∈ group, c ∈ visited) ∧
      (∀ s ∈ stack, ∃ b ∈ group, s = ((b.1 : ℤ), (b.2 : ℤ)) ∨
        ∃ d ∈ dirs4, s = ((b.1 : ℤ) + d.1, (b.2 : ℤ) + d.2)))) →
    (dfsDoorsAux g fuel stack visited group).2 = [] ∨
      (seed ∈ (dfsDoorsAux g fuel stack visited group).2 ∧
       ∀ c ∈ (dfsDoorsAux g fuel stack visited group).2,
         ReachIn (dfsDoorsAux g fuel stack visited group).2 seed c) := by
  intro fuel
  induction fuel with
  | zero =>
    intro stack visited group hinv
    rcases hinv with ⟨hge, _⟩ | ⟨hseed, hreach, _, _⟩
    · exact Or.inl hge
    · exact Or.inr ⟨hseed, hreach⟩
  | succ fuel ih =>
    intro stack visited group hinv
    cases stack with
    | nil =>
      rcases hinv with ⟨hge, _⟩ | ⟨hseed, hreach, _, _⟩
      · exact Or.inl hge
      · exact Or.inr ⟨hseed, hreach⟩
    | cons c stack =>
      rw [dfsDoorsAux_cons]
      by_cases hguard : 0 ≤ c.1 ∧ c.1 < (g.rows : ℤ) ∧ 0 ≤ c.2 ∧ c.2 < (g.cols : ℤ) ∧
          g.at? c.1.toNat c.2.toNat = some CellKind.door ∧
          (c.1.toNat, c.2.toNat) ∉ visited
      · rw [if_pos hguard]
        have h1 : (0 : ℤ) ≤ c.1 := hguard.1
        have h3 : (0 : ℤ) ≤ c.2 := hguard.2.2.1
        have h6 : (c.1.toNat, c.2.toNat) ∉ visited := hguard.2.2.2.2.2
        have hztn1 : (c.1.toNat : ℤ) = c.1 := Int.toNat_of_nonneg h1
        have hztn2 : (c.2.toNat : ℤ) = c.2 := Int.toNat_of_nonneg h3
        rcases hinv with ⟨hge, hstk⟩ | ⟨hseed, hreach, hvis, hstk⟩
        · subst hge
          have hc : c = ((seed.1 : ℤ), (seed.2 : ℤ)) := hstk c (List.mem_cons_self c stack)
          have hz : (c.1.toNat, c.2.toNat) = seed := by rw [hc]; simp
          refine ih _ _ _ (Or.inr ⟨?_, ?_, ?_, ?_⟩)
          · rw [List.nil_append, hz]
            exact List.mem_singleton_self seed
          · intro x hx
            rw [List.nil_append] at hx ⊢
            rw [List.mem_singleton] at hx
            subst hx
            rw [hz]
            exact ReachIn.refl seed (List.mem_singleton_self seed)
          · intro x hx
            rw [List.nil_append, List.mem_singleton] at hx
            subst hx
            exact List.mem_append_right _ (List.mem_singleton_self _)
          · intro s hs
            rcases List.mem_append.mp hs with hsp | hso
            · obtain ⟨d, hd, rfl⟩ := List.mem_map.mp hsp
              refine ⟨(c.1.toNat, c.2.toNat),
                List.mem_append_right _ (List.mem_singleton_self _),
                Or.inr ⟨d, hd, ?_⟩⟩
              rw [hztn1, hztn2]
            · have hse := hstk s (List.mem_cons_of_mem c hso)
              refine ⟨(c.1.toNat, c.2.toNat),
                List.mem_append_right _ (List.mem_singleton_self _), Or.inl ?_⟩
              rw [hztn1, hztn2, Prod.mk.eta, hc]
              exact hse
        · obtain ⟨b, hb, hcls⟩ := hstk c (List.mem_cons_self c stack)
          rcases hcls with hcb | ⟨d, hd, hcd⟩
          · have hz : (c.1.toNat, c.2.toNat) = b := by rw [hcb]; simp
            exact absurd (show (c.1.toNat, c.2.toNat) ∈ visited by
              rw [hz]; exact hvis b hb) h6
          · have hc1 : c.1 = (b.1 : ℤ) + d.1 := by rw [hcd]
            have hc2 : c.2 = (b.2 : ℤ) + d.2 := by rw [hcd]
            have hadj : adj4 b (c.1.toNat, c.2.toNat) := by
              unfold adj4
              simp only [dirs4, List.mem_cons, List.mem_singleton, Prod.mk.injEq,
                List.not_mem_nil, or_false] at hd
              obtain ⟨d1, d2⟩ := d
              dsimp only at hc1 hc2
              rcases hd with ⟨rfl, rfl⟩ | ⟨rfl, rfl⟩ | ⟨rfl, rfl⟩ | ⟨rfl, rfl⟩ <;>
                dsimp only <;> omega
            refine ih _ _ _ (Or.inr ⟨List.mem_append_left _ hseed, ?_, ?_, ?_⟩)
            · intro x hx
              rcases List.mem_append.mp hx with hxg | hxz
              · exact reachIn_mono (fun y hy => List.mem_append_left _ hy) (hreach x hxg)
              · rw [List.mem_singleton] at hxz
                subst hxz
                exact ReachIn.step seed b _
                  (reachIn_mono (fun y hy => List.mem_append_left _ hy) (hreach b hb))
                  (List.mem_append_right _ (List.mem_singleton_self _)) hadj
            · intro x hx
              rcases List.mem_append.mp hx with hxg | hxz
              · exact List.mem_append_left _ (hvis x hxg)
              · exact List.mem_append_right _ hxz
            · intro s hs
              rcases List.mem_append.mp hs with hsp | hso
              · obtain ⟨d', hd', rfl⟩ := List.mem_map.mp hsp
                refine ⟨(c.1.toNat, c.2.toNat),
                  List.mem_append_right _ (List.mem_singleton_self _),
                  Or.inr ⟨d', hd', ?_⟩⟩
                rw [hztn1, hztn2]
              · obtain ⟨b', hb', hcls'⟩ := hstk s (List.mem_cons_of_mem c hso)
                exact ⟨b', List.mem_append_left _ hb', hcls'⟩
      · rw [if_neg hguard]
        rcases hinv with ⟨hge, hstk⟩ | ⟨hseed, hreach, hvis, hstk⟩
        · exact ih _ _ _ (Or.inl ⟨hge, fun s hs => hstk s (List.mem_cons_of_mem c hs)⟩)
        · exact ih _ _ _ (Or.inr ⟨hseed, hreach, hvis,
            fun s hs => hstk s (List.mem_cons_of_mem c hs)⟩)

theorem dfsDoorsAux_seed (g : Grid) (fuel : ℕ) (p : ℕ × ℕ)
    (visited group : List (ℕ × ℕ)) :
    dfsDoorsAux g (fuel + 1) [((p.1 : ℤ), (p.2 : ℤ))] visited group =
      (if p.1 < g.rows ∧ p.2 < g.cols ∧ g.at? p.1 p.2 = some CellKind.door ∧
          p ∉ visited then
        dfsDoorsAux g fuel (dirs4.map (fun d => ((p.1 : ℤ) + d.1, (p.2 : ℤ) + d.2)))
          (visited ++ [p]) (group ++ [p])
      else dfsDoorsAux g fuel [] visited group) := by
  rw [dfsDoorsAux_cons]
  simp only [Int.toNat_natCast, Prod.mk.eta, List.append_nil, Nat.cast_nonneg,
    Nat.cast_lt, true_and]

theorem groupConnectedDoors_props (g : Grid) (grp : List (ℕ × ℕ))
    (hg : grp ∈ groupConnectedDoors g) :
    grp ≠ [] ∧ (∀ c ∈ grp, g.at? c.1 c.2 = some CellKind.door) ∧
      ∃ s ∈ grp, ∀ c ∈ grp, ReachIn grp s c := by
  unfold groupConnectedDoors at hg
  refine List.foldlRecOn (motive := fun (st : List (ℕ × ℕ) ×
      List (List (ℕ × ℕ))) => ∀ q ∈ st.2,
      q ≠ [] ∧ (∀ c ∈ q, g.at? c.1 c.2 = some CellKind.door) ∧
      ∃ s ∈ q, ∀ c ∈ q, ReachIn q s c)
    (cellPositions g) _ _ ?_ ?_ grp hg
  · intro q hq
    exact absurd hq (List.not_mem_nil q)
  · intro st hst p hp q hq
    have hq2 : q ∈ (if g.at? p.1 p.2 = some CellKind.door ∧ (p.1, p.2) ∉ st.1 then
        ((dfsDoorsAux g (4 * g.rows * g.cols + 4) [((p.1 : ℤ), (p.2 : ℤ))] st.1 []).1,
         st.2 ++ [(dfsDoorsAux g (4 * g.rows * g.cols + 4)
           [((p.1 : ℤ), (p.2 : ℤ))] st.1 []).2])
      else st).2 := hq
    by_cases hcond : g.at? p.1 p.2 = some CellKind.door ∧ (p.1, p.2) ∉ st.1
    · rw [if_pos hcond] at hq2
      have hq3 : q ∈ st.2 ++ [(dfsDoorsAux g (4 * g.rows * g.cols + 4)
          [((p.1 : ℤ), (p.2 : ℤ))] st.1 []).2] := hq2
      rcases List.mem_append.mp hq3 with hold | hnew
      · exact hst q hold
      · rw [List.mem_singleton] at hnew
        subst hnew
        have hbounds := mem_cellPositions g p hp
        have hpd : g.at? p.1 p.2 = some CellKind.door := hcond.1
        have hpv : p ∉ st.1 := by
          intro hmem
          exact hcond.2 (by rw [Prod.mk.eta]; exact hmem)
        have hfe : 4 * g.rows * g.cols + 4 = (4 * g.rows * g.cols + 3) + 1 := by omega
        have hne : (dfsDoorsAux g (4 * g.rows * g.cols + 4)
            [((p.1 : ℤ), (p.2 : ℤ))] st.1 []).2 ≠ [] := by
          rw [hfe, dfsDoorsAux_seed,
            if_pos ⟨hbounds.1, hbounds.2, hpd, hpv⟩]
          obtain ⟨ext, hext⟩ := dfsDoorsAux_ext g (4 * g.rows * g.cols + 3)
            (dirs4.map (fun d => ((p.1 : ℤ) + d.1, (p.2 : ℤ) + d.2)))
            (st.1 ++ [p]) ([] ++ [p])
          rw [hext]
          simp
        have hconn := dfsDoorsAux_conn g p (4 * g.rows * g.cols + 4)
          [((p.1 : ℤ), (p.2 : ℤ))] st.1 []
          (Or.inl ⟨rfl, fun s hs => by rw [List.mem_singleton] at hs; exact hs⟩)
        rcases hconn with hnil | ⟨hmem, hreach⟩
        · exact absurd hnil hne
        · exact ⟨hne, dfsDoorsAux_doors g _ _ _ _ (fun c hc => absurd hc
            (List.not_mem_nil c)) , ⟨p, hmem, hreach⟩⟩
    · rw [if_neg hcond] at hq2
      exact hst q hq2

theorem mem_foldl_append {α β : Type} (f : α → List β) (l : List α) (init : List β)
    (b : β) :
    b ∈ l.foldl (fun acc x => acc ++ f x) init ↔ b ∈ init ∨ ∃ x ∈ l, b ∈ f x := by
  induction l generalizing init with
  | nil => simp
  | cons a l ih =>
    rw [List.foldl_cons, ih, List.mem_append]
    constructor
    · rintro ((h | h) | ⟨x, hx, hb⟩)
      · exact Or.inl h
      · exact Or.inr ⟨a, List.mem_cons_self a l, h⟩
      · exact Or.inr ⟨x, List.mem_cons_of_mem a hx, hb⟩
    · rintro (h | ⟨x, hx, hb⟩)
      · exact Or.inl (Or.inl h)
      · rcases List.mem_cons.mp hx with rfl | hx2
        · exact Or.inl (Or.inr hb)
        · exact Or.inr ⟨x, hx2, hb⟩

/-- C6: every triple returned by `detect_exits` is the component-wise rounded
mean of a nonempty 4-connected group of `door` cells of its floor's grid, from
at least one of whose cells a straight 4-directional ray through cells that are
neither `wall` nor `door` reaches the outer boundary of the grid.  (The
returned coordinate itself need not be a `door` cell; see the
counterexample.) -/
theorem detectExits_spec (grids : GridStack) (e : Node)
    (he : e ∈ detectExits grids) :
    ∃ fi g grp, grids.get? fi = some g ∧ grp ≠ [] ∧
      (∀ c ∈ grp, g.at? c.1 c.2 = some CellKind.door) ∧
      (∃ s ∈ grp, ∀ c ∈ grp, ReachIn grp s c) ∧
      (∃ c ∈ grp, ∃ d ∈ dirs4, RayFrom g c.1 c.2 d) ∧
      e = calcAveragePosition grp fi := by
  unfold detectExits at he
  rw [mem_foldl_append] at he
  rcases he with h0 | ⟨fg, hfg, he⟩
  · exact absurd h0 (List.not_mem_nil e)
  · rw [List.mem_map] at he
    obtain ⟨grp, hgrp, rfl⟩ := he
    rw [List.mem_filter] at hgrp
    obtain ⟨hgmem, hexit⟩ := hgrp
    obtain ⟨hne, hdoors, hconn⟩ := groupConnectedDoors_props fg.2 grp hgmem
    obtain ⟨c, hc, d, hd, hray⟩ := (isExitGroup_iff fg.2 grp).mp hexit
    refine ⟨fg.1, fg.2, grp, ?_, hne, hdoors, hconn, ⟨c, hc, d, hd, hray⟩, rfl⟩
    rw [List.get?_eq_getElem?]
    exact List.mem_enum_iff_getElem?.mp hfg

/-- C6 counterexample: on `gridL` the single detected exit is `(1, 1, 0)`, the
rounded mean of the L-shaped door group, and the cell `(1, 1)` is a `floor`
cell, not a `door` cell — refuting "every returned exit coordinate is itself a
door cell of that group". -/
theorem detectExits_coordinate_not_door :
    detectExits [gridL] = [(1, 1, 0)] ∧ gridL.at? 1 1 = some CellKind.floor := by
  constructor <;> rfl

theorem detectExits_spec_witness :
    (1, 1, 0) ∈ detectExits [gridL] ∧
      ∃ fi g grp, [gridL].get? fi = some g ∧ grp ≠ [] ∧
        (∀ c ∈ grp, g.at? c.1 c.2 = some CellKind.door) ∧
        (∃ s ∈ grp, ∀ c ∈ grp, ReachIn grp s c) ∧
        (∃ c ∈ grp, ∃ d ∈ dirs4, RayFrom g c.1 c.2 d) ∧
        ((1, 1, 0) : Node) = calcAveragePosition grp fi :=
  ⟨by decide, detectExits_spec [gridL] (1, 1, 0) (by decide)⟩

theorem edgeMatches_self (u v : Node) : edgeMatches (u, v) u v = true := by
  unfold edgeMatches
  simp

theorem find?_write {α : Type} (l : List ((Node × Node) × α)) (u v : Node) (w : α)
    (h : l.any (fun e => edgeMatches e.1 u v) = true) :
    ((l.map (fun e => if edgeMatches e.1 u v then (e.1, w) else e)).find?
      (fun e => edgeMatches e.1 u v)).map (fun e => e.2) = some w := by
  induction l with
  | nil => cases h
  | cons e t ih =>
    rw [List.map_cons]
    by_cases he : edgeMatches e.1 u v = true
    · rw [if_pos he,
        List.find?_cons_of_pos (p := fun (e : (Node × Node) × α) =>
          edgeMatches e.1 u v) (a := (e.1, w)) _ he]
      rfl
    · rw [if_neg he,
        List.find?_cons_of_neg (p := fun (e : (Node × Node) × α) => edgeMatches e.1 u v) _ he]
      apply ih
      rw [List.any_cons] at h
      rcases Bool.or_eq_true_iff.mp h with h1 | h2
      · exact absurd h1 he
      · exact h2

theorem find?_map_pred {β : Type} (f : β → β) (p : β → Bool) (l : List β)
    (hf : ∀ e, p (f e) = p e) :
    (l.map f).find? p = (l.find? p).map f := by
  induction l with
  | nil => rfl
  | cons e t ih =>
    rw [List.map_cons]
    by_cases he : p e = true
    · rw [List.find?_cons_of_pos _ (by rw [hf]; exact he),
        List.find?_cons_of_pos _ he]
      rfl
    · rw [List.find?_cons_of_neg _ (by rw [hf]; exact he),
        List.find?_cons_of_neg _ he, ih]

theorem weight?_addEdge_self {α : Type} (G : EGraph α) (u v : Node) (w : α) :
    (G.addEdge u v w).weight? u v = some w := by
  unfold EGraph.addEdge EGraph.weight?
  by_cases h : ((G.addNode u).addNode v).edges.any (fun e => edgeMatches e.1 u v) = true
  · rw [if_pos h]
    exact find?_write _ u v w h
  · rw [if_neg h]
    show ((((G.addNode u).addNode v).edges ++ [((u, v), w)]).find?
      (fun e => edgeMatches e.1 u v)).map (fun e => e.2) = some w
    rw [List.find?_append, List.find?_eq_none.mpr (fun x hx hpx =>
      h (List.any_eq_true.mpr ⟨x, hx, hpx⟩)), Option.none_or,
      List.find?_cons_of_pos (p := fun (e : (Node × Node) × α) => edgeMatches e.1 u v) _
        (edgeMatches_self u v)]
    rfl

theorem weight?_addEdge_keep {α : Type} (G : EGraph α) (u v x y : Node) (w : α)
    (h : G.weight? u v = some w) :
    (G.addEdge x y w).weight? u v = some w := by
  unfold EGraph.weight? at h
  unfold EGraph.addEdge EGraph.weight?
  have hG1 : ((G.addNode x).addNode y).edges = G.edges := by
    rw [addNode_edges, addNode_edges]
  by_cases hany : ((G.addNode x).addNode y).edges.any (fun e => edgeMatches e.1 x y) = true
  · rw [if_pos hany]
    show ((((G.addNode x).addNode y).edges.map
        (fun e => if edgeMatches e.1 x y then (e.1, w) else e)).find?
      (fun e => edgeMatches e.1 u v)).map (fun e => e.2) = some w
    rw [find?_map_pred _ _ _ (fun e => by
      by_cases hm : edgeMatches e.1 x y = true
      · rw [if_pos hm]
      · rw [if_neg hm]), hG1]
    cases hf : G.edges.find? (fun e => edgeMatches e.1 u v) with
    | none => rw [hf] at h; cases h
    | some e0 =>
      rw [hf] at h
      have he0 : e0.2 = w := Option.some_injective α (by exact h)
      rw [Option.map_map, Option.map_some']
      show some (if edgeMatches e0.1 x y then ((e0.1, w) : (Node × Node) × α)
        else e0).2 = some w
      by_cases hm : edgeMatches e0.1 x y = true
      · rw [if_pos hm]
      · rw [if_neg hm, he0]
  · rw [if_neg hany]
    show ((((G.addNode x).addNode y).edges ++ [((x, y), w)]).find?
      (fun e => edgeMatches e.1 u v)).map (fun e => e.2) = some w
    rw [List.find?_append, hG1]
    cases hf : G.edges.find? (fun e => edgeMatches e.1 u v) with
    | none =>
      rw [hf] at h; cases h
    | some e0 =>
      rw [hf] at h
      rw [Option.or_of_isSome (by rfl)]
      exact h

theorem addEdge_nodes_mono {α : Type} (G : EGraph α) (u v m : Node) (w : α)
    (h : m ∈ G.nodes) : m ∈ (G.addEdge u v w).nodes := by
  unfold EGraph.addEdge
  by_cases hany : ((G.addNode u).addNode v).edges.any (fun e => edgeMatches e.1 u v) = true
  · rw [if_pos hany]
    show m ∈ ((G.addNode u).addNode v).nodes
    rw [mem_addNode, mem_addNode]
    exact Or.inl (Or.inl h)
  · rw [if_neg hany]
    show m ∈ ((G.addNode u).addNode v).nodes
    rw [mem_addNode, mem_addNode]
    exact Or.inl (Or.inl h)

theorem foldl_pres {β γ : Type} (P : β → Prop) (f : β → γ → β) (l : List γ) (s : β)
    (hs : P s) (hstep : ∀ t x, P t → P (f t x)) : P (l.foldl f s) := by
  induction l generalizing s with
  | nil => exact hs
  | cons a t ih =>
    rw [List.foldl_cons]
    exact ih _ (hstep s a hs)

theorem foldl_estab {β γ : Type} (P Q : β → Prop) (f : β → γ → β) (a : γ)
    (l : List γ) (s : β) (hs : P s) (hhead : ∀ t, P t → Q (f t a))
    (hpres : ∀ t x, Q t → Q (f t x)) : Q ((a :: l).foldl f s) := by
  rw [List.foldl_cons]
  exact foldl_pres Q f l _ (hhead s hs) hpres

theorem fallbackStep_mem {α : Type} [LinearOrderedField α] (cfg : PFConfig α)
    (t : EGraph α) (v' q' : ℕ × ℕ × ℕ) (m : Node) (hm : m ∈ t.nodes) :
    m ∈ (if ((v'.1 : ℤ), (v'.2.1 : ℤ), (v'.2.2 : ℤ)) ∈ t.nodes ∧
        ((q'.1 : ℤ), (q'.2.1 : ℤ), (q'.2.2 : ℤ)) ∈ t.nodes then
      t.addEdge ((v'.1 : ℤ), (v'.2.1 : ℤ), (v'.2.2 : ℤ))
        ((q'.1 : ℤ), (q'.2.1 : ℤ), (q'.2.2 : ℤ))
        (getEdgeWeight cfg.minimizeCost cfg.sqrt2 CellKind.stair none false)
    else t).nodes := by
  by_cases hgd : ((v'.1 : ℤ), (v'.2.1 : ℤ), (v'.2.2 : ℤ)) ∈ t.nodes ∧
      ((q'.1 : ℤ), (q'.2.1 : ℤ), (q'.2.2 : ℤ)) ∈ t.nodes
  · rw [if_pos hgd]
    exact addEdge_nodes_mono _ _ _ _ _ hm
  · rw [if_neg hgd]
    exact hm

theorem fallbackStep_weight {α : Type} [LinearOrderedField α] (cfg : PFConfig α)
    (t : EGraph α) (v' q' : ℕ × ℕ × ℕ) (u v : Node)
    (h : t.weight? u v =
      some (getEdgeWeight cfg.minimizeCost cfg.sqrt2 CellKind.stair none false)) :
    (if ((v'.1 : ℤ), (v'.2.1 : ℤ), (v'.2.2 : ℤ)) ∈ t.nodes ∧
        ((q'.1 : ℤ), (q'.2.1 : ℤ), (q'.2.2 : ℤ)) ∈ t.nodes then
      t.addEdge ((v'.1 : ℤ), (v'.2.1 : ℤ), (v'.2.2 : ℤ))
        ((q'.1 : ℤ), (q'.2.1 : ℤ), (q'.2.2 : ℤ))
        (getEdgeWeight cfg.minimizeCost cfg.sqrt2 CellKind.stair none false)
    else t).weight? u v =
      some (getEdgeWeight cfg.minimizeCost cfg.sqrt2 CellKind.stair none false) := by
  by_cases hgd : ((v'.1 : ℤ), (v'.2.1 : ℤ), (v'.2.2 : ℤ)) ∈ t.nodes ∧
      ((q'.1 : ℤ), (q'.2.1 : ℤ), (q'.2.2 : ℤ)) ∈ t.nodes
  · rw [if_pos hgd]
    exact weight?_addEdge_keep t u v _ _ _ h
  · rw [if_neg hgd]
    exact h

theorem connectStairsFallback_inner {α : Type} [LinearOrderedField α]
    (cfg : PFConfig α) (p : ℕ × ℕ × ℕ) (uppers : List (ℕ × ℕ × ℕ)) (H : EGraph α)
    (q : ℕ × ℕ × ℕ) (hq : q ∈ uppers)
    (hn1 : cellNode p ∈ H.nodes) (hn2 : cellNode q ∈ H.nodes) :
    (uppers.foldl (fun G q' =>
      if ((p.1 : ℤ), (p.2.1 : ℤ), (p.2.2 : ℤ)) ∈ G.nodes ∧
          ((q'.1 : ℤ), (q'.2.1 : ℤ), (q'.2.2 : ℤ)) ∈ G.nodes then
        G.addEdge ((p.1 : ℤ), (p.2.1 : ℤ), (p.2.2 : ℤ))
          ((q'.1 : ℤ), (q'.2.1 : ℤ), (q'.2.2 : ℤ))
          (getEdgeWeight cfg.minimizeCost cfg.sqrt2 CellKind.stair none false)
      else G) H).weight? (cellNode p) (cellNode q) =
      some (getEdgeWeight cfg.minimizeCost cfg.sqrt2 CellKind.stair none false) := by
  obtain ⟨u1, u2, rfl⟩ := List.append_of_mem hq
  rw [List.foldl_append]
  refine foldl_estab (fun (K : EGraph α) => cellNode p ∈ K.nodes ∧ cellNode q ∈ K.nodes)
    (fun (K : EGraph α) => K.weight? (cellNode p) (cellNode q) =
      some (getEdgeWeight cfg.minimizeCost cfg.sqrt2 CellKind.stair none false))
    _ q u2 _ ?_ ?_ ?_
  · refine foldl_pres (fun (K : EGraph α) => cellNode p ∈ K.nodes ∧ cellNode q ∈ K.nodes)
      _ u1 H ⟨hn1, hn2⟩ ?_
    intro t x ht
    exact ⟨fallbackStep_mem cfg t p x (cellNode p) ht.1,
      fallbackStep_mem cfg t p x (cellNode q) ht.2⟩
  · intro t ht
    show (if ((p.1 : ℤ), (p.2.1 : ℤ), (p.2.2 : ℤ)) ∈ t.nodes ∧
        ((q.1 : ℤ), (q.2.1 : ℤ), (q.2.2 : ℤ)) ∈ t.nodes then
      t.addEdge ((p.1 : ℤ), (p.2.1 : ℤ), (p.2.2 : ℤ))
        ((q.1 : ℤ), (q.2.1 : ℤ), (q.2.2 : ℤ))
        (getEdgeWeight cfg.minimizeCost cfg.sqrt2 CellKind.stair none false)
    else t).weight? (cellNode p) (cellNode q) =
      some (getEdgeWeight cfg.minimizeCost cfg.sqrt2 CellKind.stair none false)
    rw [if_pos ⟨ht.1, ht.2⟩]
    exact weight?_addEdge_self t (cellNode p) (cellNode q) _
  · intro t x ht
    exact fallbackStep_weight cfg t p x (cellNode p) (cellNode q) ht

theorem connectStairsFallback_weight {α : Type} [LinearOrderedField α]
    (cfg : PFConfig α) (G : EGraph α) (lowers uppers : List (ℕ × ℕ × ℕ))
    (p : ℕ × ℕ × ℕ) (hp : p ∈ lowers) (q : ℕ × ℕ × ℕ) (hq : q ∈ uppers)
    (hn1 : cellNode p ∈ G.nodes) (hn2 : cellNode q ∈ G.nodes) :
    (connectStairsFallback cfg G lowers uppers).weight? (cellNode p) (cellNode q) =
      some (getEdgeWeight cfg.minimizeCost cfg.sqrt2 CellKind.stair none false) := by
  obtain ⟨l1, l2, rfl⟩ := List.append_of_mem hp
  unfold connectStairsFallback
  rw [List.foldl_append]
  refine foldl_estab (fun (K : EGraph α) => cellNode p ∈ K.nodes ∧ cellNode q ∈ K.nodes)
    (fun (K : EGraph α) => K.weight? (cellNode p) (cellNode q) =
      some (getEdgeWeight cfg.minimizeCost cfg.sqrt2 CellKind.stair none false))
    _ p l2 _ ?_ ?_ ?_
  · refine foldl_pres (fun (K : EGraph α) => cellNode p ∈ K.nodes ∧ cellNode q ∈ K.nodes)
      _ l1 G ⟨hn1, hn2⟩ ?_
    intro t x ht
    refine foldl_pres (fun (K : EGraph α) => cellNode p ∈ K.nodes ∧ cellNode q ∈ K.nodes)
      _ uppers t ht ?_
    intro t' x' ht'
    exact ⟨fallbackStep_mem cfg t' x x' (cellNode p) ht'.1,
      fallbackStep_mem cfg t' x x' (cellNode q) ht'.2⟩
  · intro t ht
    exact connectStairsFallback_inner cfg p uppers t q hq ht.1 ht.2
  · intro t x ht
    refine foldl_pres (fun (K : EGraph α) => K.weight? (cellNode p) (cellNode q) =
      some (getEdgeWeight cfg.minimizeCost cfg.sqrt2 CellKind.stair none false))
      _ uppers t ht ?_
    intro t' x' ht'
    exact fallbackStep_weight cfg t' x x' (cellNode p) (cellNode q) ht'

/-- C7: for a consecutive floor pair `(lo, hi)` of a stair group, when no
ordered pair of a lower cell and an upper cell passes the 16-direction angle
check, `_connect_stairs` makes no connection and runs the fallback, which joins
every lower cell and upper cell that are graph nodes by an edge whose stored
weight is `_get_edge_weight('stair')` evaluated with no neighbor argument —
which is `1.0`, not the specification's `base(stair) = 4.0`; see the
counterexample. -/
theorem processStairPair_fallback_weight {α : Type} [LinearOrderedField α]
    (cfg : PFConfig α) (buffered : GridStack) (lo hi : ℕ)
    (lowers uppers : List (ℕ × ℕ × ℕ)) (G : EGraph α)
    (hnone : ∀ p' ∈ lowers, ∀ q' ∈ uppers,
      checkStairConnection buffered (cfg.offsets (cfg.gridDist lo hi))
        p'.1 p'.2.1 lo q'.1 q'.2.1 hi = false)
    (p : ℕ × ℕ × ℕ) (hp : p ∈ lowers) (q : ℕ × ℕ × ℕ) (hq : q ∈ uppers)
    (hn1 : cellNode p ∈ G.nodes) (hn2 : cellNode q ∈ G.nodes) :
    (processStairPair cfg buffered lo hi lowers uppers G).weight?
        (cellNode p) (cellNode q) =
      some (getEdgeWeight cfg.minimizeCost cfg.sqrt2 CellKind.stair none false) := by
  have hres : lowers.foldl (fun st p' => uppers.foldl (fun st' q' =>
      if checkStairConnection buffered (cfg.offsets (cfg.gridDist lo hi))
          p'.1 p'.2.1 lo q'.1 q'.2.1 hi = true then
        if ((p'.1 : ℤ), (p'.2.1 : ℤ), (lo : ℤ)) ∈ st'.1.nodes ∧
            ((q'.1 : ℤ), (q'.2.1 : ℤ), (hi : ℤ)) ∈ st'.1.nodes then
          (st'.1.addEdge ((p'.1 : ℤ), (p'.2.1 : ℤ), (lo : ℤ))
            ((q'.1 : ℤ), (q'.2.1 : ℤ), (hi : ℤ))
            (cfg.stairW ((p'.1 : ℤ), (p'.2.1 : ℤ), (lo : ℤ))
              ((q'.1 : ℤ), (q'.2.1 : ℤ), (hi : ℤ))), st'.2 + 1)
        else st'
      else st') st) ((G, 0) : EGraph α × ℕ) = (G, 0) := by
    apply foldl_fixed
    intro acc p' hp'
    apply foldl_fixed
    intro acc' q' hq'
    simp [hnone p' hp' q' hq']
  have hpse : processStairPair cfg buffered lo hi lowers uppers G =
      connectStairsFallback cfg G lowers uppers := by
    unfold processStairPair
    dsimp only
    rw [hres]
    rfl
  rw [hpse]
  exact connectStairsFallback_weight cfg G lowers uppers p hp q hq hn1 hn2

/-- C7 counterexample: in the two-floor tower no offset lands on the upper
stair cell, so the fallback runs; the stored weight between the two stair
cells is `1`, while the weight of a stair cell with a neighbor — the
specification's `base(stair)` — is `4`.  The fallback's
`_get_edge_weight('stair')` call passes no neighbor, and the guard
`if neighbor and self != neighbor` then fails, skipping the `4.0` branch. -/
theorem connectStairsFallback_weight_not_base :
    gTower.weight? (0, 0, 0) (0, 0, 1) = some 1 ∧
    getEdgeWeight true (0 : ℚ) CellKind.stair none false = 1 ∧
    getEdgeWeight true (0 : ℚ) CellKind.stair (some (0, 0, 1)) false = 4 := by
  refine ⟨?_, rfl, rfl⟩
  rfl

theorem processStairPair_fallback_weight_witness :
    (∀ p' ∈ [((0, 0, 0) : ℕ × ℕ × ℕ)], ∀ q' ∈ [((0, 0, 1) : ℕ × ℕ × ℕ)],
      checkStairConnection gridsTower (cfgTower.offsets (cfgTower.gridDist 0 1))
        p'.1 p'.2.1 0 q'.1 q'.2.1 1 = false) ∧
    (processStairPair cfgTower gridsTower 0 1 [(0, 0, 0)] [(0, 0, 1)]
        ⟨[(0, 0, 0), (0, 0, 1)], []⟩).weight?
        (cellNode (0, 0, 0)) (cellNode (0, 0, 1)) =
      some (getEdgeWeight cfgTower.minimizeCost cfgTower.sqrt2 CellKind.stair
        none false) :=
  ⟨by decide, processStairPair_fallback_weight cfgTower gridsTower 0 1
    [(0, 0, 0)] [(0, 0, 1)] ⟨[(0, 0, 0), (0, 0, 1)], []⟩ (by decide)
    (0, 0, 0) (by decide) (0, 0, 1) (by decide) (by decide) (by decide)⟩

theorem foldl_pres_mem {β γ : Type} (P : β → Prop) (f : β → γ → β) :
    ∀ (l : List γ) (s : β), P s → (∀ t, ∀ x ∈ l, P t → P (f t x)) →
      P (l.foldl f s) := by
  intro l
  induction l with
  | nil => intro s hs _; exact hs
  | cons a t ih =>
    intro s hs hstep
    rw [List.foldl_cons]
    exact ih _ (hstep s a (List.mem_cons_self a t) hs)
      (fun t' x hx ht' => hstep t' x (List.mem_cons_of_mem a hx) ht')

theorem foldl_estab_mem {β γ : Type} (P Q : β → Prop) (f : β → γ → β) (a : γ)
    (l : List γ) (s : β) (hs : P s) (hhead : ∀ t, P t → Q (f t a))
    (hpres : ∀ t, ∀ x ∈ l, Q t → Q (f t x)) : Q ((a :: l).foldl f s) := by
  rw [List.foldl_cons]
  exact foldl_pres_mem Q f l (f s a) (hhead s hs) hpres

theorem weight?_addNode {α : Type} (G : EGraph α) (n u v : Node) :
    (G.addNode n).weight? u v = G.weight? u v := by
  unfold EGraph.weight?
  rw [addNode_edges]

theorem weight?_addEdge_other {α : Type} (G : EGraph α) (u v x y : Node) (w : α)
    (hne : ¬((x = u ∧ y = v) ∨ (x = v ∧ y = u))) :
    (G.addEdge x y w).weight? u v = G.weight? u v := by
  have hkey : ∀ e : (Node × Node) × α, edgeMatches e.1 u v = true →
      edgeMatches e.1 x y = false := by
    intro e huv
    by_contra hxy
    rw [Bool.not_eq_false] at hxy
    unfold edgeMatches at huv hxy
    rw [decide_eq_true_iff] at huv hxy
    apply hne
    rcases huv with ⟨h1, h2⟩ | ⟨h1, h2⟩ <;> rcases hxy with ⟨h3, h4⟩ | ⟨h3, h4⟩
    · exact Or.inl ⟨h3 ▸ h1, h4 ▸ h2⟩
    · exact Or.inr ⟨h4 ▸ h2, h3 ▸ h1⟩
    · exact Or.inr ⟨h3 ▸ h1, h4 ▸ h2⟩
    · exact Or.inl ⟨h4 ▸ h2, h3 ▸ h1⟩
  unfold EGraph.addEdge EGraph.weight?
  have hG1 : ((G.addNode x).addNode y).edges = G.edges := by
    rw [addNode_edges, addNode_edges]
  by_cases hany : ((G.addNode x).addNode y).edges.any (fun e => edgeMatches e.1 x y) = true
  · rw [if_pos hany]
    show ((((G.addNode x).addNode y).edges.map
        (fun e => if edgeMatches e.1 x y then (e.1, w) else e)).find?
      (fun e => edgeMatches e.1 u v)).map (fun e => e.2) = _
    rw [find?_map_pred _ _ _ (fun e => by
      by_cases hm : edgeMatches e.1 x y = true
      · rw [if_pos hm]
      · rw [if_neg hm]), hG1]
    cases hf : G.edges.find? (fun e => edgeMatches e.1 u v) with
    | none => rfl
    | some e0 =>
      have hm0 : edgeMatches e0.1 u v = true :=
        List.find?_some (p := fun (e : (Node × Node) × α) => edgeMatches e.1 u v) hf
      rw [Option.map_map, Option.map_some', Option.map_some']
      show some (if edgeMatches e0.1 x y then ((e0.1, w) : (Node × Node) × α)
        else e0).2 = some e0.2
      rw [if_neg (by rw [hkey e0 hm0]; exact Bool.false_ne_true)]
  · rw [if_neg hany]
    show ((((G.addNode x).addNode y).edges ++ [((x, y), w)]).find?
      (fun e => edgeMatches e.1 u v)).map (fun e => e.2) = _
    rw [List.find?_append, hG1,
      List.find?_cons_of_neg (p := fun (e : (Node × Node) × α) =>
        edgeMatches e.1 u v) _ (by
          intro hc
          have := hkey ((x, y), w) hc
          rw [edgeMatches_self] at this
          exact Bool.noConfusion this),
      List.find?_nil, Option.or_none]

theorem neighborOffsets_ne_zero (b : Bool) :
    ∀ e ∈ neighborOffsets b, e ≠ ((0, 0) : ℤ × ℤ) := by
  cases b <;> decide

theorem neighborOffsets_nodup (b : Bool) : (neighborOffsets b).Nodup := by
  cases b <;> decide

theorem getEdgeWeight_neighbor {α : Type} [LinearOrderedField α] (mc : Bool)
    (s : α) (k : CellKind) (n : Node) (c : Prop) [Decidable c] :
    getEdgeWeight mc s k (some n) (decide c) =
      baseWeight mc k * (if c then s else 1) := by
  unfold getEdgeWeight baseWeight
  by_cases hc : c <;> cases mc <;> cases k <;> simp [hc]

theorem nodeEq_iff (u v : ℕ × ℕ) (f : ℤ) :
    (((u.1 : ℤ), (u.2 : ℤ), f) = ((v.1 : ℤ), (v.2 : ℤ), f)) ↔ u = v := by
  rw [Prod.ext_iff, Prod.ext_iff, Prod.ext_iff]
  simp

theorem processCell_pres_weight {α : Type} [LinearOrderedField α] (cfg : PFConfig α)
    (grid : Grid) (f : ℕ) (G : EGraph α) (c : ℕ × ℕ) (u v : Node) (w0 : Option α)
    (hcu : ((c.1 : ℤ), (c.2 : ℤ), (f : ℤ)) ≠ u)
    (hcv : ((c.1 : ℤ), (c.2 : ℤ), (f : ℤ)) ≠ v)
    (hw : G.weight? u v = w0) :
    (processCell cfg grid f G c.1 c.2).weight? u v = w0 := by
  unfold processCell
  cases hk : grid.at? c.1 c.2 with
  | none => exact hw
  | some k =>
    show (if k ≠ CellKind.wall ∧ k ≠ CellKind.walla then _ else G).weight? u v = w0
    by_cases hp : k ≠ CellKind.wall ∧ k ≠ CellKind.walla
    · rw [if_pos hp]
      refine foldl_pres (fun (K : EGraph α) => K.weight? u v = w0) _ _ _ ?_ ?_
      · show (G.addNode ((c.1 : ℤ), (c.2 : ℤ), (f : ℤ))).weight? u v = w0
        rw [weight?_addNode]
        exact hw
      · intro t d ht
        show (if 0 ≤ (c.1 : ℤ) + d.1 ∧ (c.1 : ℤ) + d.1 < (grid.rows : ℤ) ∧
            0 ≤ (c.2 : ℤ) + d.2 ∧ (c.2 : ℤ) + d.2 < (grid.cols : ℤ) then
          match grid.atZ? ((c.1 : ℤ) + d.1) ((c.2 : ℤ) + d.2) with
          | none => t
          | some nk =>
            if nk ≠ CellKind.wall ∧ nk ≠ CellKind.walla then
              t.addEdge ((c.1 : ℤ), (c.2 : ℤ), (f : ℤ))
                ((c.1 : ℤ) + d.1, (c.2 : ℤ) + d.2, (f : ℤ))
                (getEdgeWeight cfg.minimizeCost cfg.sqrt2 k
                  (some ((c.1 : ℤ) + d.1, (c.2 : ℤ) + d.2, (f : ℤ)))
                  (decide (d.1 ≠ (0 : ℤ) ∧ d.2 ≠ (0 : ℤ))))
            else t
          else t).weight? u v = w0
        by_cases hb : 0 ≤ (c.1 : ℤ) + d.1 ∧ (c.1 : ℤ) + d.1 < (grid.rows : ℤ) ∧
            0 ≤ (c.2 : ℤ) + d.2 ∧ (c.2 : ℤ) + d.2 < (grid.cols : ℤ)
        · rw [if_pos hb]
          cases ha : grid.atZ? ((c.1 : ℤ) + d.1) ((c.2 : ℤ) + d.2) with
          | none => exact ht
          | some nk =>
            show (if nk ≠ CellKind.wall ∧ nk ≠ CellKind.walla then _ else t).weight?
              u v = w0
            by_cases hnp : nk ≠ CellKind.wall ∧ nk ≠ CellKind.walla
            · rw [if_pos hnp,
                weight?_addEdge_other _ _ _ _ _ _ (fun hcon => by
                  rcases hcon with ⟨h1, _⟩ | ⟨h1, _⟩
                  · exact hcu h1
                  · exact hcv h1)]
              exact ht
            · rw [if_neg hnp]
              exact ht
        · rw [if_neg hb]
          exact ht
    · rw [if_neg hp]
      exact hw

theorem processCell_writes_pair {α : Type} [LinearOrderedField α] (cfg : PFConfig α)
    (grid : Grid) (f : ℕ) (G : EGraph α) (b a : ℕ × ℕ) (d : ℤ × ℤ)
    (hd : d ∈ neighborOffsets cfg.allowDiagonal)
    (ha1 : (a.1 : ℤ) = (b.1 : ℤ) + d.1) (ha2 : (a.2 : ℤ) = (b.2 : ℤ) + d.2)
    (kb ka : CellKind)
    (hkb : grid.at? b.1 b.2 = some kb)
    (hkbp : kb ≠ CellKind.wall ∧ kb ≠ CellKind.walla)
    (hka : grid.at? a.1 a.2 = some ka)
    (hkap : ka ≠ CellKind.wall ∧ ka ≠ CellKind.walla)
    (habnd : a.1 < grid.rows ∧ a.2 < grid.cols) :
    (processCell cfg grid f G b.1 b.2).weight?
        ((b.1 : ℤ), (b.2 : ℤ), (f : ℤ)) ((a.1 : ℤ), (a.2 : ℤ), (f : ℤ)) =
      some (getEdgeWeight cfg.minimizeCost cfg.sqrt2 kb
        (some ((a.1 : ℤ), (a.2 : ℤ), (f : ℤ)))
        (decide (d.1 ≠ (0 : ℤ) ∧ d.2 ≠ (0 : ℤ)))) := by
  have hd0 : d ≠ ((0, 0) : ℤ × ℤ) := neighborOffsets_ne_zero cfg.allowDiagonal d hd
  have hne_ab : ((b.1 : ℤ), (b.2 : ℤ), (f : ℤ)) ≠ ((a.1 : ℤ), (a.2 : ℤ), (f : ℤ)) := by
    intro hEq
    rw [nodeEq_iff] at hEq
    apply hd0
    subst hEq
    rw [Prod.ext_iff]
    exact ⟨by omega, by omega⟩
  obtain ⟨o1, o2, hsplit⟩ := List.append_of_mem hd
  have hdno : d ∉ o2 := by
    have hnd := neighborOffsets_nodup cfg.allowDiagonal
    rw [hsplit] at hnd
    rcases List.nodup_append.mp hnd with ⟨_, hnd2, _⟩
    exact (List.nodup_cons.mp hnd2).1
  unfold processCell
  cases hk : grid.at? b.1 b.2 with
  | none => rw [hkb] at hk; cases hk
  | some k =>
    rw [hkb] at hk
    have hk2 : k = kb := (Option.some.inj hk).symm
    subst hk2
    show (if k ≠ CellKind.wall ∧ k ≠ CellKind.walla then _ else G).weight? _ _ = _
    rw [if_pos hkbp, hsplit, List.foldl_append]
    refine foldl_estab_mem (fun _ => True)
      (fun (K : EGraph α) => K.weight?
        ((b.1 : ℤ), (b.2 : ℤ), (f : ℤ)) ((a.1 : ℤ), (a.2 : ℤ), (f : ℤ)) =
        some (getEdgeWeight cfg.minimizeCost cfg.sqrt2 k
          (some ((a.1 : ℤ), (a.2 : ℤ), (f : ℤ)))
          (decide (d.1 ≠ (0 : ℤ) ∧ d.2 ≠ (0 : ℤ)))))
      _ d o2 _ trivial ?_ ?_
    · intro t _
      show (if 0 ≤ (b.1 : ℤ) + d.1 ∧ (b.1 : ℤ) + d.1 < (grid.rows : ℤ) ∧
          0 ≤ (b.2 : ℤ) + d.2 ∧ (b.2 : ℤ) + d.2 < (grid.cols : ℤ) then
        match grid.atZ? ((b.1 : ℤ) + d.1) ((b.2 : ℤ) + d.2) with
        | none => t
        | some nk =>
          if nk ≠ CellKind.wall ∧ nk ≠ CellKind.walla then
            t.addEdge ((b.1 : ℤ), (b.2 : ℤ), (f : ℤ))
              ((b.1 : ℤ) + d.1, (b.2 : ℤ) + d.2, (f : ℤ))
              (getEdgeWeight cfg.minimizeCost cfg.sqrt2 k
                (some ((b.1 : ℤ) + d.1, (b.2 : ℤ) + d.2, (f : ℤ)))
                (decide (d.1 ≠ (0 : ℤ) ∧ d.2 ≠ (0 : ℤ))))
          else t
        else t).weight?
          ((b.1 : ℤ), (b.2 : ℤ), (f : ℤ)) ((a.1 : ℤ), (a.2 : ℤ), (f : ℤ)) =
        some (getEdgeWeight cfg.minimizeCost cfg.sqrt2 k
          (some ((a.1 : ℤ), (a.2 : ℤ), (f : ℤ)))
          (decide (d.1 ≠ (0 : ℤ) ∧ d.2 ≠ (0 : ℤ))))
      rw [← ha1, ← ha2, if_pos ⟨Int.natCast_nonneg a.1,
        by exact_mod_cast habnd.1, Int.natCast_nonneg a.2,
        by exact_mod_cast habnd.2⟩]
      cases hat : grid.atZ? (a.1 : ℤ) (a.2 : ℤ) with
      | none =>
        rw [atZ_natCast, hka] at hat
        cases hat
      | some nk =>
        rw [atZ_natCast, hka] at hat
        have : nk = ka := (Option.some.inj hat).symm
        subst this
        show (if nk ≠ CellKind.wall ∧ nk ≠ CellKind.walla then _ else t).weight?
          _ _ = _
        rw [if_pos hkap]
        exact weight?_addEdge_self t _ _ _
    · intro t d' hd' ht
      show (if 0 ≤ (b.1 : ℤ) + d'.1 ∧ (b.1 : ℤ) + d'.1 < (grid.rows : ℤ) ∧
          0 ≤ (b.2 : ℤ) + d'.2 ∧ (b.2 : ℤ) + d'.2 < (grid.cols : ℤ) then
        match grid.atZ? ((b.1 : ℤ) + d'.1) ((b.2 : ℤ) + d'.2) with
        | none => t
        | some nk =>
          if nk ≠ CellKind.wall ∧ nk ≠ CellKind.walla then
            t.addEdge ((b.1 : ℤ), (b.2 : ℤ), (f : ℤ))
              ((b.1 : ℤ) + d'.1, (b.2 : ℤ) + d'.2, (f : ℤ))
              (getEdgeWeight cfg.minimizeCost cfg.sqrt2 k
                (some ((b.1 : ℤ) + d'.1, (b.2 : ℤ) + d'.2, (f : ℤ)))
                (decide (d'.1 ≠ (0 : ℤ) ∧ d'.2 ≠ (0 : ℤ))))
          else t
        else t).weight?
          ((b.1 : ℤ), (b.2 : ℤ), (f : ℤ)) ((a.1 : ℤ), (a.2 : ℤ), (f : ℤ)) =
        some (getEdgeWeight cfg.minimizeCost cfg.sqrt2 k
          (some ((a.1 : ℤ), (a.2 : ℤ), (f : ℤ)))
          (decide (d.1 ≠ (0 : ℤ) ∧ d.2 ≠ (0 : ℤ))))
      by_cases hb : 0 ≤ (b.1 : ℤ) + d'.1 ∧ (b.1 : ℤ) + d'.1 < (grid.rows : ℤ) ∧
          0 ≤ (b.2 : ℤ) + d'.2 ∧ (b.2 : ℤ) + d'.2 < (grid.cols : ℤ)
      · rw [if_pos hb]
        cases hat : grid.atZ? ((b.1 : ℤ) + d'.1) ((b.2 : ℤ) + d'.2) with
        | none => exact ht
        | some nk =>
          show (if nk ≠ CellKind.wall ∧ nk ≠ CellKind.walla then _ else t).weight?
            _ _ = _
          by_cases hnp : nk ≠ CellKind.wall ∧ nk ≠ CellKind.walla
          · rw [if_pos hnp,
              weight?_addEdge_other _ _ _ _ _ _ (fun hcon => by
                rcases hcon with ⟨_, h2⟩ | ⟨h1, _⟩
                · apply hdno
                  have h21 : (b.1 : ℤ) + d'.1 = (a.1 : ℤ) := congrArg Prod.fst h2
                  have h22 : (b.2 : ℤ) + d'.2 = (a.2 : ℤ) :=
                    congrArg (fun p : Node => p.2.1) h2
                  have hdd : d' = d := by
                    rw [Prod.ext_iff]
                    exact ⟨by omega, by omega⟩
                  exact hdd ▸ hd'
                · exact hne_ab h1)]
            exact ht
          · rw [if_neg hnp]
            exact ht
      · rw [if_neg hb]
        exact ht

theorem rmLt_irrefl (u : ℕ × ℕ) : ¬ rmLt u u := by
  unfold rmLt
  omega

theorem rmLt_trans {u v w : ℕ × ℕ} (h1 : rmLt u v) (h2 : rmLt v w) : rmLt u w := by
  unfold rmLt at h1 h2 ⊢
  omega

theorem pairwise_cellPositions (g : Grid) : List.Pairwise rmLt (cellPositions g) := by
  unfold cellPositions
  refine List.pairwise_bind.mpr ⟨?_, ?_⟩
  · intro x hx
    refine List.Pairwise.map _ ?_ (List.pairwise_lt_range g.cols)
    intro y1 y2 hy
    exact Or.inr ⟨rfl, hy⟩
  · refine List.Pairwise.imp ?_ (List.pairwise_lt_range g.rows)
    intro x1 x2 hx u hu v hv
    rw [List.mem_map] at hu hv
    obtain ⟨y1, _, rfl⟩ := hu
    obtain ⟨y2, _, rfl⟩ := hv
    exact Or.inl hx

theorem mem_cellPositions_of_bounds (g : Grid) (p : ℕ × ℕ)
    (h1 : p.1 < g.rows) (h2 : p.2 < g.cols) : p ∈ cellPositions g := by
  unfold cellPositions
  rw [List.mem_bind]
  exact ⟨p.1, List.mem_range.mpr h1,
    List.mem_map.mpr ⟨p.2, List.mem_range.mpr h2, Prod.mk.eta⟩⟩

theorem of_ite_none_some {γ : Type} (c : Prop) [Decidable c] (v e : γ)
    (h : (if c then some v else none) = some e) : c ∧ e = v := by
  by_cases hc : c
  · rw [if_pos hc] at h
    exact ⟨hc, (Option.some.inj h).symm⟩
  · rw [if_neg hc] at h
    cases h

theorem floodNeighbors_stairs (grids : GridStack) (visited : List (ℕ × ℕ × ℕ))
    (c : ℕ × ℕ × ℕ) :
    ∀ e ∈ floodNeighbors grids visited c, stairAt grids e.2.2 e.1 e.2.1 = true := by
  intro e he
  simp only [floodNeighbors, List.mem_append, List.mem_filterMap] at he
  rcases he with ⟨d, hd, heq⟩ | ⟨af, haf, heq⟩
  · obtain ⟨hcond, hev⟩ := of_ite_none_some _ _ _ heq
    subst hev
    exact hcond.2.2.2.2.1
  · obtain ⟨hcond, hev⟩ := of_ite_none_some _ _ _ heq
    subst hev
    exact hcond.2.2.1

theorem floodFill3dAux_stairs (grids : GridStack) :
    ∀ fuel queue visited,
    (∀ e ∈ queue, stairAt grids e.2.2 e.1 e.2.1 = true) →
    (∀ e ∈ visited, stairAt grids e.2.2 e.1 e.2.1 = true) →
    ∀ e ∈ floodFill3dAux grids fuel queue visited,
      stairAt grids e.2.2 e.1 e.2.1 = true := by
  intro fuel
  induction fuel with
  | zero => intro queue visited _ hv; exact hv
  | succ fuel ih =>
    intro queue visited hq hv
    cases queue with
    | nil => exact hv
    | cons c queue =>
      show ∀ e ∈ (if c ∈ visited then floodFill3dAux grids fuel queue visited
          else floodFill3dAux grids fuel (queue ++ floodNeighbors grids visited c)
            (visited ++ [c])), stairAt grids e.2.2 e.1 e.2.1 = true
      by_cases hc : c ∈ visited
      · rw [if_pos hc]
        exact ih queue visited (fun e he => hq e (List.mem_cons_of_mem c he)) hv
      · rw [if_neg hc]
        refine ih _ _ ?_ ?_
        · intro e he
          rcases List.mem_append.mp he with h1 | h2
          · exact hq e (List.mem_cons_of_mem c h1)
          · exact floodNeighbors_stairs grids visited c e h2
        · intro e he
          rcases List.mem_append.mp he with h1 | h2
          · exact hv e h1
          · rw [List.mem_singleton] at h2
            subst h2
            exact hq e (List.mem_cons_self e queue)

theorem groupConnectedStairs_stairs (grids : GridStack) :
    ∀ grp ∈ groupConnectedStairs grids, ∀ e ∈ grp,
      stairAt grids e.2.2 e.1 e.2.1 = true := by
  intro grp hg
  unfold groupConnectedStairs at hg
  refine List.foldlRecOn (motive := fun (st : List (ℕ × ℕ × ℕ) ×
      List (List (ℕ × ℕ × ℕ))) => ∀ q ∈ st.2, ∀ e ∈ q,
      stairAt grids e.2.2 e.1 e.2.1 = true)
    (stackPositions grids) _ _ ?_ ?_ grp hg
  · intro q hq
    exact absurd hq (List.not_mem_nil q)
  · intro st hst c _ q hq
    have hq2 : q ∈ (if stairAt grids c.2.2 c.1 c.2.1 = true ∧ c ∉ st.1 then
        (st.1 ++ floodFill3d grids c, st.2 ++ [floodFill3d grids c])
      else st).2 := hq
    by_cases hcond : stairAt grids c.2.2 c.1 c.2.1 = true ∧ c ∉ st.1
    · rw [if_pos hcond] at hq2
      have hq3 : q ∈ st.2 ++ [floodFill3d grids c] := hq2
      rcases List.mem_append.mp hq3 with h1 | h2
      · exact hst q h1
      · rw [List.mem_singleton] at h2
        subst h2
        exact floodFill3dAux_stairs grids _ _ _
          (fun e he => by rw [List.mem_singleton] at he; subst he; exact hcond.1)
          (fun e he => absurd he (List.not_mem_nil e))
    · rw [if_neg hcond] at hq2
      exact hst q hq2

theorem stairAt_floor (grids : GridStack) (f x y : ℕ)
    (h : stairAt grids f x y = true) : f < grids.length := by
  unfold stairAt at h
  rw [decide_eq_true_iff] at h
  by_contra hf
  rw [List.get?_eq_none.mpr (le_of_not_lt hf)] at h
  cases h

theorem sortedDistinct_zeros (l : List ℕ) (h0 : ∀ n ∈ l, n = 0) :
    sortedDistinct l = [] ∨ sortedDistinct l = [0] := by
  unfold sortedDistinct
  refine foldl_pres_mem (fun acc => acc = [] ∨ acc = [0]) _ l [] (Or.inl rfl) ?_
  intro t n hn ht
  have hn0 : n = 0 := h0 n hn
  subst hn0
  rcases ht with rfl | rfl
  · right
    show (if (0 : ℕ) ∈ ([] : List ℕ) then ([] : List ℕ) else insertAsc 0 []) = [0]
    rw [if_neg (List.not_mem_nil 0)]
    rfl
  · right
    show (if (0 : ℕ) ∈ [0] then [0] else insertAsc 0 [0]) = [0]
    rw [if_pos (List.mem_singleton_self 0)]

theorem processStairGroup_ident {α : Type} [LinearOrderedField α] (cfg : PFConfig α)
    (buffered : GridStack) (group : List (ℕ × ℕ × ℕ)) (G : EGraph α)
    (h0 : ∀ c ∈ group, c.2.2 = 0) :
    processStairGroup cfg buffered group G = G := by
  have hz : ∀ n ∈ group.map (fun c => c.2.2), n = 0 := by
    intro n hn
    rw [List.mem_map] at hn
    obtain ⟨c, hc, rfl⟩ := hn
    exact h0 c hc
  unfold processStairGroup
  dsimp only
  rcases sortedDistinct_zeros _ hz with h | h <;> rw [h] <;> rfl

theorem connectStairs_single {α : Type} [LinearOrderedField α] (cfg : PFConfig α)
    (g : Grid) (G : EGraph α) : connectStairs cfg [g] G = G := by
  unfold connectStairs
  refine foldl_fixed _ _ _ ?_
  intro acc grp hgrp
  refine processStairGroup_ident cfg [g] grp acc ?_
  intro c hc
  have hs := groupConnectedStairs_stairs [g] grp hgrp c hc
  have hf := stairAt_floor [g] c.2.2 c.1 c.2.1 hs
  simp only [List.length_singleton] at hf
  omega

theorem createGraph_single {α : Type} [LinearOrderedField α] (cfg : PFConfig α)
    (g : Grid) : createGraph cfg [g] = buildFloorNodes cfg g 0 ⟨[], []⟩ := by
  unfold createGraph
  dsimp only
  rw [connectStairs_single]
  rfl

/-- C5 counterexample: on the one-row grid `door, floor` the edge between the
two cells is first added from the `door` cell with weight `4`, then re-added
from the `floor` cell with weight `1`, which overwrites it: the stored weight
is `1` although `base(door) = 4` — so the stored weight does not in general
equal `base` of the cell that created the edge. -/
theorem createGraph_overwrites_source_weight :
    (createGraph cfgPlain [[[CellKind.door, CellKind.floor]]]).weight?
        (0, 1, 0) (0, 0, 0) = some 1 ∧
    getEdgeWeight true (0 : ℚ) CellKind.door (some ((0, 1, 0) : Node)) false = 4 :=
  ⟨rfl, rfl⟩


theorem buildFloorNodes_pair_weight {α : Type} [LinearOrderedField α]
    (cfg : PFConfig α) (g : Grid) (fi : ℕ) (G : EGraph α)
    (a b : ℕ × ℕ) (d : ℤ × ℤ)
    (hd : d ∈ neighborOffsets cfg.allowDiagonal)
    (ha1 : (a.1 : ℤ) = (b.1 : ℤ) + d.1) (ha2 : (a.2 : ℤ) = (b.2 : ℤ) + d.2)
    (ka kb : CellKind)
    (hka : g.at? a.1 a.2 = some ka)
    (hkap : ka ≠ CellKind.wall ∧ ka ≠ CellKind.walla)
    (hkb : g.at? b.1 b.2 = some kb)
    (hkbp : kb ≠ CellKind.wall ∧ kb ≠ CellKind.walla)
    (habnd : a.1 < g.rows ∧ a.2 < g.cols)
    (hbbnd : b.1 < g.rows ∧ b.2 < g.cols)
    (hord : rmLt a b) :
    (buildFloorNodes cfg g fi G).weight?
        ((b.1 : ℤ), (b.2 : ℤ), (fi : ℤ)) ((a.1 : ℤ), (a.2 : ℤ), (fi : ℤ)) =
      some (getEdgeWeight cfg.minimizeCost cfg.sqrt2 kb
        (some ((a.1 : ℤ), (a.2 : ℤ), (fi : ℤ)))
        (decide (d.1 ≠ (0 : ℤ) ∧ d.2 ≠ (0 : ℤ)))) := by
  unfold buildFloorNodes
  have hbmem : b ∈ cellPositions g :=
    mem_cellPositions_of_bounds g b hbbnd.1 hbbnd.2
  obtain ⟨l1, l2, hsplit⟩ := List.append_of_mem hbmem
  have hl2 : ∀ c ∈ l2, rmLt b c := by
    have hP := pairwise_cellPositions g
    rw [hsplit, List.pairwise_append] at hP
    exact fun c hc => (List.pairwise_cons.mp hP.2.1).1 c hc
  rw [hsplit, List.foldl_append]
  refine foldl_estab_mem (fun _ => True)
    (fun (K : EGraph α) => K.weight?
      ((b.1 : ℤ), (b.2 : ℤ), (fi : ℤ)) ((a.1 : ℤ), (a.2 : ℤ), (fi : ℤ)) =
      some (getEdgeWeight cfg.minimizeCost cfg.sqrt2 kb
        (some ((a.1 : ℤ), (a.2 : ℤ), (fi : ℤ)))
        (decide (d.1 ≠ (0 : ℤ) ∧ d.2 ≠ (0 : ℤ)))))
    _ b l2 _ trivial ?_ ?_
  · intro t _
    exact processCell_writes_pair cfg g fi t b a d hd ha1 ha2 kb ka hkb hkbp
      hka hkap habnd
  · intro t c hc ht
    have hcb : c ≠ b := fun hEq => rmLt_irrefl b (hEq ▸ hl2 c hc)
    have hca : c ≠ a := fun hEq =>
      rmLt_irrefl a (rmLt_trans hord (hEq ▸ hl2 c hc))
    refine processCell_pres_weight cfg g fi t c _ _ _ ?_ ?_ ht
    · intro hEq
      exact hcb ((nodeEq_iff c b (fi : ℤ)).mp hEq)
    · intro hEq
      exact hca ((nodeEq_iff c a (fi : ℤ)).mp hEq)

theorem mem_insertAsc (n : ℕ) : ∀ (l : List ℕ) (x : ℕ),
    x ∈ insertAsc n l ↔ x = n ∨ x ∈ l := by
  intro l
  induction l with
  | nil =>
    intro x
    show x ∈ [n] ↔ _
    simp
  | cons m t ih =>
    intro x
    show x ∈ (if n ≤ m then n :: m :: t else m :: insertAsc n t) ↔ _
    by_cases h : n ≤ m
    · rw [if_pos h, List.mem_cons]
    · rw [if_neg h, List.mem_cons, ih, List.mem_cons]
      tauto

theorem pairwise_insertAsc (n : ℕ) : ∀ (l : List ℕ),
    List.Pairwise (· < ·) l → n ∉ l → List.Pairwise (· < ·) (insertAsc n l) := by
  intro l
  induction l with
  | nil =>
    intro _ _
    show List.Pairwise (· < ·) [n]
    simp
  | cons m t ih =>
    intro hp hn
    show List.Pairwise (· < ·) (if n ≤ m then n :: m :: t else m :: insertAsc n t)
    rcases List.pairwise_cons.mp hp with ⟨hm, ht⟩
    by_cases h : n ≤ m
    · rw [if_pos h]
      have hnm : n < m :=
        lt_of_le_of_ne h (fun hEq => hn (hEq ▸ List.mem_cons_self m t))
      refine List.pairwise_cons.mpr ⟨?_, hp⟩
      intro x hx
      rcases List.mem_cons.mp hx with rfl | hx2
      · exact hnm
      · exact lt_trans hnm (hm x hx2)
    · rw [if_neg h]
      refine List.pairwise_cons.mpr
        ⟨?_, ih ht (fun hc => hn (List.mem_cons_of_mem m hc))⟩
      intro x hx
      rcases (mem_insertAsc n t x).mp hx with rfl | hx2
      · omega
      · exact hm x hx2

theorem sortedDistinct_pairwise (l : List ℕ) :
    List.Pairwise (· < ·) (sortedDistinct l) := by
  unfold sortedDistinct
  refine foldl_pres (fun acc => List.Pairwise (· < ·) acc) _ l [] List.Pairwise.nil ?_
  intro t n ht
  show List.Pairwise (· < ·) (if n ∈ t then t else insertAsc n t)
  by_cases h : n ∈ t
  · rw [if_pos h]
    exact ht
  · rw [if_neg h]
    exact pairwise_insertAsc n t ht h

theorem sortedDistinct_adj_lt (l : List ℕ) (i : ℕ)
    (h : i + 1 < (sortedDistinct l).length) :
    (sortedDistinct l).getD i 0 < (sortedDistinct l).getD (i + 1) 0 := by
  rw [(sortedDistinct l).getD_eq_getElem 0 (by omega),
    (sortedDistinct l).getD_eq_getElem 0 h]
  exact List.pairwise_iff_getElem.mp (sortedDistinct_pairwise l) i (i + 1)
    (by omega) h (by omega)

theorem connectStairsFallback_pres_weight {α : Type} [LinearOrderedField α]
    (cfg : PFConfig α) (H : EGraph α) (lowers uppers : List (ℕ × ℕ × ℕ))
    (u v : Node) (w0 : Option α)
    (hpq : ∀ p ∈ lowers, ∀ q ∈ uppers, p.2.2 ≠ q.2.2) (huv : u.2.2 = v.2.2)
    (hw : H.weight? u v = w0) :
    (connectStairsFallback cfg H lowers uppers).weight? u v = w0 := by
  unfold connectStairsFallback
  refine foldl_pres_mem (fun (K : EGraph α) => K.weight? u v = w0) _ lowers H hw ?_
  intro t p hp ht
  refine foldl_pres_mem (fun (K : EGraph α) => K.weight? u v = w0) _ uppers t ht ?_
  intro t' q hq ht'
  show (if ((p.1 : ℤ), (p.2.1 : ℤ), (p.2.2 : ℤ)) ∈ t'.nodes ∧
      ((q.1 : ℤ), (q.2.1 : ℤ), (q.2.2 : ℤ)) ∈ t'.nodes then
    t'.addEdge ((p.1 : ℤ), (p.2.1 : ℤ), (p.2.2 : ℤ))
      ((q.1 : ℤ), (q.2.1 : ℤ), (q.2.2 : ℤ))
      (getEdgeWeight cfg.minimizeCost cfg.sqrt2 CellKind.stair none false)
    else t').weight? u v = w0
  by_cases hgd : ((p.1 : ℤ), (p.2.1 : ℤ), (p.2.2 : ℤ)) ∈ t'.nodes ∧
      ((q.1 : ℤ), (q.2.1 : ℤ), (q.2.2 : ℤ)) ∈ t'.nodes
  · rw [if_pos hgd, weight?_addEdge_other _ _ _ _ _ _ (fun hcon => by
      apply hpq p hp q hq
      rcases hcon with ⟨h1, h2⟩ | ⟨h1, h2⟩
      · have hu2 := congrArg (fun n : Node => n.2.2) h1
        have hv2 := congrArg (fun n : Node => n.2.2) h2
        dsimp only at hu2 hv2
        omega
      · have hu2 := congrArg (fun n : Node => n.2.2) h1
        have hv2 := congrArg (fun n : Node => n.2.2) h2
        dsimp only at hu2 hv2
        omega)]
    exact ht'
  · rw [if_neg hgd]
    exact ht'

theorem pairBranch_pres {α : Type} [LinearOrderedField α] (cfg : PFConfig α)
    (lowers uppers : List (ℕ × ℕ × ℕ)) (res : EGraph α × ℕ) (u v : Node)
    (w0 : Option α) (h1 : res.1.weight? u v = w0)
    (hfb : ∀ H : EGraph α, H.weight? u v = w0 →
      (connectStairsFallback cfg H lowers uppers).weight? u v = w0) :
    (if res.2 = 0 then connectStairsFallback cfg res.1 lowers uppers
      else res.1).weight? u v = w0 := by
  by_cases h : res.2 = 0
  · rw [if_pos h]
    exact hfb res.1 h1
  · rw [if_neg h]
    exact h1

theorem processStairPair_pres_weight {α : Type} [LinearOrderedField α]
    (cfg : PFConfig α) (buffered : GridStack) (lo hi : ℕ)
    (lowers uppers : List (ℕ × ℕ × ℕ)) (G : EGraph α) (u v : Node)
    (w0 : Option α)
    (hlo : ∀ p ∈ lowers, p.2.2 = lo) (hhi : ∀ q ∈ uppers, q.2.2 = hi)
    (hlh : lo ≠ hi) (huv : u.2.2 = v.2.2)
    (hw : G.weight? u v = w0) :
    (processStairPair cfg buffered lo hi lowers uppers G).weight? u v = w0 := by
  unfold processStairPair
  dsimp only
  refine pairBranch_pres cfg lowers uppers _ u v w0 ?_ ?_
  · refine foldl_pres_mem
      (fun (st : EGraph α × ℕ) => st.1.weight? u v = w0) _ lowers
      ((G, 0) : EGraph α × ℕ) hw ?_
    intro st p' hp' hst
    refine foldl_pres_mem
      (fun (st' : EGraph α × ℕ) => st'.1.weight? u v = w0) _ uppers st hst ?_
    intro st' q' hq' hst'
    show (if checkStairConnection buffered (cfg.offsets (cfg.gridDist lo hi))
        p'.1 p'.2.1 lo q'.1 q'.2.1 hi = true then
      if ((p'.1 : ℤ), (p'.2.1 : ℤ), (lo : ℤ)) ∈ st'.1.nodes ∧
          ((q'.1 : ℤ), (q'.2.1 : ℤ), (hi : ℤ)) ∈ st'.1.nodes then
        (st'.1.addEdge ((p'.1 : ℤ), (p'.2.1 : ℤ), (lo : ℤ))
          ((q'.1 : ℤ), (q'.2.1 : ℤ), (hi : ℤ))
          (cfg.stairW ((p'.1 : ℤ), (p'.2.1 : ℤ), (lo : ℤ))
            ((q'.1 : ℤ), (q'.2.1 : ℤ), (hi : ℤ))), st'.2 + 1)
      else st'
    else st').1.weight? u v = w0
    by_cases hchk : checkStairConnection buffered (cfg.offsets (cfg.gridDist lo hi))
        p'.1 p'.2.1 lo q'.1 q'.2.1 hi = true
    · rw [if_pos hchk]
      by_cases hgd : ((p'.1 : ℤ), (p'.2.1 : ℤ), (lo : ℤ)) ∈ st'.1.nodes ∧
          ((q'.1 : ℤ), (q'.2.1 : ℤ), (hi : ℤ)) ∈ st'.1.nodes
      · rw [if_pos hgd]
        show (st'.1.addEdge ((p'.1 : ℤ), (p'.2.1 : ℤ), (lo : ℤ))
          ((q'.1 : ℤ), (q'.2.1 : ℤ), (hi : ℤ))
          (cfg.stairW ((p'.1 : ℤ), (p'.2.1 : ℤ), (lo : ℤ))
            ((q'.1 : ℤ), (q'.2.1 : ℤ), (hi : ℤ)))).weight? u v = w0
        rw [weight?_addEdge_other _ _ _ _ _ _ (fun hcon => by
          apply hlh
          rcases hcon with ⟨h1, h2⟩ | ⟨h1, h2⟩
          · have hu2 := congrArg (fun n : Node => n.2.2) h1
            have hv2 := congrArg (fun n : Node => n.2.2) h2
            dsimp only at hu2 hv2
            omega
          · have hu2 := congrArg (fun n : Node => n.2.2) h1
            have hv2 := congrArg (fun n : Node => n.2.2) h2
            dsimp only at hu2 hv2
            omega)]
        exact hst'
      · rw [if_neg hgd]
        exact hst'
    · rw [if_neg hchk]
      exact hst'
  · intro H hH
    refine connectStairsFallback_pres_weight cfg H lowers uppers u v w0 ?_ huv hH
    intro p hp q hq
    rw [hlo p hp, hhi q hq]
    exact hlh

theorem processStairGroup_pres_weight {α : Type} [LinearOrderedField α]
    (cfg : PFConfig α) (buffered : GridStack) (group : List (ℕ × ℕ × ℕ))
    (G : EGraph α) (u v : Node) (w0 : Option α) (huv : u.2.2 = v.2.2)
    (hw : G.weight? u v = w0) :
    (processStairGroup cfg buffered group G).weight? u v = w0 := by
  unfold processStairGroup
  dsimp only
  refine foldl_pres_mem (fun (K : EGraph α) => K.weight? u v = w0) _ _ G hw ?_
  intro t i hi ht
  refine processStairPair_pres_weight cfg buffered _ _ _ _ t u v w0 ?_ ?_ ?_ huv ht
  · intro p hp
    rw [List.mem_filter] at hp
    exact of_decide_eq_true hp.2
  · intro q hq
    rw [List.mem_filter] at hq
    exact of_decide_eq_true hq.2
  · have hi' := List.mem_range.mp hi
    exact Nat.ne_of_lt (sortedDistinct_adj_lt (group.map (fun c => c.2.2)) i
      (by omega))

theorem connectStairs_pres_weight {α : Type} [LinearOrderedField α]
    (cfg : PFConfig α) (buffered : GridStack) (G : EGraph α) (u v : Node)
    (w0 : Option α) (huv : u.2.2 = v.2.2) (hw : G.weight? u v = w0) :
    (connectStairs cfg buffered G).weight? u v = w0 := by
  unfold connectStairs
  refine foldl_pres (fun (K : EGraph α) => K.weight? u v = w0) _ _ G hw ?_
  intro t grp ht
  exact processStairGroup_pres_weight cfg buffered grp t u v w0 huv ht

/-- C5: in the graph built by `create_graph` from any buffered stack, the
stored weight of the intra-floor edge between two adjacent passable cells `a`
and `b` of floor `fi`, with `a` strictly earlier in row-major order, is
`base(kind of b) × (√2 if diagonal else 1)` — the base taken from the
row-major-LATER endpoint `b`, because `_create_graph` adds the edge once from
each endpoint and the second `add_edge` call, whose source cell is `b`,
overwrites the first; the scans of the other floors and the stair-connection
pass (whose edges always join two distinct floors) never touch the pair.  The
claim's "kind of the source cell" holds only for that later call; see the
counterexample. -/
theorem createGraph_intraFloor_weight {α : Type} [LinearOrderedField α]
    (cfg : PFConfig α) (buffered : GridStack) (fi : ℕ) (g : Grid)
    (hg : buffered.get? fi = some g)
    (a b : ℕ × ℕ) (d : ℤ × ℤ)
    (hd : d ∈ neighborOffsets cfg.allowDiagonal)
    (ha1 : (a.1 : ℤ) = (b.1 : ℤ) + d.1) (ha2 : (a.2 : ℤ) = (b.2 : ℤ) + d.2)
    (ka kb : CellKind)
    (hka : g.at? a.1 a.2 = some ka)
    (hkap : ka ≠ CellKind.wall ∧ ka ≠ CellKind.walla)
    (hkb : g.at? b.1 b.2 = some kb)
    (hkbp : kb ≠ CellKind.wall ∧ kb ≠ CellKind.walla)
    (habnd : a.1 < g.rows ∧ a.2 < g.cols)
    (hbbnd : b.1 < g.rows ∧ b.2 < g.cols)
    (hord : rmLt a b) :
    (createGraph cfg buffered).weight? ((b.1 : ℤ), (b.2 : ℤ), (fi : ℤ))
        ((a.1 : ℤ), (a.2 : ℤ), (fi : ℤ)) =
      some (baseWeight cfg.minimizeCost kb *
        (if d.1 ≠ (0 : ℤ) ∧ d.2 ≠ (0 : ℤ) then cfg.sqrt2 else 1)) := by
  have hWeq : some (baseWeight cfg.minimizeCost kb *
      (if d.1 ≠ (0 : ℤ) ∧ d.2 ≠ (0 : ℤ) then cfg.sqrt2 else 1)) =
      some (getEdgeWeight cfg.minimizeCost cfg.sqrt2 kb
        (some ((a.1 : ℤ), (a.2 : ℤ), (fi : ℤ)))
        (decide (d.1 ≠ (0 : ℤ) ∧ d.2 ≠ (0 : ℤ)))) := by
    rw [getEdgeWeight_neighbor]
  rw [hWeq]
  unfold createGraph
  dsimp only
  refine connectStairs_pres_weight cfg buffered _ _ _ _ rfl ?_
  have hlt : fi < buffered.length := (List.get?_eq_some.mp hg).1
  have hmem : fi ∈ List.range buffered.length := List.mem_range.mpr hlt
  obtain ⟨l1, l2, hsplit⟩ := List.append_of_mem hmem
  have hl2 : ∀ f' ∈ l2, fi < f' := by
    have hP := List.pairwise_lt_range buffered.length
    rw [hsplit, List.pairwise_append] at hP
    exact fun f' hf' => (List.pairwise_cons.mp hP.2.1).1 f' hf'
  rw [hsplit, List.foldl_append]
  refine foldl_estab_mem (fun _ => True)
    (fun (K : EGraph α) => K.weight?
      ((b.1 : ℤ), (b.2 : ℤ), (fi : ℤ)) ((a.1 : ℤ), (a.2 : ℤ), (fi : ℤ)) =
      some (getEdgeWeight cfg.minimizeCost cfg.sqrt2 kb
        (some ((a.1 : ℤ), (a.2 : ℤ), (fi : ℤ)))
        (decide (d.1 ≠ (0 : ℤ) ∧ d.2 ≠ (0 : ℤ)))))
    _ fi l2 _ trivial ?_ ?_
  · intro t _
    show (match buffered.get? fi with
      | none => t
      | some grid => buildFloorNodes cfg grid fi t).weight?
        ((b.1 : ℤ), (b.2 : ℤ), (fi : ℤ)) ((a.1 : ℤ), (a.2 : ℤ), (fi : ℤ)) =
      some (getEdgeWeight cfg.minimizeCost cfg.sqrt2 kb
        (some ((a.1 : ℤ), (a.2 : ℤ), (fi : ℤ)))
        (decide (d.1 ≠ (0 : ℤ) ∧ d.2 ≠ (0 : ℤ))))
    rw [hg]
    exact buildFloorNodes_pair_weight cfg g fi t a b d hd ha1 ha2 ka kb hka hkap
      hkb hkbp habnd hbbnd hord
  · intro t f' hf' ht
    show (match buffered.get? f' with
      | none => t
      | some grid => buildFloorNodes cfg grid f' t).weight?
        ((b.1 : ℤ), (b.2 : ℤ), (fi : ℤ)) ((a.1 : ℤ), (a.2 : ℤ), (fi : ℤ)) =
      some (getEdgeWeight cfg.minimizeCost cfg.sqrt2 kb
        (some ((a.1 : ℤ), (a.2 : ℤ), (fi : ℤ)))
        (decide (d.1 ≠ (0 : ℤ) ∧ d.2 ≠ (0 : ℤ))))
    cases hgf : buffered.get? f' with
    | none => exact ht
    | some grid2 =>
      show ((cellPositions grid2).foldl
          (fun G p => processCell cfg grid2 f' G p.1 p.2) t).weight?
          ((b.1 : ℤ), (b.2 : ℤ), (fi : ℤ)) ((a.1 : ℤ), (a.2 : ℤ), (fi : ℤ)) =
        some (getEdgeWeight cfg.minimizeCost cfg.sqrt2 kb
          (some ((a.1 : ℤ), (a.2 : ℤ), (fi : ℤ)))
          (decide (d.1 ≠ (0 : ℤ) ∧ d.2 ≠ (0 : ℤ))))
      refine foldl_pres
        (fun (K : EGraph α) => K.weight?
          ((b.1 : ℤ), (b.2 : ℤ), (fi : ℤ)) ((a.1 : ℤ), (a.2 : ℤ), (fi : ℤ)) =
          some (getEdgeWeight cfg.minimizeCost cfg.sqrt2 kb
            (some ((a.1 : ℤ), (a.2 : ℤ), (fi : ℤ)))
            (decide (d.1 ≠ (0 : ℤ) ∧ d.2 ≠ (0 : ℤ)))))
        _ _ t ht ?_
      intro t2 c ht2
      have hff : (f' : ℤ) ≠ (fi : ℤ) := by
        have := hl2 f' hf'
        omega
      refine processCell_pres_weight cfg grid2 f' t2 c _ _ _ ?_ ?_ ht2
      · intro hEq
        exact hff (congrArg (fun n : Node => n.2.2) hEq)
      · intro hEq
        exact hff (congrArg (fun n : Node => n.2.2) hEq)

theorem createGraph_intraFloor_weight_witness :
    ((0, -1) : ℤ × ℤ) ∈ neighborOffsets cfgPlain.allowDiagonal ∧
    (createGraph cfgPlain [[[CellKind.door, CellKind.floor]]]).weight?
        (0, 1, 0) (0, 0, 0) =
      some (baseWeight cfgPlain.minimizeCost CellKind.floor *
        (if (0 : ℤ) ≠ (0 : ℤ) ∧ (-1 : ℤ) ≠ (0 : ℤ) then cfgPlain.sqrt2 else 1)) :=
  ⟨by decide,
   createGraph_intraFloor_weight cfgPlain [[[CellKind.door, CellKind.floor]]]
     0 [[CellKind.door, CellKind.floor]] rfl
     (0, 0) (0, 1) (0, -1) (by decide) (by decide) (by decide)
     CellKind.door CellKind.floor rfl (by decide) rfl (by decide)
     (by decide) (by decide) (by unfold rmLt; exact Or.inr ⟨rfl, by omega⟩)⟩
